import Mathlib

/-! # A strided tensor library: index resolution, views and kernels

Shallow embedding of `tensorLib/include/Tensor.hpp` and `tensorLib/src/Tensor.cpp`.

Modelling conventions.

* `int` values are mathematical integers (`Int`). Signed overflow is undefined behaviour in
  C++, so executions that overflow an `int` are outside the model. The constructor
  `Tensor(shape)` multiplies sizes that the caller chooses; it is also embedded with its
  `int` products reduced to 32 bits, as the targets of the library compute them (`toInt32`,
  `Tensor.fromShape.int32`), and the theorems on the constructor's own argument are about
  that embedding. The two embeddings return the same tensor for every shape none of whose
  products leaves the range of the type (`Tensor.IntShape`, `Tensor.fromShape_int32_eq`).
* Floating point is not modelled: `quantize` and `dequantize`, which compute in binary32,
  have no definition here, and the `float` field `scale` is only carried.
* `size_t` is the 64-bit unsigned type: a conversion to `size_t` and every `size_t` addition
  is written with an explicit `% 2^64` (`toSizeT`, `SIZE_MOD`). Subscripting the
  `std::shared_ptr<dtype[]>` takes a `std::ptrdiff_t`; `toPtrdiff` is that conversion.
* Storage (`data_`) is the memory seen from the base pointer of the buffer: `data_ p` is the
  cell `data_.get()[p]`. The contents of a freshly allocated buffer are indeterminate in C++;
  the model fills it with `default`.
* A C++ exception is an `Except.error`; the message of the `throw` is kept.
* `std::vector::operator[]` outside the vector is undefined behaviour; the model reads `0`
  there (`List.getD _ _ 0`) and ignores such a write (`List.set`).
-/

/-- Exceptions thrown by the library, with the message given at the `throw`.
`bad_array_new_length` is what `new dtype[n]` throws for a negative `n`;
`division_by_zero` is not a C++ exception: it marks an integer division by zero, which is
undefined behaviour (a trap on the usual targets). `assertion_failure` is the abort of a
failed `assert`, with the asserted expression. -/
inductive Error where
  | invalid_argument (what : String)
  | out_of_range (what : String)
  | bad_array_new_length
  | division_by_zero
  | assertion_failure (what : String)
  deriving DecidableEq, Repr

deriving instance DecidableEq for Except

/-- The number of values of a `size_t`, `2^64`. -/
def SIZE_MOD : Int := 18446744073709551616

/-- Conversion of an integer value to `size_t`. -/
def toSizeT (x : Int) : Int := x % SIZE_MOD

/-- Conversion of a `size_t` value to `std::ptrdiff_t`. -/
def toPtrdiff (n : Int) : Int := if n < 9223372036854775808 then n else n - SIZE_MOD

/-- The read `v[i]` of a `std::vector<int>` at an `int` position. -/
def Tensor.vecGet (v : List Int) (i : Int) : Int :=
  if i < 0 then 0 else v.getD i.toNat 0

/-- The assignment `v[i] = x` on a `std::vector<int>` at an `int` position. -/
def Tensor.vecSet (v : List Int) (i : Int) (x : Int) : List Int :=
  if i < 0 then v else v.set i.toNat x

/-- The class `Tensor<dtype>`; the fields are in the order of the class declaration. -/
structure Tensor (α : Type) where
  data_ : Int → α
  num_elements : Int
  scale : Rat
  offset_ : Int
  stride_ : List Int
  ndim : Int
  shape_ : List Int

/-- The assignment `data_[p] = value`. -/
def Tensor.storeAt {α : Type} (data_ : Int → α) (p : Int) (value : α) : Int → α :=
  fun q => if q = p then value else data_ q

/-- The loop `for (int i = ndim - 2; i >= 0; --i) stride_[i] = stride_[i + 1] * shape_[i + 1]`
of both constructors; the first argument is `i + 1`. -/
def Tensor.strideLoop (shape_ : List Int) : Nat → List Int → List Int
  | 0, stride_ => stride_
  | i + 1, stride_ =>
      Tensor.strideLoop shape_ i (stride_.set i (stride_.getD (i + 1) 0 * shape_.getD (i + 1) 0))

/-- The stride initialisation shared by both constructors:
`stride_ = std::vector<int>(ndim); if (ndim > 0) { stride_[ndim - 1] = 1; for ... }`. -/
def Tensor.initStride (shape : List Int) : List Int :=
  let ndim := shape.length
  let stride_ := List.replicate ndim (0 : Int)
  if ndim > 0 then
    Tensor.strideLoop shape (ndim - 1) (stride_.set (ndim - 1) 1)
  else
    stride_

/-- The loop `num_elements = 1; for (int dim : shape) num_elements *= dim;`, with the products
taken in `Int`. The result is the value of the `int` variable `num_elements` when no running
product exceeds `INT_MAX` (`Tensor.IntShape`); `Tensor.countElements.int32` is the loop on
32-bit values. -/
def Tensor.countElements (shape : List Int) : Int :=
  shape.foldl (fun num_elements dim => num_elements * dim) 1

/-- The constructor `Tensor(const std::vector<int>& shape)` with the products taken in `Int`:
it allocates `new dtype[num_elements]`, which throws for a negative count. It is the
constructor of the program on a `Tensor.IntShape`; `Tensor.fromShape.int32` is the
constructor on 32-bit values. -/
def Tensor.fromShape {α : Type} [Inhabited α] (shape : List Int) : Except Error (Tensor α) :=
  let num_elements := Tensor.countElements shape
  if num_elements < 0 then
    .error .bad_array_new_length
  else
    .ok { data_ := fun _ => default
          num_elements := num_elements
          scale := 0
          offset_ := 0
          stride_ := Tensor.initStride shape
          ndim := shape.length
          shape_ := shape }

/-- The constructor `Tensor(const std::vector<int>& shape, const std::shared_ptr<dtype[]>& data)`:
it shares `data`. -/
def Tensor.fromShapeData {α : Type} (shape : List Int) (data : Int → α) : Tensor α :=
  { data_ := data
    num_elements := Tensor.countElements shape
    scale := 0
    offset_ := 0
    stride_ := Tensor.initStride shape
    ndim := shape.length
    shape_ := shape }

/-- Conversion of an integer value to the 32-bit `int`: reduction modulo `2^32` into
`[-2^31, 2^31)`, the value that the targets of the library store for an `int` product. -/
def toInt32 (x : Int) : Int := (x + 2147483648) % 4294967296 - 2147483648

/-- The loop `for (int i = ndim - 2; i >= 0; --i) stride_[i] = stride_[i + 1] * shape_[i + 1]`
on 32-bit `int` values; the first argument is `i + 1`. -/
def Tensor.strideLoop.int32 (shape_ : List Int) : Nat → List Int → List Int
  | 0, stride_ => stride_
  | i + 1, stride_ =>
      Tensor.strideLoop.int32 shape_ i
        (stride_.set i (toInt32 (stride_.getD (i + 1) 0 * shape_.getD (i + 1) 0)))

/-- The stride initialisation of the constructor on 32-bit `int` values. -/
def Tensor.initStride.int32 (shape : List Int) : List Int :=
  let ndim := shape.length
  let stride_ := List.replicate ndim (0 : Int)
  if ndim > 0 then
    Tensor.strideLoop.int32 shape (ndim - 1) (stride_.set (ndim - 1) 1)
  else
    stride_

/-- The loop `num_elements = 1; for (int dim : shape) num_elements *= dim;` on the 32-bit
`int` variable `num_elements`. -/
def Tensor.countElements.int32 (shape : List Int) : Int :=
  shape.foldl (fun num_elements dim => toInt32 (num_elements * dim)) 1

/-- The constructor `Tensor(const std::vector<int>& shape)` on 32-bit `int` values: it
allocates `new dtype[num_elements]`, which throws for a negative count. -/
def Tensor.fromShape.int32 {α : Type} [Inhabited α] (shape : List Int) :
    Except Error (Tensor α) :=
  let num_elements := Tensor.countElements.int32 shape
  if num_elements < 0 then
    .error .bad_array_new_length
  else
    .ok { data_ := fun _ => default
          num_elements := num_elements
          scale := 0
          offset_ := 0
          stride_ := Tensor.initStride.int32 shape
          ndim := shape.length
          shape_ := shape }

/-- The loop of `calculateLinearIndex`, walking `indices`, `shape_` and `stride_` in step;
the last argument is `linear_index`. -/
def Tensor.calculateLinearIndex.loop : List Int → List Int → List Int → Int → Except Error Int
  | [], _, _, linear_index => .ok linear_index
  | ix :: indices, shape_, stride_, linear_index =>
      if ix < 0 ∨ ix ≥ shape_.headD 0 then
        .error (.out_of_range "Error: Index out of range")
      else
        Tensor.calculateLinearIndex.loop indices shape_.tail stride_.tail
          ((linear_index + toSizeT (ix * stride_.headD 0)) % SIZE_MOD)

/-- The method `calculateLinearIndex`; the result is a `size_t`. The comparison
`indices.size() != ndim` converts `ndim` to `size_t`, which leaves the non-negative `ndim` of
a constructed tensor unchanged. -/
def Tensor.calculateLinearIndex {α : Type} (t : Tensor α) (indices : List Int) :
    Except Error Int :=
  if indices.length ≠ t.shape_.length ∨ (indices.length : Int) ≠ t.ndim then
    .error (.invalid_argument "Error: Indices size does not match tensor dimension")
  else
    match Tensor.calculateLinearIndex.loop indices t.shape_ t.stride_ 0 with
    | .error e => .error e
    | .ok linear_index => .ok ((linear_index + toSizeT t.offset_) % SIZE_MOD)

/-- The method `getData`. -/
def Tensor.getData {α : Type} (t : Tensor α) (indices : List Int) : Except Error α :=
  match t.calculateLinearIndex indices with
  | .error e => .error e
  | .ok linear_index => .ok (t.data_ (toPtrdiff linear_index))

/-- The method `setData`; the result is the tensor over the updated Storage. -/
def Tensor.setData {α : Type} (t : Tensor α) (indices : List Int) (value : α) :
    Except Error (Tensor α) :=
  match t.calculateLinearIndex indices with
  | .error e => .error e
  | .ok linear_index =>
      .ok { t with data_ := Tensor.storeAt t.data_ (toPtrdiff linear_index) value }

/-- The loop of `is_contiguous`, `for (int i = t.ndim - 1; i >= 0; --i)`; the first argument
is `i + 1`, the second the local `stride`. -/
def Tensor.is_contiguous.loop {α : Type} (t : Tensor α) : Nat → Int → Bool
  | 0, _ => true
  | i + 1, stride =>
      if stride ≠ t.stride_.getD i 0 then false
      else Tensor.is_contiguous.loop t i (stride * t.shape_.getD i 0)

/-- The method `is_contiguous`. -/
def Tensor.is_contiguous {α : Type} (t : Tensor α) : Bool :=
  Tensor.is_contiguous.loop t t.ndim.toNat 1

/-- The class invariant on the descriptor: `shape_` and `stride_` both have `ndim` entries. -/
def Tensor.WellFormed {α : Type} (t : Tensor α) : Prop :=
  (t.shape_.length : Int) = t.ndim ∧ t.stride_.length = t.shape_.length

/-- A multi-index is in range for `t`: one entry per dimension, each with
`0 <= index[i] < shape[i]`. -/
def Tensor.InRange {α : Type} (t : Tensor α) (indices : List Int) : Prop :=
  (indices.length : Int) = t.ndim ∧
    ∀ i, i < indices.length → 0 ≤ indices.getD i 0 ∧ indices.getD i 0 < t.shape_.getD i 0

/-- The sum over `i` of `index[i] * stride[i]`. -/
def Tensor.indexSum (indices stride_ : List Int) : Int :=
  (List.zipWith (fun ix st => ix * st) indices stride_).sum

/-- The method `slice`. The division `result.num_elements / this->shape_[dim]` is the
truncating `int` division; it divides by zero when the sliced dimension is empty. -/
def Tensor.slice {α : Type} (t : Tensor α) (startIdx endIdx dim : Int) :
    Except Error (Tensor α) :=
  if dim ≥ t.ndim then
    .error (.invalid_argument "Dimension out of range.")
  else if startIdx < 0 ∨ endIdx > Tensor.vecGet t.shape_ dim ∨ startIdx > endIdx then
    .error (.invalid_argument "Invalid slice range.")
  else
    let shape_ := Tensor.vecSet t.shape_ dim (endIdx - startIdx)
    if Tensor.vecGet t.shape_ dim = 0 then
      .error .division_by_zero
    else
      .ok { t with
            shape_ := shape_
            num_elements :=
              (t.num_elements.tdiv (Tensor.vecGet t.shape_ dim)) * Tensor.vecGet shape_ dim
            offset_ := t.offset_ + startIdx * Tensor.vecGet t.stride_ dim }

/-- The vectors `new_shape` and `new_stride` of `select`, filled by
`for (int i=0; i < new_shape.size(); i++) if (i < dim) new[i] = old[i]; else new[i] = old[i+1];`
where `size` is `this->shape().size()`. -/
def Tensor.selectCopy (old : List Int) (size : Nat) (dim : Int) : List Int :=
  (List.range (size - 1)).map
    (fun (i : Nat) => if (i : Int) < dim then old.getD i 0 else old.getD (i + 1) 0)

/-- The method `select`. -/
def Tensor.select {α : Type} [Inhabited α] (t : Tensor α) (dim index : Int) :
    Except Error (Tensor α) :=
  if dim ≥ t.ndim then
    .error (.invalid_argument "Dimension out of range.")
  else if index ≥ Tensor.vecGet t.shape_ dim then
    .error (.invalid_argument "Invalid slice range.")
  else
    let new_shape := Tensor.selectCopy t.shape_ t.shape_.length dim
    let new_stride := Tensor.selectCopy t.stride_ t.shape_.length dim
    match (Tensor.fromShape new_shape : Except Error (Tensor α)) with
    | .error e => .error e
    | .ok result =>
        .ok { result with
              data_ := t.data_
              offset_ := t.offset_ + Tensor.vecGet t.stride_ dim * index
              stride_ := new_stride }

/-- The call `std::swap(v[i], v[j])` on a `std::vector<int>`. -/
def Tensor.swapAt (v : List Int) (i j : Int) : List Int :=
  let tmp := Tensor.vecGet v i
  Tensor.vecSet (Tensor.vecSet v i (Tensor.vecGet v j)) j tmp

/-- The method `transpose`. -/
def Tensor.transpose {α : Type} (t : Tensor α) (dim0 dim1 : Int) : Tensor α :=
  { t with
    shape_ := Tensor.swapAt t.shape_ dim0 dim1
    stride_ := Tensor.swapAt t.stride_ dim0 dim1 }

/-- The method `view`. -/
def Tensor.view {α : Type} (t : Tensor α) (shape : List Int) : Except Error (Tensor α) :=
  if t.is_contiguous = false then
    .error (.invalid_argument "This tensor is not contiguous.")
  else
    let num := shape.foldl (fun num d => num * d) 1
    if num ≠ t.num_elements then
      .error (.invalid_argument "The number of elements is not equal.")
    else
      .ok (Tensor.fromShapeData shape t.data_)

/-- The method `contiguous`. -/
def Tensor.contiguous {α : Type} [Inhabited α] (t : Tensor α) : Except Error (Tensor α) :=
  if t.shape_.length ≠ 2 then
    .error (.invalid_argument "only support 2d tensor now")
  else
    match (Tensor.fromShape t.shape_ : Except Error (Tensor α)) with
    | .error e => .error e
    | .ok result =>
        (List.range (t.shape_.getD 0 0).toNat).foldlM (fun result (i : Nat) =>
          (List.range (t.shape_.getD 1 0).toNat).foldlM (fun result (j : Nat) =>
            match t.getData [(i : Int), (j : Int)] with
            | .error e => .error e
            | .ok value => Tensor.setData result [(i : Int), (j : Int)] value) result) result

/-- The method `matmul` on `Tensor<int>`. The cells are computed one after the other; the
`omp parallel for` of the source assigns each cell to one thread, which computes the same
value. -/
def Tensor.matmul (t other : Tensor Int) : Except Error (Tensor Int) :=
  if t.shape_.length ≠ 2 ∨ other.shape_.length ≠ 2 ∨
      t.shape_.getD 1 0 ≠ other.shape_.getD 0 0 then
    .error (.invalid_argument "Matrix dimensions are not compatible for multiplication")
  else
    match (if t.is_contiguous then .ok t else t.contiguous : Except Error (Tensor Int)) with
    | .error e => .error e
    | .ok left =>
    match (if other.is_contiguous then .ok other else other.contiguous :
        Except Error (Tensor Int)) with
    | .error e => .error e
    | .ok right =>
    match (Tensor.fromShape [left.shape_.getD 0 0, right.shape_.getD 1 0] :
        Except Error (Tensor Int)) with
    | .error e => .error e
    | .ok result =>
        .ok ((List.range (left.shape_.getD 0 0).toNat).foldl (fun result (i : Nat) =>
          (List.range (right.shape_.getD 1 0).toNat).foldl (fun result (j : Nat) =>
            let sum := (List.range (left.shape_.getD 1 0).toNat).foldl (fun sum (k : Nat) =>
              sum + left.data_ ((i : Int) * left.stride_.getD 0 0 + (k : Int) * left.stride_.getD 1 0)
                * right.data_ ((k : Int) * right.stride_.getD 0 0
                    + (j : Int) * right.stride_.getD 1 0)) 0
            { result with
              data_ := Tensor.storeAt result.data_
                ((i : Int) * result.stride_.getD 0 0 + (j : Int) * result.stride_.getD 1 0) sum })
            result) result)

/-- The inner loop of `argmax` for the position `i` of the kept axis: the final
`(max_index, max_value)`. -/
def Tensor.argmax.scan {α : Type} [LinearOrder α] (t : Tensor α) (dim : Int) (i : Nat) :
    Int × α :=
  let off := Tensor.vecGet t.stride_ (1 - dim)
  let stride := Tensor.vecGet t.stride_ dim
  (List.range (Tensor.vecGet t.shape_ dim).toNat).foldl (fun (state : Int × α) (j : Nat) =>
    if t.data_ ((i : Int) * off + (j : Int) * stride) > state.2 then
      ((j : Int), t.data_ ((i : Int) * off + (j : Int) * stride))
    else state) ((0 : Int), t.data_ ((i : Int) * off))

/-- The method `argmax`; `keepdim` is not used by the source. -/
def Tensor.argmax {α : Type} [LinearOrder α] (t : Tensor α) (dim : Int) (_keepdim : Bool) :
    Except Error (Tensor Int) :=
  if t.shape_.length ≠ 2 then
    .error (.invalid_argument "Only support 2d.")
  else
    let reduce_shape := Tensor.vecGet t.shape_ (1 - dim)
    match (Tensor.fromShape [reduce_shape] : Except Error (Tensor Int)) with
    | .error e => .error e
    | .ok result =>
        (List.range reduce_shape.toNat).foldlM (fun result (i : Nat) =>
          Tensor.setData result [(i : Int)] (Tensor.argmax.scan t dim i).1) result

/-- Successive `setData` calls, used to fill a tensor in examples. -/
def Tensor.setAll {α : Type} (t : Tensor α) (entries : List (List Int × α)) :
    Except Error (Tensor α) :=
  entries.foldlM (fun t e => Tensor.setData t e.1 e.2) t

/-- The tensor of the given shape filled, in row-major order of its indices, by `setData`. -/
def Tensor.filled {α : Type} [Inhabited α] (shape : List Int) (entries : List (List Int × α)) :
    Except Error (Tensor α) :=
  match (Tensor.fromShape shape : Except Error (Tensor α)) with
  | .error e => .error e
  | .ok t => Tensor.setAll t entries

/-- The matrix `[[1,2,3],[4,5,6]]` of shape `[2,3]`. -/
def Tensor.exampleA : Except Error (Tensor Int) :=
  Tensor.filled [2, 3]
    [([0, 0], 1), ([0, 1], 2), ([0, 2], 3), ([1, 0], 4), ([1, 1], 5), ([1, 2], 6)]

/-- The matrix `[[7,8],[9,10],[11,12]]` of shape `[3,2]`. -/
def Tensor.exampleB : Except Error (Tensor Int) :=
  Tensor.filled [3, 2]
    [([0, 0], 7), ([0, 1], 8), ([1, 0], 9), ([1, 1], 10), ([2, 0], 11), ([2, 1], 12)]

/-- The product `exampleA.matmul(exampleB)`. -/
def Tensor.exampleAB : Except Error (Tensor Int) :=
  match Tensor.exampleA, Tensor.exampleB with
  | .ok a, .ok b => Tensor.matmul a b
  | _, _ => .error .bad_array_new_length

/-- The scalar view `Tensor<int>({3}).select(0, -1)`. -/
def Tensor.selectBeforeStart : Except Error (Tensor Int) :=
  match (Tensor.fromShape [3] : Except Error (Tensor Int)) with
  | .error e => .error e
  | .ok t => Tensor.select t 0 (-1)

/-- The descriptor of `selectBeforeStart`: a scalar whose offset is `-1`. -/
def Tensor.scalarAtMinusOne : Tensor Int :=
  { data_ := fun _ => default
    num_elements := 1
    scale := 0
    offset_ := -1
    stride_ := []
    ndim := 0
    shape_ := [] }

/-- A `[2,3]` tensor over a zero-filled buffer, with row-major strides `[3,1]`. -/
def Tensor.zeros23 : Tensor Int :=
  Tensor.fromShapeData [2, 3] (fun _ => 0)

instance Tensor.decidableWellFormed {α : Type} (t : Tensor α) : Decidable t.WellFormed := by
  unfold Tensor.WellFormed
  infer_instance

instance Tensor.decidableInRange {α : Type} (t : Tensor α) (indices : List Int) :
    Decidable (t.InRange indices) := by
  unfold Tensor.InRange
  infer_instance

/-- A `[3,2]` tensor with row-major strides `[2,1]` over a buffer whose cell `p` holds `p`. -/
def Tensor.iota32 : Tensor Int :=
  Tensor.fromShapeData [3, 2] (fun p => p)

/-- The descriptor of `iota32.slice(1, 3, 0)`: rows 1 and 2. -/
def Tensor.iota32Rows12 : Tensor Int :=
  { Tensor.iota32 with shape_ := [2, 2], num_elements := 4, offset_ := 2 }

/-- The matrix `[[5,1],[2,3],[4,0]]` of shape `[3,2]`. -/
def Tensor.exampleC : Except Error (Tensor Int) :=
  Tensor.filled [3, 2]
    [([0, 0], 5), ([0, 1], 1), ([1, 0], 2), ([1, 1], 3), ([2, 0], 4), ([2, 1], 0)]

/-- The view `exampleC.slice(1, 3, 0)`: the rows `[[2,3],[4,0]]`, at offset `2`. -/
def Tensor.exampleCRows12 : Except Error (Tensor Int) :=
  Tensor.exampleC.bind fun c => c.slice 1 3 0

/-- The identity matrix of shape `[2,2]`. -/
def Tensor.identity2 : Except Error (Tensor Int) :=
  Tensor.filled [2, 2] [([0, 0], 1), ([0, 1], 0), ([1, 0], 0), ([1, 1], 1)]

/-- The product `exampleC.slice(1, 3, 0).matmul(identity2)`. -/
def Tensor.exampleCRows12Product : Except Error (Tensor Int) :=
  Tensor.exampleCRows12.bind fun a => Tensor.identity2.bind fun b => Tensor.matmul a b

/-- The sum over `k < n` of `A[i,k] * B[k,j]`, where `A[i,k]` and `B[k,j]` are the logical
elements that `getData` returns: the value that the specification gives to cell `(i, j)` of
`A.matmul(B)`. -/
def Tensor.logicalCell (a b : Tensor Int) (i j : Int) (n : Nat) : Except Error Int :=
  (List.range n).foldlM (fun sum (k : Nat) =>
    (a.getData [i, (k : Int)]).bind fun x =>
      (b.getData [(k : Int), j]).bind fun y => .ok (sum + x * y)) 0

/-- The matrix `[[1,5,3],[9,2,8]]` of shape `[2,3]`. -/
def Tensor.exampleD : Except Error (Tensor Int) :=
  Tensor.filled [2, 3]
    [([0, 0], 1), ([0, 1], 5), ([0, 2], 3), ([1, 0], 9), ([1, 1], 2), ([1, 2], 8)]

/-- The tensor `t` seen when the Storage it shares holds `data`. -/
def Tensor.withStorage {α : Type} (t : Tensor α) (data : Int → α) : Tensor α :=
  { t with data_ := data }

/-- The object `*this` after the call `setData(indices, value)`, whether the call returned or
threw: the only write of the method follows the return of `calculateLinearIndex`. -/
def Tensor.afterSetData {α : Type} (t : Tensor α) (indices : List Int) (value : α) : Tensor α :=
  match t.calculateLinearIndex indices with
  | .error _ => t
  | .ok linear_index => { t with data_ := Tensor.storeAt t.data_ (toPtrdiff linear_index) value }

/-- The method `operator==`. -/
def Tensor.operatorEq {α : Type} [DecidableEq α] (t other : Tensor α) :
    Except Error (Tensor Int) :=
  if t.shape_ ≠ other.shape_ then
    .error (.invalid_argument "This shape and other shape is not equal.")
  else if t.shape_.length ≠ 1 then
    .error (.assertion_failure "shape_.size() == 1")
  else
    match (Tensor.fromShape t.shape_ : Except Error (Tensor Int)) with
    | .error e => .error e
    | .ok result =>
        (List.range (t.shape_.getD 0 0).toNat).foldlM (fun result (i : Nat) =>
          if t.data_ (i : Int) = other.data_ (i : Int) then
            Tensor.setData result [(i : Int)] 1
          else
            Tensor.setData result [(i : Int)] 0) result

/-- The statement `sum += this->getData(indices)` of `sum`. -/
def Tensor.sum.step (t : Tensor Int) (sum : Int) (indices : List Int) : Except Error Int :=
  match t.getData indices with
  | .error e => .error e
  | .ok value => .ok (sum + value)

/-- The method `sum` on `Tensor<int>`; `keepdim` is not used by the source. -/
def Tensor.sum (t : Tensor Int) (_keepdim : Bool) : Except Error Int :=
  if ¬ (t.shape_.length = 4 ∨ t.shape_.length = 3) then
    .error (.invalid_argument "Only support 4d.")
  else if t.shape_.length = 4 then
    (List.range (t.shape_.getD 0 0).toNat).foldlM (fun sum (i : Nat) =>
      (List.range (t.shape_.getD 1 0).toNat).foldlM (fun sum (j : Nat) =>
        (List.range (t.shape_.getD 2 0).toNat).foldlM (fun sum (k : Nat) =>
          (List.range (t.shape_.getD 3 0).toNat).foldlM (fun sum (l : Nat) =>
            Tensor.sum.step t sum [(i : Int), (j : Int), (k : Int), (l : Int)]) sum) sum) sum) 0
  else
    (List.range (t.shape_.getD 0 0).toNat).foldlM (fun sum (i : Nat) =>
      (List.range (t.shape_.getD 1 0).toNat).foldlM (fun sum (j : Nat) =>
        (List.range (t.shape_.getD 2 0).toNat).foldlM (fun sum (k : Nat) =>
          Tensor.sum.step t sum [(i : Int), (j : Int), (k : Int)]) sum) sum) 0

/-- The vector `[1, 2, 3]` of shape `[3]`. -/
def Tensor.exampleV : Except Error (Tensor Int) :=
  Tensor.filled [3] [([0], 1), ([1], 2), ([2], 3)]

/-- The view `exampleV.slice(1, 3, 0)`: the logical elements `[2, 3]`, at offset `1`. -/
def Tensor.exampleVTail : Except Error (Tensor Int) :=
  Tensor.exampleV.bind fun v => v.slice 1 3 0

/-- The vector `[2, 3]` of shape `[2]`. -/
def Tensor.exampleW : Except Error (Tensor Int) :=
  Tensor.filled [2] [([0], 2), ([1], 3)]

/-- The comparison `exampleV.slice(1, 3, 0) == exampleW`. -/
def Tensor.exampleVTailEqW : Except Error (Tensor Int) :=
  Tensor.exampleVTail.bind fun a => Tensor.exampleW.bind fun b => Tensor.operatorEq a b

/-- A shape on which the constructor stays within the type `int`: the sizes are non-negative
`int` values and every product that the constructor and `is_contiguous` form is at most
`INT_MAX`. These are the running products of `num_elements *= dim` (the products of the
first `n` sizes), and the strides `stride_[i] = stride_[i + 1] * shape_[i + 1]` with the
running products of `is_contiguous` (the products of the sizes from position `n` on). -/
def Tensor.IntShape (shape : List Int) : Prop :=
  (∀ d ∈ shape, 0 ≤ d ∧ d ≤ 2147483647) ∧
    ∀ n, n ≤ shape.length →
      (shape.take n).prod ≤ 2147483647 ∧ (shape.drop n).prod ≤ 2147483647

instance Tensor.decidableIntShape (shape : List Int) : Decidable (Tensor.IntShape shape) := by
  unfold Tensor.IntShape
  infer_instance

/-- The extents of `t` are non-negative values of the type `int` (at most `INT_MAX`). -/
def Tensor.IntExtents {α : Type} (t : Tensor α) : Prop :=
  ∀ d ∈ t.shape_, 0 ≤ d ∧ d ≤ 2147483647

instance Tensor.decidableIntExtents {α : Type} (t : Tensor α) : Decidable t.IntExtents := by
  unfold Tensor.IntExtents
  infer_instance

/-- The logical element of `t` at a multi-index: the Storage cell that `getData` resolves an
in-range index to. -/
def Tensor.element {α : Type} (t : Tensor α) (indices : List Int) : α :=
  t.data_ (toPtrdiff (toSizeT (t.offset_ + Tensor.indexSum indices t.stride_)))

/-- The sum of `f` over all multi-indices that are in range for a shape: entry `i` runs over
`0 <= index[i] < shape[i]`. -/
def Tensor.sumOver (f : List Int → Int) : List Int → Int
  | [] => f []
  | d :: shape => ∑ i in Finset.range d.toNat, Tensor.sumOver (fun rest => f ((i : Int) :: rest)) shape

/-- A `[2,1,2]` tensor with row-major strides `[2,2,1]` over a buffer whose cell `p` holds
`p`. -/
def Tensor.iota212 : Tensor Int :=
  Tensor.fromShapeData [2, 1, 2] (fun p => p)

/-- The descriptor invariant: `shape_` and `stride_` have `ndim` entries and `num_elements`
is the product of the shape. -/
def Tensor.Invariant {α : Type} (t : Tensor α) : Prop :=
  (t.shape_.length : Int) = t.ndim ∧ (t.stride_.length : Int) = t.ndim ∧
    t.num_elements = t.shape_.prod

instance Tensor.decidableInvariant {α : Type} (t : Tensor α) : Decidable t.Invariant := by
  unfold Tensor.Invariant
  infer_instance

/-- The row-major strides of a shape: `stride[i]` is the product of the extents after `i`. -/
def Tensor.rowMajor : List Int → List Int
  | [] => []
  | _ :: shape => shape.prod :: Tensor.rowMajor shape

/-- The multi-indices that are in range for a shape, in row-major order (the last entry
moves fastest). -/
def Tensor.rowMajorIndices : List Int → List (List Int)
  | [] => [[]]
  | d :: shape =>
      (List.range d.toNat).flatMap
        (fun (i : Nat) => (Tensor.rowMajorIndices shape).map (fun rest => (i : Int) :: rest))

/-- The multi-index of row-major rank `k` in a shape, by successive division. -/
def Tensor.unravel : List Int → Int → List Int
  | [], _ => []
  | _ :: shape, k => k / shape.prod :: Tensor.unravel shape (k % shape.prod)

/-- The tensor `Tensor<int>({0, 3})`, with an empty dimension `0`. -/
def Tensor.emptyRows : Except Error (Tensor Int) :=
  Tensor.fromShape [0, 3]

/-- The descriptor that the constructor builds for the shape `{65536, 65536}`: the product
`65536 * 65536 = 2^32` is stored in the `int` variable `num_elements` as `0`. -/
def Tensor.square65536 : Tensor Int :=
  { data_ := fun _ => default
    num_elements := 0
    scale := 0
    offset_ := 0
    stride_ := [65536, 1]
    ndim := 2
    shape_ := [65536, 65536] }

/-! ## Index resolution -/

theorem Tensor.getD_zero_eq_headD (l : List Int) : l.getD 0 0 = l.headD 0 := by
  cases l <;> rfl

theorem Tensor.getD_succ_eq_tail (l : List Int) (i : Nat) : l.getD (i + 1) 0 = l.tail.getD i 0 := by
  cases l <;> simp

theorem Tensor.indexSum_nil (stride_ : List Int) : Tensor.indexSum [] stride_ = 0 := by
  simp [Tensor.indexSum]

theorem Tensor.indexSum_cons (ix : Int) (indices stride_ : List Int) :
    Tensor.indexSum (ix :: indices) stride_
      = ix * stride_.headD 0 + Tensor.indexSum indices stride_.tail := by
  cases stride_ <;> simp [Tensor.indexSum]

theorem Tensor.mod_step (acc p s : Int) :
    ((acc + toSizeT p) % SIZE_MOD + s) % SIZE_MOD = (acc + (p + s)) % SIZE_MOD := by
  unfold toSizeT SIZE_MOD
  omega

/-- The loop succeeds on in-range entries and accumulates the index sum modulo `2^64`. -/
theorem Tensor.calculateLinearIndex.loop_ok (indices : List Int) :
    ∀ (shape_ stride_ : List Int) (acc : Int),
      (∀ i, i < indices.length → 0 ≤ indices.getD i 0 ∧ indices.getD i 0 < shape_.getD i 0) →
      acc % SIZE_MOD = acc →
      Tensor.calculateLinearIndex.loop indices shape_ stride_ acc
        = .ok ((acc + Tensor.indexSum indices stride_) % SIZE_MOD) := by
  induction indices with
  | nil =>
      intro shape_ stride_ acc _ hacc
      simp [Tensor.calculateLinearIndex.loop, Tensor.indexSum_nil, hacc]
  | cons ix rest ih =>
      intro shape_ stride_ acc h hacc
      have h0 := h 0 (by simp)
      simp only [List.getD_cons_zero, Tensor.getD_zero_eq_headD] at h0
      have hrest : ∀ i, i < rest.length →
          0 ≤ rest.getD i 0 ∧ rest.getD i 0 < shape_.tail.getD i 0 := by
        intro i hi
        have := h (i + 1) (by simp; omega)
        simpa [Tensor.getD_succ_eq_tail] using this
      have hcond : ¬ (ix < 0 ∨ ix ≥ shape_.headD 0) := by omega
      rw [Tensor.calculateLinearIndex.loop, if_neg hcond,
        ih shape_.tail stride_.tail _ hrest (Int.emod_emod_of_dvd _ (dvd_refl _)),
        Tensor.indexSum_cons, Tensor.mod_step]

/-- The loop throws `out_of_range` as soon as one entry is out of range. -/
theorem Tensor.calculateLinearIndex.loop_error (indices : List Int) :
    ∀ (shape_ stride_ : List Int) (acc : Int),
      (∃ i, i < indices.length ∧ (indices.getD i 0 < 0 ∨ indices.getD i 0 ≥ shape_.getD i 0)) →
      Tensor.calculateLinearIndex.loop indices shape_ stride_ acc
        = .error (.out_of_range "Error: Index out of range") := by
  induction indices with
  | nil =>
      intro shape_ stride_ acc h
      obtain ⟨i, hi, _⟩ := h
      simp at hi
  | cons ix rest ih =>
      intro shape_ stride_ acc h
      rw [Tensor.calculateLinearIndex.loop]
      by_cases hcond : ix < 0 ∨ ix ≥ shape_.headD 0
      · rw [if_pos hcond]
      · rw [if_neg hcond]
        apply ih
        obtain ⟨i, hi, hbad⟩ := h
        cases i with
        | zero =>
            simp only [List.getD_cons_zero, Tensor.getD_zero_eq_headD] at hbad
            exact absurd hbad hcond
        | succ j =>
            refine ⟨j, by simpa using hi, ?_⟩
            simpa [Tensor.getD_succ_eq_tail] using hbad

theorem Tensor.calculateLinearIndex_of_inRange {α : Type} (t : Tensor α) (indices : List Int)
    (hwf : t.WellFormed) (h : t.InRange indices) :
    t.calculateLinearIndex indices
      = .ok (toSizeT (t.offset_ + Tensor.indexSum indices t.stride_)) := by
  obtain ⟨hlen, hent⟩ := h
  have hlen2 : indices.length = t.shape_.length := by
    have := hwf.1
    omega
  have hcond : ¬ (indices.length ≠ t.shape_.length ∨ (indices.length : Int) ≠ t.ndim) := by
    rintro (hne | hne)
    · exact hne hlen2
    · exact hne hlen
  have h0 : (0 : Int) % SIZE_MOD = 0 := by decide
  rw [Tensor.calculateLinearIndex, if_neg hcond,
    Tensor.calculateLinearIndex.loop_ok indices _ _ 0 hent h0]
  simp only [toSizeT, SIZE_MOD]
  congr 1
  omega

theorem Tensor.calculateLinearIndex_of_length_ne {α : Type} (t : Tensor α) (indices : List Int)
    (h : (indices.length : Int) ≠ t.ndim) :
    t.calculateLinearIndex indices
      = .error (.invalid_argument "Error: Indices size does not match tensor dimension") := by
  rw [Tensor.calculateLinearIndex, if_pos (Or.inr h)]

theorem Tensor.calculateLinearIndex_of_bad_entry {α : Type} (t : Tensor α) (indices : List Int)
    (hwf : t.WellFormed) (hlen : (indices.length : Int) = t.ndim)
    (h : ∃ i, i < indices.length ∧
      (indices.getD i 0 < 0 ∨ indices.getD i 0 ≥ t.shape_.getD i 0)) :
    t.calculateLinearIndex indices = .error (.out_of_range "Error: Index out of range") := by
  have hlen2 : indices.length = t.shape_.length := by
    have := hwf.1
    omega
  have hcond : ¬ (indices.length ≠ t.shape_.length ∨ (indices.length : Int) ≠ t.ndim) := by
    rintro (hne | hne)
    · exact hne hlen2
    · exact hne hlen
  rw [Tensor.calculateLinearIndex, if_neg hcond,
    Tensor.calculateLinearIndex.loop_error indices _ _ 0 h]

theorem Tensor.calculateLinearIndex_isOk_iff {α : Type} (t : Tensor α) (indices : List Int)
    (hwf : t.WellFormed) :
    (∃ p, t.calculateLinearIndex indices = .ok p) ↔ t.InRange indices := by
  constructor
  · rintro ⟨p, hp⟩
    by_cases hlen : (indices.length : Int) = t.ndim
    · refine ⟨hlen, ?_⟩
      by_contra hbad
      push_neg at hbad
      obtain ⟨i, hi, hb⟩ := hbad
      have hb2 : indices.getD i 0 < 0 ∨ indices.getD i 0 ≥ t.shape_.getD i 0 := by
        by_cases h0 : 0 ≤ indices.getD i 0
        · exact Or.inr (hb h0)
        · exact Or.inl (by omega)
      rw [Tensor.calculateLinearIndex_of_bad_entry t indices hwf hlen ⟨i, hi, hb2⟩] at hp
      cases hp
    · rw [Tensor.calculateLinearIndex_of_length_ne t indices hlen] at hp
      cases hp
  · intro h
    exact ⟨_, Tensor.calculateLinearIndex_of_inRange t indices hwf h⟩

/-- For an index with non-negative entries and non-negative strides the index sum is
non-negative. -/
theorem Tensor.indexSum_nonneg (indices : List Int) :
    ∀ stride_ : List Int, (∀ i, i < indices.length → 0 ≤ indices.getD i 0) →
      (∀ s ∈ stride_, 0 ≤ s) → 0 ≤ Tensor.indexSum indices stride_ := by
  induction indices with
  | nil => intro stride_ _ _; rw [Tensor.indexSum_nil]
  | cons ix rest ih =>
      intro stride_ hix hst
      rw [Tensor.indexSum_cons]
      have h0 : 0 ≤ ix := by simpa using hix 0 (by simp)
      have hrest : ∀ i, i < rest.length → 0 ≤ rest.getD i 0 := by
        intro i hi
        simpa using hix (i + 1) (by simpa using hi)
      cases stride_ with
      | nil =>
          have := ih [] hrest (by simp)
          simpa using this
      | cons st sts =>
          have hs : 0 ≤ st := hst st (by simp)
          have := ih sts hrest (fun s hs2 => hst s (List.mem_cons_of_mem _ hs2))
          simp only [List.headD_cons, List.tail_cons]
          exact add_nonneg (mul_nonneg h0 hs) this

/-- C1: for a tensor with any shape, stride and offset and a multi-index in range for it,
`calculateLinearIndex` returns exactly `offset + Σ index[i]*stride[i]`. The method returns
that sum as a `size_t` (first part); the conversion leaves a value of `[0, 2^64)` unchanged
(second part); and the sum is non-negative on every descriptor with a non-negative offset
and non-negative strides (third part), so that there the result is the sum itself (fourth
part). -/
theorem Tensor.calculateLinearIndex_value {α : Type} (t : Tensor α) (indices : List Int)
    (hwf : t.WellFormed) (h : t.InRange indices) :
    t.calculateLinearIndex indices
        = .ok ((t.offset_ + Tensor.indexSum indices t.stride_) % SIZE_MOD) ∧
      (0 ≤ t.offset_ + Tensor.indexSum indices t.stride_ →
        t.offset_ + Tensor.indexSum indices t.stride_ < SIZE_MOD →
        t.calculateLinearIndex indices
          = .ok (t.offset_ + Tensor.indexSum indices t.stride_)) ∧
      (0 ≤ t.offset_ → (∀ s ∈ t.stride_, 0 ≤ s) →
        0 ≤ t.offset_ + Tensor.indexSum indices t.stride_) ∧
      (0 ≤ t.offset_ → (∀ s ∈ t.stride_, 0 ≤ s) →
        t.offset_ + Tensor.indexSum indices t.stride_ < SIZE_MOD →
        t.calculateLinearIndex indices
          = .ok (t.offset_ + Tensor.indexSum indices t.stride_)) := by
  have hval := Tensor.calculateLinearIndex_of_inRange t indices hwf h
  have hexact : 0 ≤ t.offset_ + Tensor.indexSum indices t.stride_ →
      t.offset_ + Tensor.indexSum indices t.stride_ < SIZE_MOD →
      t.calculateLinearIndex indices
        = .ok (t.offset_ + Tensor.indexSum indices t.stride_) := by
    intro h0 h1
    rw [hval, toSizeT, Int.emod_eq_of_lt h0 h1]
  have hnn : 0 ≤ t.offset_ → (∀ s ∈ t.stride_, 0 ≤ s) →
      0 ≤ t.offset_ + Tensor.indexSum indices t.stride_ := fun hoff hst =>
    add_nonneg hoff (Tensor.indexSum_nonneg indices t.stride_ (fun i hi => (h.2 i hi).1) hst)
  exact ⟨hval, hexact, hnn, fun hoff hst h1 => hexact (hnn hoff hst) h1⟩

/-- Example for C1: in a `[2,3]` tensor with strides `[3,1]` and offset `0`, the index
`(1, 2)` resolves to `5`. -/
theorem Tensor.calculateLinearIndex_value_witness :
    Tensor.zeros23.WellFormed ∧ Tensor.zeros23.InRange [1, 2] ∧
      0 ≤ Tensor.zeros23.offset_ ∧ (∀ s ∈ Tensor.zeros23.stride_, 0 ≤ s) ∧
      Tensor.zeros23.calculateLinearIndex [1, 2] = .ok 5 :=
  ⟨by decide, by decide, by decide, by decide,
    (Tensor.calculateLinearIndex_value Tensor.zeros23 [1, 2] (by decide) (by decide)).2.2.2
      (by decide) (by decide) (by decide)⟩

/-- C2: `calculateLinearIndex` fails exactly when the multi-index is not in range: a count
different from `ndim` throws `invalid_argument` (DimensionMismatch); with the right count, an
entry that is negative or `>= shape[i]` throws `out_of_range` (IndexOutOfRange); and it
returns a position if and only if the count is `ndim` and every entry is in range. -/
theorem Tensor.calculateLinearIndex_fails_iff {α : Type} (t : Tensor α) (indices : List Int)
    (hwf : t.WellFormed) :
    ((indices.length : Int) ≠ t.ndim →
        t.calculateLinearIndex indices
          = .error (.invalid_argument "Error: Indices size does not match tensor dimension")) ∧
      ((indices.length : Int) = t.ndim →
        (∃ i, i < indices.length ∧
          (indices.getD i 0 < 0 ∨ indices.getD i 0 ≥ t.shape_.getD i 0)) →
        t.calculateLinearIndex indices = .error (.out_of_range "Error: Index out of range")) ∧
      ((∃ p, t.calculateLinearIndex indices = .ok p) ↔
        ((indices.length : Int) = t.ndim ∧
          ∀ i, i < indices.length →
            0 ≤ indices.getD i 0 ∧ indices.getD i 0 < t.shape_.getD i 0)) :=
  ⟨Tensor.calculateLinearIndex_of_length_ne t indices,
    Tensor.calculateLinearIndex_of_bad_entry t indices hwf,
    Tensor.calculateLinearIndex_isOk_iff t indices hwf⟩

/-- Example for C2: in a `[2,3]` tensor the index `(1)` is a count mismatch and the index
`(1, 5)` is out of range. -/
theorem Tensor.calculateLinearIndex_fails_iff_witness :
    Tensor.zeros23.WellFormed ∧
      Tensor.zeros23.calculateLinearIndex [1]
        = .error (.invalid_argument "Error: Indices size does not match tensor dimension") ∧
      Tensor.zeros23.calculateLinearIndex [1, 5]
        = .error (.out_of_range "Error: Index out of range") :=
  ⟨by decide,
    (Tensor.calculateLinearIndex_fails_iff Tensor.zeros23 [1] (by decide)).1 (by decide),
    (Tensor.calculateLinearIndex_fails_iff Tensor.zeros23 [1, 5] (by decide)).2.1 (by decide)
      ⟨1, by decide, by decide⟩⟩

/-! ## Construction and contiguity -/

theorem Tensor.foldl_mul_eq (shape : List Int) :
    ∀ a : Int, shape.foldl (fun num d => num * d) a = a * shape.prod := by
  induction shape with
  | nil => intro a; simp
  | cons d rest ih => intro a; simp [ih, mul_assoc]

theorem Tensor.countElements_eq_prod (shape : List Int) :
    Tensor.countElements shape = shape.prod := by
  simp [Tensor.countElements, Tensor.foldl_mul_eq]

theorem Tensor.getD_set (l : List Int) (i j : Nat) (x : Int) :
    (l.set i x).getD j 0 = if i = j ∧ i < l.length then x else l.getD j 0 := by
  simp only [List.getD_eq_getElem?_getD, List.getElem?_set]
  by_cases hij : i = j
  · subst hij
    by_cases hi : i < l.length
    · simp [hi]
    · simp [hi, List.getElem?_eq_none (Nat.le_of_not_lt hi)]
  · simp [hij]

/-- The stride loop keeps the entries from `n` on and makes every entry below `n` the product
of the next stride and the next extent. -/
theorem Tensor.strideLoop_spec (shape_ : List Int) :
    ∀ (n : Nat) (stride_ : List Int), n < stride_.length →
      (Tensor.strideLoop shape_ n stride_).length = stride_.length ∧
      (∀ j, n ≤ j → (Tensor.strideLoop shape_ n stride_).getD j 0 = stride_.getD j 0) ∧
      (∀ i, i < n → (Tensor.strideLoop shape_ n stride_).getD i 0
          = (Tensor.strideLoop shape_ n stride_).getD (i + 1) 0 * shape_.getD (i + 1) 0) := by
  intro n
  induction n with
  | zero =>
      intro stride_ _
      refine ⟨rfl, fun _ _ => rfl, fun i hi => absurd hi (Nat.not_lt_zero i)⟩
  | succ k ih =>
      intro stride_ hk
      have hlen : k < (stride_.set k (stride_.getD (k + 1) 0 * shape_.getD (k + 1) 0)).length := by
        simp; omega
      obtain ⟨h1, h2, h3⟩ := ih _ hlen
      rw [Tensor.strideLoop]
      refine ⟨by simpa using h1, ?_, ?_⟩
      · intro j hj
        rw [h2 j (by omega), Tensor.getD_set, if_neg (by omega)]
      · intro i hi
        by_cases hik : i < k
        · exact h3 i hik
        · have hik2 : i = k := by omega
          subst hik2
          rw [h2 i (le_refl _), h2 (i + 1) (by omega), Tensor.getD_set, Tensor.getD_set,
            if_pos ⟨rfl, by omega⟩, if_neg (by omega)]

theorem Tensor.initStride_length (shape : List Int) :
    (Tensor.initStride shape).length = shape.length := by
  unfold Tensor.initStride
  by_cases h : shape.length > 0
  · simp only [h, if_true]
    rw [(Tensor.strideLoop_spec shape (shape.length - 1) _ (by simp; omega)).1]
    simp
  · simp [h]

theorem Tensor.initStride_last (shape : List Int) (h : shape.length > 0) :
    (Tensor.initStride shape).getD (shape.length - 1) 0 = 1 := by
  unfold Tensor.initStride
  simp only [h, if_true]
  rw [(Tensor.strideLoop_spec shape (shape.length - 1) _ (by simp; omega)).2.1 _ (le_refl _),
    Tensor.getD_set, if_pos ⟨rfl, by simp; omega⟩]

theorem Tensor.initStride_step (shape : List Int) (i : Nat) (h : i + 1 < shape.length) :
    (Tensor.initStride shape).getD i 0
      = (Tensor.initStride shape).getD (i + 1) 0 * shape.getD (i + 1) 0 := by
  unfold Tensor.initStride
  have hpos : shape.length > 0 := by omega
  simp only [hpos, if_true]
  exact (Tensor.strideLoop_spec shape (shape.length - 1) _ (by simp; omega)).2.2 i (by omega)

/-- The loop of `is_contiguous` started at `n` with the running product `s` accepts exactly
the row-major strides below `n`. -/
theorem Tensor.is_contiguous.loop_iff {α : Type} (t : Tensor α) :
    ∀ (n : Nat) (s : Int),
      Tensor.is_contiguous.loop t n s = true ↔
        ((0 < n → t.stride_.getD (n - 1) 0 = s) ∧
          ∀ i, i + 1 < n → t.stride_.getD i 0 = t.stride_.getD (i + 1) 0 * t.shape_.getD (i + 1) 0) := by
  intro n
  induction n with
  | zero =>
      intro s
      simp [Tensor.is_contiguous.loop]
  | succ k ih =>
      intro s
      rw [Tensor.is_contiguous.loop]
      by_cases hs : s = t.stride_.getD k 0
      · rw [if_neg (by simpa using hs), ih]
        constructor
        · rintro ⟨ha, hb⟩
          refine ⟨fun _ => by simpa using hs.symm, fun i hi => ?_⟩
          by_cases hik : i + 1 < k
          · exact hb i hik
          · have hik2 : k = i + 1 := by omega
            subst hik2
            have := ha (by omega)
            simp only [Nat.add_sub_cancel] at this
            rw [this, hs]
        · rintro ⟨_, hb⟩
          refine ⟨fun hk => ?_, fun i hi => hb i (by omega)⟩
          have := hb (k - 1) (by omega)
          rw [this, hs]
          have hk1 : k - 1 + 1 = k := by omega
          rw [hk1]
      · rw [if_pos (by simpa using hs)]
        constructor
        · intro h
          cases h
        · rintro ⟨ha, _⟩
          have := ha (by omega)
          simp only [Nat.add_sub_cancel] at this
          exact absurd this.symm hs

/-- The method `is_contiguous` accepts exactly the descriptors with `stride[ndim-1] = 1` and
`stride[i] = stride[i+1] * shape[i+1]`. -/
theorem Tensor.is_contiguous_iff {α : Type} (t : Tensor α) :
    t.is_contiguous = true ↔
      ((0 < t.ndim → t.stride_.getD (t.ndim.toNat - 1) 0 = 1) ∧
        ∀ i : Nat, (i : Int) + 1 < t.ndim →
          t.stride_.getD i 0 = t.stride_.getD (i + 1) 0 * t.shape_.getD (i + 1) 0) := by
  rw [Tensor.is_contiguous, Tensor.is_contiguous.loop_iff]
  constructor
  · rintro ⟨ha, hb⟩
    exact ⟨fun h => ha (by omega), fun i hi => hb i (by omega)⟩
  · rintro ⟨ha, hb⟩
    exact ⟨fun h => ha (by omega), fun i hi => hb i (by omega)⟩

/-- The strides that the constructors compute: `stride_[i]` is the product of the sizes after
position `i`. -/
theorem Tensor.getD_initStride (shape : List Int) (i : Nat) (h : i < shape.length) :
    (Tensor.initStride shape).getD i 0 = (shape.drop (i + 1)).prod := by
  have hlen := Tensor.initStride_length shape
  have key : ∀ m i, i + m + 1 = shape.length →
      (Tensor.initStride shape).getD i 0 = (shape.drop (i + 1)).prod := by
    intro m
    induction m with
    | zero =>
        intro i hi
        have h1 : i = shape.length - 1 := by omega
        rw [h1, Tensor.initStride_last shape (by omega), List.drop_of_length_le (by omega)]
        rfl
    | succ k ih =>
        intro i hi
        have hi1 : i + 1 < shape.length := by omega
        have hdrop : (shape.drop (i + 1)).prod
            = shape.getD (i + 1) 0 * (shape.drop (i + 1 + 1)).prod := by
          rw [List.drop_eq_getElem_cons hi1, List.prod_cons,
            List.getD_eq_getElem shape 0 hi1]
        rw [Tensor.initStride_step shape i hi1, ih (i + 1) (by omega), hdrop]
        ring
  exact key (shape.length - 1 - i) i (by omega)

/-- A value in the range of the type is stored unchanged in an `int`. -/
theorem toInt32_of_int (x : Int) (h0 : 0 ≤ x) (h1 : x ≤ 2147483647) : toInt32 x = x := by
  unfold toInt32
  omega

theorem Tensor.foldl_int32_eq (l : List Int) :
    ∀ a : Int,
      (∀ k, k ≤ l.length → 0 ≤ a * (l.take k).prod ∧ a * (l.take k).prod ≤ 2147483647) →
      l.foldl (fun num_elements dim => toInt32 (num_elements * dim)) a = a * l.prod := by
  induction l with
  | nil => intro a _; simp
  | cons d rest ih =>
      intro a h
      have h1 := h 1 (by simp)
      simp only [List.take_succ_cons, List.take_zero, List.prod_cons, List.prod_nil,
        mul_one] at h1
      rw [List.foldl_cons, toInt32_of_int _ h1.1 h1.2, ih (a * d), List.prod_cons, mul_assoc]
      intro k hk
      have h2 := h (k + 1) (by simpa using hk)
      simp only [List.take_succ_cons, List.prod_cons] at h2
      rw [mul_assoc]
      exact h2

/-- On a shape whose products stay within `int` the 32-bit count loop computes the product. -/
theorem Tensor.countElements_int32_eq (shape : List Int) (h : Tensor.IntShape shape) :
    Tensor.countElements.int32 shape = Tensor.countElements shape := by
  rw [Tensor.countElements_eq_prod, Tensor.countElements.int32, Tensor.foldl_int32_eq shape 1,
    one_mul]
  intro k hk
  rw [one_mul]
  exact ⟨List.prod_nonneg (fun d hd => (h.1 d (List.mem_of_mem_take hd)).1), (h.2 k hk).1⟩

/-- The 32-bit stride loop keeps the entries from `n` on and makes every entry below `n` the
32-bit product of the next stride and the next extent. -/
theorem Tensor.strideLoop_int32_spec (shape_ : List Int) :
    ∀ (n : Nat) (stride_ : List Int), n < stride_.length →
      (Tensor.strideLoop.int32 shape_ n stride_).length = stride_.length ∧
      (∀ j, n ≤ j →
        (Tensor.strideLoop.int32 shape_ n stride_).getD j 0 = stride_.getD j 0) ∧
      (∀ i, i < n → (Tensor.strideLoop.int32 shape_ n stride_).getD i 0
          = toInt32 ((Tensor.strideLoop.int32 shape_ n stride_).getD (i + 1) 0
              * shape_.getD (i + 1) 0)) := by
  intro n
  induction n with
  | zero =>
      intro stride_ _
      refine ⟨rfl, fun _ _ => rfl, fun i hi => absurd hi (Nat.not_lt_zero i)⟩
  | succ k ih =>
      intro stride_ hk
      have hlen : k < (stride_.set k
          (toInt32 (stride_.getD (k + 1) 0 * shape_.getD (k + 1) 0))).length := by
        simp; omega
      obtain ⟨h1, h2, h3⟩ := ih _ hlen
      rw [Tensor.strideLoop.int32]
      refine ⟨by simpa using h1, ?_, ?_⟩
      · intro j hj
        rw [h2 j (by omega), Tensor.getD_set, if_neg (by omega)]
      · intro i hi
        by_cases hik : i < k
        · exact h3 i hik
        · have hik2 : i = k := by omega
          subst hik2
          rw [h2 i (le_refl _), h2 (i + 1) (by omega), Tensor.getD_set, Tensor.getD_set,
            if_pos ⟨rfl, by omega⟩, if_neg (by omega)]

theorem Tensor.initStride_int32_length (shape : List Int) :
    (Tensor.initStride.int32 shape).length = shape.length := by
  unfold Tensor.initStride.int32
  by_cases h : shape.length > 0
  · simp only [h, if_true]
    rw [(Tensor.strideLoop_int32_spec shape (shape.length - 1) _ (by simp; omega)).1]
    simp
  · simp [h]

theorem Tensor.initStride_int32_last (shape : List Int) (h : shape.length > 0) :
    (Tensor.initStride.int32 shape).getD (shape.length - 1) 0 = 1 := by
  unfold Tensor.initStride.int32
  simp only [h, if_true]
  rw [(Tensor.strideLoop_int32_spec shape (shape.length - 1) _ (by simp; omega)).2.1 _
      (le_refl _),
    Tensor.getD_set, if_pos ⟨rfl, by simp; omega⟩]

theorem Tensor.initStride_int32_step (shape : List Int) (i : Nat) (h : i + 1 < shape.length) :
    (Tensor.initStride.int32 shape).getD i 0
      = toInt32 ((Tensor.initStride.int32 shape).getD (i + 1) 0 * shape.getD (i + 1) 0) := by
  unfold Tensor.initStride.int32
  have hpos : shape.length > 0 := by omega
  simp only [hpos, if_true]
  exact (Tensor.strideLoop_int32_spec shape (shape.length - 1) _ (by simp; omega)).2.2 i
    (by omega)

/-- On a shape whose products stay within `int` the 32-bit stride loop computes the strides
of `Tensor.initStride`. -/
theorem Tensor.initStride_int32_eq (shape : List Int) (h : Tensor.IntShape shape) :
    Tensor.initStride.int32 shape = Tensor.initStride shape := by
  have key : ∀ m i, i + m + 1 = shape.length →
      (Tensor.initStride.int32 shape).getD i 0 = (shape.drop (i + 1)).prod := by
    intro m
    induction m with
    | zero =>
        intro i hi
        have h1 : i = shape.length - 1 := by omega
        rw [h1, Tensor.initStride_int32_last shape (by omega),
          List.drop_of_length_le (by omega)]
        rfl
    | succ k ih =>
        intro i hi
        have hi1 : i + 1 < shape.length := by omega
        have hdrop : (shape.drop (i + 1)).prod
            = (shape.drop (i + 1 + 1)).prod * shape.getD (i + 1) 0 := by
          rw [List.drop_eq_getElem_cons hi1, List.prod_cons,
            List.getD_eq_getElem shape 0 hi1]
          exact mul_comm _ _
        rw [Tensor.initStride_int32_step shape i hi1, ih (i + 1) (by omega), ← hdrop]
        exact toInt32_of_int _
          (List.prod_nonneg (fun d hd => (h.1 d (List.mem_of_mem_drop hd)).1))
          (h.2 (i + 1) (by omega)).2
  have hlen : (Tensor.initStride.int32 shape).length = (Tensor.initStride shape).length := by
    rw [Tensor.initStride_int32_length, Tensor.initStride_length]
  apply List.ext_getElem hlen
  intro n h1 h2
  have hn : n < shape.length := by rw [← Tensor.initStride_int32_length shape]; exact h1
  have e1 := key (shape.length - 1 - n) n (by omega)
  have e2 := Tensor.getD_initStride shape n hn
  rw [List.getD_eq_getElem _ _ h1] at e1
  rw [List.getD_eq_getElem _ _ h2] at e2
  rw [e1, e2]

/-- On a shape whose products stay within `int` the constructor on 32-bit values and the
constructor on mathematical integers return the same tensor. -/
theorem Tensor.fromShape_int32_eq {α : Type} [Inhabited α] (shape : List Int)
    (h : Tensor.IntShape shape) :
    (Tensor.fromShape.int32 shape : Except Error (Tensor α)) = Tensor.fromShape shape := by
  rw [Tensor.fromShape.int32, Tensor.fromShape, Tensor.countElements_int32_eq shape h,
    Tensor.initStride_int32_eq shape h]

/-- C3 (amended): for a shape of non-negative sizes (the empty shape and shapes with a `0`
included) none of whose products leaves the range of the type `int` (`Tensor.IntShape`), the
constructor returns a tensor with that shape, `num_elements` the product of the shape,
offset `0`, and a contiguous layout: `is_contiguous` is true, `stride[ndim-1] = 1` and
`stride[i] = stride[i+1] * shape[i+1]`. The values that it stores are `int` values:
`num_elements` and every stride lie in `[0, INT_MAX]`. -/
theorem Tensor.fromShape_fresh {α : Type} [Inhabited α] (shape : List Int)
    (h : Tensor.IntShape shape) :
    ∃ t : Tensor α, Tensor.fromShape.int32 shape = .ok t ∧
      t.shape_ = shape ∧ t.ndim = shape.length ∧ t.stride_.length = shape.length ∧
      t.num_elements = shape.prod ∧ ([] : List Int).prod = 1 ∧ t.offset_ = 0 ∧
      t.is_contiguous = true ∧
      (0 < shape.length → t.stride_.getD (shape.length - 1) 0 = 1) ∧
      (∀ i, i + 1 < shape.length →
        t.stride_.getD i 0 = t.stride_.getD (i + 1) 0 * shape.getD (i + 1) 0) ∧
      (0 ≤ t.num_elements ∧ t.num_elements ≤ 2147483647) ∧
      (∀ i, i < shape.length →
        0 ≤ t.stride_.getD i 0 ∧ t.stride_.getD i 0 ≤ 2147483647) := by
  have hnonneg : 0 ≤ shape.prod := List.prod_nonneg (fun d hd => (h.1 d hd).1)
  have hprod : ¬ Tensor.countElements shape < 0 := by
    rw [Tensor.countElements_eq_prod]
    exact not_lt.mpr hnonneg
  have hcount : Tensor.countElements shape ≤ 2147483647 := by
    rw [Tensor.countElements_eq_prod]
    have := (h.2 shape.length (le_refl _)).1
    rwa [List.take_length] at this
  rw [Tensor.fromShape_int32_eq shape h]
  refine ⟨_, by rw [Tensor.fromShape]; exact if_neg hprod, rfl, rfl,
    Tensor.initStride_length shape, Tensor.countElements_eq_prod shape, rfl, rfl, ?_,
    fun hpos => Tensor.initStride_last shape hpos,
    fun i hi => Tensor.initStride_step shape i hi,
    ⟨not_lt.mp hprod, hcount⟩, fun i hi => ?_⟩
  · rw [Tensor.is_contiguous_iff]
    refine ⟨fun hpos => ?_, fun i hi => ?_⟩
    · simp only [Int.toNat_ofNat]
      exact Tensor.initStride_last shape (by simpa using hpos)
    · exact Tensor.initStride_step shape i (by simp only at hi; omega)
  · show 0 ≤ (Tensor.initStride shape).getD i 0 ∧
      (Tensor.initStride shape).getD i 0 ≤ 2147483647
    rw [Tensor.getD_initStride shape i hi]
    exact ⟨List.prod_nonneg (fun d hd => (h.1 d (List.mem_of_mem_drop hd)).1),
      (h.2 (i + 1) hi).2⟩

/-- Example for C3: the shape `[2, 0, 3]`, with an empty dimension. -/
theorem Tensor.fromShape_fresh_witness :
    Tensor.IntShape [2, 0, 3] ∧
    ∃ t : Tensor Int, Tensor.fromShape.int32 [2, 0, 3] = .ok t ∧
      t.shape_ = [2, 0, 3] ∧ t.ndim = 3 ∧ t.stride_.length = 3 ∧
      t.num_elements = 0 ∧ ([] : List Int).prod = 1 ∧ t.offset_ = 0 ∧
      t.is_contiguous = true ∧
      (0 < 3 → t.stride_.getD 2 0 = 1) ∧
      (∀ i, i + 1 < 3 →
        t.stride_.getD i 0 = t.stride_.getD (i + 1) 0 * ([2, 0, 3] : List Int).getD (i + 1) 0) ∧
      (0 ≤ t.num_elements ∧ t.num_elements ≤ 2147483647) ∧
      (∀ i, i < 3 → 0 ≤ t.stride_.getD i 0 ∧ t.stride_.getD i 0 ≤ 2147483647) :=
  ⟨by decide, Tensor.fromShape_fresh [2, 0, 3] (by decide)⟩

/-- C3 (as stated) fails: the sizes of the shape `{65536, 65536}` are non-negative and their
product is `2^32`, but the constructor stores it in the `int` variable `num_elements` as `0`
(and allocates no cell); for the shape `{50000, 50000}` the stored product is negative and
the constructor throws at the allocation. -/
theorem Tensor.fromShape_count_wraps :
    (∀ d ∈ ([65536, 65536] : List Int), 0 ≤ d) ∧
      Tensor.fromShape.int32 [65536, 65536] = .ok Tensor.square65536 ∧
      Tensor.square65536.num_elements = 0 ∧
      ([65536, 65536] : List Int).prod = 4294967296 ∧
      Tensor.square65536.num_elements ≠ ([65536, 65536] : List Int).prod ∧
      (∀ d ∈ ([50000, 50000] : List Int), 0 ≤ d) ∧
      Tensor.countElements.int32 [50000, 50000] = -1794967296 ∧
      (Tensor.fromShape.int32 [50000, 50000] : Except Error (Tensor Int))
        = .error .bad_array_new_length :=
  ⟨by decide, by rfl, by decide, by decide, by decide, by decide, by decide, by rfl⟩

/-! ## Views: slice -/

theorem Tensor.vecGet_of_nonneg (v : List Int) (i : Int) (h : 0 ≤ i) :
    Tensor.vecGet v i = v.getD i.toNat 0 := by
  rw [Tensor.vecGet, if_neg (by omega)]

theorem Tensor.vecSet_of_nonneg (v : List Int) (i x : Int) (h : 0 ≤ i) :
    Tensor.vecSet v i x = v.set i.toNat x := by
  rw [Tensor.vecSet, if_neg (by omega)]

/-- Replacing the entry `n` of a multi-index moves the index sum by the change of that entry
times `stride[n]`. -/
theorem Tensor.indexSum_set (indices : List Int) :
    ∀ (stride_ : List Int) (n : Nat) (x : Int), n < indices.length →
      Tensor.indexSum (indices.set n x) stride_
        = Tensor.indexSum indices stride_ + (x - indices.getD n 0) * stride_.getD n 0 := by
  induction indices with
  | nil => intro stride_ n x h; simp at h
  | cons ix rest ih =>
      intro stride_ n x h
      cases n with
      | zero =>
          simp only [List.set_cons_zero, Tensor.indexSum_cons, List.getD_cons_zero,
            Tensor.getD_zero_eq_headD]
          ring
      | succ m =>
          simp only [List.set_cons_succ, Tensor.indexSum_cons, List.getD_cons_succ,
            Tensor.getD_succ_eq_tail]
          rw [ih stride_.tail m x (by simpa using h)]
          ring

/-- Under its guards, and on a dimension that is not empty, `slice` returns the source
descriptor with the new extent, element count and offset. -/
theorem Tensor.slice_eq_ok {α : Type} (t : Tensor α) (startIdx endIdx dim : Int)
    (hdim : dim < t.ndim) (hs : 0 ≤ startIdx) (hse : startIdx ≤ endIdx)
    (he : endIdx ≤ Tensor.vecGet t.shape_ dim) (hne : Tensor.vecGet t.shape_ dim ≠ 0) :
    t.slice startIdx endIdx dim
      = .ok { t with
              shape_ := Tensor.vecSet t.shape_ dim (endIdx - startIdx)
              num_elements := (t.num_elements.tdiv (Tensor.vecGet t.shape_ dim))
                * Tensor.vecGet (Tensor.vecSet t.shape_ dim (endIdx - startIdx)) dim
              offset_ := t.offset_ + startIdx * Tensor.vecGet t.stride_ dim } := by
  have h1 : ¬ dim ≥ t.ndim := by omega
  have h2 : ¬ (startIdx < 0 ∨ endIdx > Tensor.vecGet t.shape_ dim ∨ startIdx > endIdx) := by
    omega
  simp only [Tensor.slice, if_neg h1, if_neg h2, if_neg hne]

/-- A successful `slice` returns the descriptor of `slice_eq_ok`. -/
theorem Tensor.slice_ok_inv {α : Type} (t r : Tensor α) (startIdx endIdx dim : Int)
    (h : t.slice startIdx endIdx dim = .ok r) :
    r = { t with
          shape_ := Tensor.vecSet t.shape_ dim (endIdx - startIdx)
          num_elements := (t.num_elements.tdiv (Tensor.vecGet t.shape_ dim))
            * Tensor.vecGet (Tensor.vecSet t.shape_ dim (endIdx - startIdx)) dim
          offset_ := t.offset_ + startIdx * Tensor.vecGet t.stride_ dim } ∧
      dim < t.ndim ∧ 0 ≤ startIdx ∧ startIdx ≤ endIdx ∧
      endIdx ≤ Tensor.vecGet t.shape_ dim ∧ Tensor.vecGet t.shape_ dim ≠ 0 := by
  unfold Tensor.slice at h
  split at h
  · cases h
  · split at h
    · cases h
    · split at h
      · cases h
      · rename_i h1 h2 h3
        injection h with h
        exact ⟨h.symm, by omega, by omega, by omega, by omega, h3⟩

/-- C4: for `0 <= dim < ndim` and `0 <= s <= e <= shape[dim]`, `slice(s, e, dim)` succeeds
whenever the sliced dimension is not empty, and for every multi-index that is in range for
the slice, the index with entry `dim` replaced by `s + idx[dim]` is in range for the source
and `getData` on the slice reads the same Storage cell (same linear position, same Storage)
as `getData` on the source at the shifted index. -/
theorem Tensor.slice_getData {α : Type} (t : Tensor α) (startIdx endIdx dim : Int)
    (hwf : t.WellFormed) (hdim0 : 0 ≤ dim) (hdim : dim < t.ndim) (hs : 0 ≤ startIdx)
    (hse : startIdx ≤ endIdx) (he : endIdx ≤ Tensor.vecGet t.shape_ dim) :
    (Tensor.vecGet t.shape_ dim ≠ 0 → ∃ r, t.slice startIdx endIdx dim = .ok r) ∧
      ∀ r indices, t.slice startIdx endIdx dim = .ok r → r.InRange indices →
        t.InRange (Tensor.vecSet indices dim (startIdx + Tensor.vecGet indices dim)) ∧
        r.data_ = t.data_ ∧
        r.calculateLinearIndex indices
          = t.calculateLinearIndex
              (Tensor.vecSet indices dim (startIdx + Tensor.vecGet indices dim)) ∧
        r.getData indices
          = t.getData (Tensor.vecSet indices dim (startIdx + Tensor.vecGet indices dim)) := by
  refine ⟨fun hne => ⟨_, Tensor.slice_eq_ok t startIdx endIdx dim hdim hs hse he hne⟩, ?_⟩
  intro r indices hr hin
  obtain ⟨hreq, -, -, -, -, -⟩ := Tensor.slice_ok_inv t r startIdx endIdx dim hr
  have hrwf : r.WellFormed := by
    subst hreq
    refine ⟨?_, ?_⟩
    · simpa [Tensor.vecSet_of_nonneg _ _ _ hdim0] using hwf.1
    · simpa [Tensor.vecSet_of_nonneg _ _ _ hdim0] using hwf.2
  have hlen : (indices.length : Int) = t.ndim := by
    have := hin.1
    subst hreq
    exact this
  have hd : dim.toNat < indices.length := by omega
  have hshift : t.InRange (Tensor.vecSet indices dim (startIdx + Tensor.vecGet indices dim)) := by
    rw [Tensor.vecSet_of_nonneg _ _ _ hdim0, Tensor.vecGet_of_nonneg _ _ hdim0]
    refine ⟨by simpa using hlen, ?_⟩
    intro i hi
    have hi2 : i < indices.length := by simpa using hi
    have hent := hin.2 i hi2
    subst hreq
    simp only [Tensor.vecSet_of_nonneg _ _ _ hdim0, Tensor.getD_set] at hent
    rw [Tensor.getD_set]
    rw [Tensor.vecGet_of_nonneg _ _ hdim0] at he
    by_cases hid : dim.toNat = i
    · subst hid
      have hsl : dim.toNat < t.shape_.length := by
        have := hwf.1
        omega
      rw [if_pos ⟨rfl, hsl⟩] at hent
      rw [if_pos ⟨rfl, hi2⟩]
      omega
    · rw [if_neg (fun h => hid h.1)] at hent
      rw [if_neg (fun h => hid h.1)]
      exact hent
  have hdata : r.data_ = t.data_ := by
    subst hreq
    rfl
  have hlin : r.calculateLinearIndex indices
      = t.calculateLinearIndex
          (Tensor.vecSet indices dim (startIdx + Tensor.vecGet indices dim)) := by
    rw [Tensor.calculateLinearIndex_of_inRange r indices hrwf hin,
      Tensor.calculateLinearIndex_of_inRange t _ hwf hshift]
    subst hreq
    simp only [Tensor.vecSet_of_nonneg _ _ _ hdim0, Tensor.vecGet_of_nonneg _ _ hdim0,
      Tensor.indexSum_set indices t.stride_ dim.toNat _ hd]
    congr 2
    ring
  refine ⟨hshift, hdata, hlin, ?_⟩
  rw [Tensor.getData, Tensor.getData, hlin, hdata]

/-! ## Views: transpose -/

theorem Tensor.ext_getD (l₁ l₂ : List Int) (hlen : l₁.length = l₂.length)
    (h : ∀ n, n < l₁.length → l₁.getD n 0 = l₂.getD n 0) : l₁ = l₂ := by
  apply List.ext_getElem hlen
  intro n h1 h2
  have := h n h1
  rwa [List.getD_eq_getElem _ _ h1, List.getD_eq_getElem _ _ h2] at this

theorem Tensor.length_swapAt (v : List Int) (i j : Int) :
    (Tensor.swapAt v i j).length = v.length := by
  unfold Tensor.swapAt Tensor.vecSet
  split_ifs <;> simp

/-- Swapping the same two positions of a vector twice restores it. -/
theorem Tensor.swapAt_swapAt (v : List Int) (i j : Int) (hi0 : 0 ≤ i) (hj0 : 0 ≤ j)
    (hi : i.toNat < v.length) (hj : j.toNat < v.length) :
    Tensor.swapAt (Tensor.swapAt v i j) i j = v := by
  apply Tensor.ext_getD
  · rw [Tensor.length_swapAt, Tensor.length_swapAt]
  · intro n _
    simp only [Tensor.swapAt, Tensor.vecSet_of_nonneg _ _ _ hi0, Tensor.vecSet_of_nonneg _ _ _ hj0,
      Tensor.vecGet_of_nonneg _ _ hi0, Tensor.vecGet_of_nonneg _ _ hj0, Tensor.getD_set,
      List.length_set]
    by_cases hab : i.toNat = j.toNat
    · by_cases hn : j.toNat = n
      · subst hn
        simp [hab, hj]
      · simp [hab, hn]
    · have hba : ¬ j.toNat = i.toNat := fun h => hab h.symm
      by_cases hn : j.toNat = n
      · subst hn
        simp [hab, hba, hi, hj]
      · by_cases hm : i.toNat = n
        · subst hm
          simp [hba, hi, hj]
        · simp [hn, hm]

/-- C6: for `0 <= d0, d1 < ndim`, transposing twice with the same arguments returns the
original tensor: same shape, stride, offset, num_elements and Storage, hence the same read
at every multi-index. -/
theorem Tensor.transpose_transpose {α : Type} (t : Tensor α) (dim0 dim1 : Int)
    (hwf : t.WellFormed) (h0 : 0 ≤ dim0) (h0n : dim0 < t.ndim) (h1 : 0 ≤ dim1)
    (h1n : dim1 < t.ndim) :
    (t.transpose dim0 dim1).transpose dim0 dim1 = t ∧
      ∀ indices, ((t.transpose dim0 dim1).transpose dim0 dim1).getData indices
        = t.getData indices := by
  have hsl := hwf.1
  have hst := hwf.2
  have heq : (t.transpose dim0 dim1).transpose dim0 dim1 = t := by
    cases t with
    | mk data_ num_elements scale offset_ stride_ ndim shape_ =>
        simp only [Tensor.transpose] at *
        rw [Tensor.swapAt_swapAt shape_ dim0 dim1 h0 h1 (by omega) (by omega),
          Tensor.swapAt_swapAt stride_ dim0 dim1 h0 h1 (by omega) (by omega)]
  exact ⟨heq, fun indices => by rw [heq]⟩

/-! ## Views: select -/

theorem Tensor.selectCopy_eq_eraseIdx (old : List Int) (n : Nat) (dim : Int) (h0 : 0 ≤ dim)
    (hn : n = old.length) (h : dim.toNat < old.length) :
    Tensor.selectCopy old n dim = old.eraseIdx dim.toNat := by
  subst hn
  apply Tensor.ext_getD
  · simp [Tensor.selectCopy, List.length_eraseIdx, h]
  · intro n hn
    have hn2 : n < old.length - 1 := by simpa [Tensor.selectCopy] using hn
    rw [List.getD_eq_getElem?_getD, List.getD_eq_getElem?_getD, List.getElem?_eraseIdx]
    simp only [Tensor.selectCopy, List.getElem?_map, List.getElem?_range hn2, Option.map_some',
      Option.getD_some]
    by_cases hlt : (n : Int) < dim
    · rw [if_pos hlt, if_pos (by omega), List.getD_eq_getElem?_getD]
    · rw [if_neg hlt, if_neg (by omega), List.getD_eq_getElem?_getD]

/-- Inserting the entry `index` at position `n` of a multi-index adds `index * stride[n]` to
the index sum taken over the strides without position `n`. -/
theorem Tensor.indexSum_insertIdx (n : Nat) :
    ∀ (indices stride_ : List Int) (index : Int), n ≤ indices.length →
      Tensor.indexSum (indices.insertIdx n index) stride_
        = stride_.getD n 0 * index + Tensor.indexSum indices (stride_.eraseIdx n) := by
  induction n with
  | zero =>
      intro indices stride_ index _
      rw [List.insertIdx_zero, Tensor.indexSum_cons, List.eraseIdx_zero,
        Tensor.getD_zero_eq_headD]
      ring
  | succ m ih =>
      intro indices stride_ index h
      cases indices with
      | nil => simp at h
      | cons ix rest =>
          rw [List.insertIdx_succ_cons, Tensor.indexSum_cons, ih rest stride_.tail index
            (by simpa using h), Tensor.getD_succ_eq_tail]
          cases stride_ with
          | nil => simp [Tensor.indexSum]
          | cons st sts =>
              simp only [List.eraseIdx_cons_succ, Tensor.indexSum_cons, List.headD_cons,
                List.tail_cons]
              ring

/-- Inserting an entry that is in range for dimension `n` into a multi-index that is in range
for the shape without dimension `n` gives a multi-index in range for the shape. -/
theorem Tensor.entries_insertIdx (n : Nat) :
    ∀ (indices shape_ : List Int) (index : Int), n ≤ indices.length → n < shape_.length →
      0 ≤ index → index < shape_.getD n 0 →
      (∀ i, i < indices.length →
        0 ≤ indices.getD i 0 ∧ indices.getD i 0 < (shape_.eraseIdx n).getD i 0) →
      ∀ i, i < (indices.insertIdx n index).length →
        0 ≤ (indices.insertIdx n index).getD i 0 ∧
          (indices.insertIdx n index).getD i 0 < shape_.getD i 0 := by
  induction n with
  | zero =>
      intro indices shape_ index _ hs h0 h1 hent i hi
      cases shape_ with
      | nil => simp at hs
      | cons s ss =>
          rw [List.insertIdx_zero] at hi ⊢
          cases i with
          | zero => simpa using ⟨h0, h1⟩
          | succ j =>
              have := hent j (by simpa using hi)
              simpa using this
  | succ m ih =>
      intro indices shape_ index hlen hs h0 h1 hent i hi
      cases indices with
      | nil => simp at hlen
      | cons ix rest =>
          cases shape_ with
          | nil => simp at hs
          | cons s ss =>
              rw [List.insertIdx_succ_cons] at hi ⊢
              cases i with
              | zero =>
                  have := hent 0 (by simp)
                  simpa using this
              | succ j =>
                  have hrest : ∀ i, i < rest.length →
                      0 ≤ rest.getD i 0 ∧ rest.getD i 0 < (ss.eraseIdx m).getD i 0 := by
                    intro i hi2
                    have := hent (i + 1) (by simpa using hi2)
                    simpa using this
                  have := ih rest ss index (by simpa using hlen) (by simpa using hs) h0
                    (by simpa using h1) hrest j (by simpa using hi)
                  simpa using this

/-- C5: for a tensor with non-negative extents, `0 <= dim < ndim` and `0 <= k < shape[dim]`,
`select(dim, k)` succeeds with rank `ndim - 1`, dimension `dim` removed from shape and
stride, the same Storage, and for every multi-index in range for the result, the index with
`k` inserted at position `dim` is in range for the source and both reads address the same
Storage cell. -/
theorem Tensor.select_getData {α : Type} [Inhabited α] (t : Tensor α) (dim index : Int)
    (hwf : t.WellFormed) (hnn : ∀ d ∈ t.shape_, 0 ≤ d) (hdim0 : 0 ≤ dim) (hdim : dim < t.ndim)
    (hk0 : 0 ≤ index) (hk : index < Tensor.vecGet t.shape_ dim) :
    ∃ r, t.select dim index = .ok r ∧ r.ndim = t.ndim - 1 ∧
      r.shape_ = t.shape_.eraseIdx dim.toNat ∧ r.stride_ = t.stride_.eraseIdx dim.toNat ∧
      r.data_ = t.data_ ∧
      ∀ indices, r.InRange indices →
        t.InRange (indices.insertIdx dim.toNat index) ∧
        r.calculateLinearIndex indices
          = t.calculateLinearIndex (indices.insertIdx dim.toNat index) ∧
        r.getData indices = t.getData (indices.insertIdx dim.toNat index) := by
  have hsl := hwf.1
  have hst := hwf.2
  have hd : dim.toNat < t.shape_.length := by omega
  have hshape := Tensor.selectCopy_eq_eraseIdx t.shape_ t.shape_.length dim hdim0 rfl hd
  have hstride := Tensor.selectCopy_eq_eraseIdx t.stride_ t.shape_.length dim hdim0 hst.symm
    (by omega)
  have hcount : ¬ Tensor.countElements (t.shape_.eraseIdx dim.toNat) < 0 := by
    rw [Tensor.countElements_eq_prod]
    exact not_lt.mpr (List.prod_nonneg (fun d hd => hnn d (List.mem_of_mem_eraseIdx hd)))
  have h1 : ¬ dim ≥ t.ndim := by omega
  have h2 : ¬ index ≥ Tensor.vecGet t.shape_ dim := by omega
  have hsel : t.select dim index
      = .ok { data_ := t.data_
              num_elements := Tensor.countElements (t.shape_.eraseIdx dim.toNat)
              scale := 0
              offset_ := t.offset_ + Tensor.vecGet t.stride_ dim * index
              stride_ := t.stride_.eraseIdx dim.toNat
              ndim := ((t.shape_.eraseIdx dim.toNat).length : Int)
              shape_ := t.shape_.eraseIdx dim.toNat } := by
    simp only [Tensor.select, if_neg h1, if_neg h2, hshape, hstride, Tensor.fromShape,
      if_neg hcount]
  refine ⟨_, hsel, ?_, rfl, rfl, rfl, ?_⟩
  · simp only [List.length_eraseIdx, if_pos hd]
    omega
  · intro indices hin
    have hrwf : Tensor.WellFormed
        { data_ := t.data_
          num_elements := Tensor.countElements (t.shape_.eraseIdx dim.toNat)
          scale := 0
          offset_ := t.offset_ + Tensor.vecGet t.stride_ dim * index
          stride_ := t.stride_.eraseIdx dim.toNat
          ndim := ((t.shape_.eraseIdx dim.toNat).length : Int)
          shape_ := t.shape_.eraseIdx dim.toNat } := by
      refine ⟨rfl, ?_⟩
      simp only [List.length_eraseIdx, hst]
    obtain ⟨hlen, hent⟩ := hin
    simp only [List.length_eraseIdx, if_pos hd] at hlen
    have hlen2 : indices.length = t.shape_.length - 1 := by omega
    have hle : dim.toNat ≤ indices.length := by omega
    have hins : t.InRange (indices.insertIdx dim.toNat index) := by
      refine ⟨?_, ?_⟩
      · rw [List.length_insertIdx _ _ hle]
        push_cast
        omega
      · exact Tensor.entries_insertIdx dim.toNat indices t.shape_ index hle hd hk0
          (by rwa [Tensor.vecGet_of_nonneg _ _ hdim0] at hk) hent
    have hlin : Tensor.calculateLinearIndex
        { data_ := t.data_
          num_elements := Tensor.countElements (t.shape_.eraseIdx dim.toNat)
          scale := 0
          offset_ := t.offset_ + Tensor.vecGet t.stride_ dim * index
          stride_ := t.stride_.eraseIdx dim.toNat
          ndim := ((t.shape_.eraseIdx dim.toNat).length : Int)
          shape_ := t.shape_.eraseIdx dim.toNat } indices
        = t.calculateLinearIndex (indices.insertIdx dim.toNat index) := by
      rw [Tensor.calculateLinearIndex_of_inRange _ indices hrwf
          ⟨by simp only [List.length_eraseIdx, if_pos hd]; omega, hent⟩,
        Tensor.calculateLinearIndex_of_inRange t _ hwf hins,
        Tensor.indexSum_insertIdx dim.toNat indices t.stride_ index hle,
        Tensor.vecGet_of_nonneg _ _ hdim0]
      congr 2
      ring
    refine ⟨hins, hlin, ?_⟩
    rw [Tensor.getData, Tensor.getData, hlin]

/-! ## Views: view -/

/-- Example for C4: rows 1 and 2 of a `[3,2]` tensor; the read at `(1, 0)` of the slice is
the read at `(2, 0)` of the source. -/
theorem Tensor.slice_getData_witness :
    Tensor.iota32.WellFormed ∧ (∃ r, Tensor.iota32.slice 1 3 0 = .ok r) ∧
      Tensor.iota32.slice 1 3 0 = .ok Tensor.iota32Rows12 ∧
      Tensor.iota32Rows12.InRange [1, 0] ∧
      Tensor.iota32Rows12.getData [1, 0] = Tensor.iota32.getData [2, 0] :=
  ⟨by decide,
    (Tensor.slice_getData Tensor.iota32 1 3 0 (by decide) (by decide) (by decide) (by decide)
      (by decide) (by decide)).1 (by decide),
    by rfl, by decide,
    ((Tensor.slice_getData Tensor.iota32 1 3 0 (by decide) (by decide) (by decide) (by decide)
      (by decide) (by decide)).2 Tensor.iota32Rows12 [1, 0] (by rfl) (by decide)).2.2.2⟩

/-- Example for C5: column 1 of a `[3,2]` tensor. -/
theorem Tensor.select_getData_witness :
    ∃ r, Tensor.iota32.select 1 1 = .ok r ∧ r.ndim = 1 ∧ r.shape_ = [3] ∧ r.stride_ = [2] ∧
      r.data_ = Tensor.iota32.data_ ∧
      ∀ indices, r.InRange indices →
        Tensor.iota32.InRange (indices.insertIdx 1 1) ∧
        r.calculateLinearIndex indices
          = Tensor.iota32.calculateLinearIndex (indices.insertIdx 1 1) ∧
        r.getData indices = Tensor.iota32.getData (indices.insertIdx 1 1) :=
  Tensor.select_getData Tensor.iota32 1 1 (by decide) (by decide) (by decide) (by decide)
    (by decide) (by decide)

/-- Example for C6: transposing a `[3,2]` tensor gives shape `[2,3]` and strides `[1,2]`,
and transposing again restores it. -/
theorem Tensor.transpose_transpose_witness :
    (Tensor.iota32.transpose 0 1).shape_ = [2, 3] ∧
      (Tensor.iota32.transpose 0 1).stride_ = [1, 2] ∧
      (Tensor.iota32.transpose 0 1).transpose 0 1 = Tensor.iota32 :=
  ⟨by decide, by decide,
    (Tensor.transpose_transpose Tensor.iota32 0 1 (by decide) (by decide) (by decide)
      (by decide) (by decide)).1⟩

/-! ## Kernels -/

/-- C9: for the fresh `A = [[1,2,3],[4,5,6]]` of shape `[2,3]` and
`B = [[7,8],[9,10],[11,12]]` of shape `[3,2]`, `A.matmul(B)` has shape `[2,2]` and the
elements `[[58,64],[139,154]]`. -/
theorem Tensor.matmul_example :
    (Tensor.exampleAB.map fun r => r.shape_) = .ok [2, 2] ∧
      (Tensor.exampleAB.bind fun r => r.getData [0, 0]) = .ok 58 ∧
      (Tensor.exampleAB.bind fun r => r.getData [0, 1]) = .ok 64 ∧
      (Tensor.exampleAB.bind fun r => r.getData [1, 0]) = .ok 139 ∧
      (Tensor.exampleAB.bind fun r => r.getData [1, 1]) = .ok 154 :=
  ⟨by decide, by decide, by decide, by decide, by decide⟩

/-- C8 fails on a stride-contiguous view with a non-zero offset: for the view
`A = exampleC.slice(1, 3, 0)`, whose logical rows are `[[2,3],[4,0]]`, and the identity `B`,
the cell `(0, 0)` of the specification is `A[0,0]*B[0,0] + A[0,1]*B[1,0] = 2`, while
`A.matmul(B)` holds `5` there, the element at Storage position `0` that lies before the view. -/
theorem Tensor.matmul_ignores_offset :
    (Tensor.exampleCRows12.map fun a => (a.shape_, a.stride_, a.offset_, a.is_contiguous))
        = .ok ([2, 2], [2, 1], 2, true) ∧
      (Tensor.exampleCRows12.bind fun a => a.getData [0, 0]) = .ok 2 ∧
      (Tensor.exampleCRows12.bind fun a =>
          Tensor.identity2.bind fun b => Tensor.logicalCell a b 0 0 2) = .ok 2 ∧
      (Tensor.exampleCRows12Product.map fun r => r.shape_) = .ok [2, 2] ∧
      (Tensor.exampleCRows12Product.bind fun r => r.getData [0, 0]) = .ok 5 :=
  ⟨by decide, by decide, by decide, by decide, by decide⟩

/-- C10 fails on a view with a non-zero offset: for the view `exampleC.slice(1, 3, 0)`, whose
logical rows are `[[2,3],[4,0]]`, the maximum of row `0` is at index `1` and that of row `1`
at index `0`, while `argmax(1)` returns `[0, 1]`: it scans the Storage rows `[5,1]` and
`[2,3]` that start at position `0`, not at the offset of the view. -/
theorem Tensor.argmax_ignores_offset :
    (Tensor.exampleCRows12.bind fun a => a.getData [0, 0]) = .ok 2 ∧
      (Tensor.exampleCRows12.bind fun a => a.getData [0, 1]) = .ok 3 ∧
      (Tensor.exampleCRows12.bind fun a => a.getData [1, 0]) = .ok 4 ∧
      (Tensor.exampleCRows12.bind fun a => a.getData [1, 1]) = .ok 0 ∧
      (Tensor.exampleCRows12.bind fun a =>
          (a.argmax 1 false).map fun r => r.shape_) = .ok [2] ∧
      (Tensor.exampleCRows12.bind fun a =>
          (a.argmax 1 false).bind fun r => r.getData [0]) = .ok 0 ∧
      (Tensor.exampleCRows12.bind fun a =>
          (a.argmax 1 false).bind fun r => r.getData [1]) = .ok 1 :=
  ⟨by decide, by decide, by decide, by decide, by decide, by decide, by decide⟩

/-- C11: for the fresh rank-2 tensor `[[1,5,3],[9,2,8]]` of shape `[2,3]`, `argmax(1)` is the
rank-1 tensor `[1, 0]`. -/
theorem Tensor.argmax_example :
    (Tensor.exampleD.bind fun a => (a.argmax 1 false).map fun r => r.shape_) = .ok [2] ∧
      (Tensor.exampleD.bind fun a => (a.argmax 1 false).bind fun r => r.getData [0])
        = .ok 1 ∧
      (Tensor.exampleD.bind fun a => (a.argmax 1 false).bind fun r => r.getData [1])
        = .ok 0 :=
  ⟨by decide, by decide, by decide⟩

/-! ## Failing accesses and failing views -/

/-- C13: for a multi-index (one entry per dimension) with an entry that is negative or
`>= shape[i]`, `getData` and `setData` both throw `out_of_range` (IndexOutOfRange), and the
tensor after the failed `setData` is the tensor before it: Storage, shape, stride and offset
are unchanged. -/
theorem Tensor.out_of_range_access {α : Type} (t : Tensor α) (indices : List Int) (value : α)
    (hwf : t.WellFormed) (hlen : (indices.length : Int) = t.ndim)
    (hbad : ∃ i, i < indices.length ∧
      (indices.getD i 0 < 0 ∨ indices.getD i 0 ≥ t.shape_.getD i 0)) :
    t.getData indices = .error (.out_of_range "Error: Index out of range") ∧
      t.setData indices value = .error (.out_of_range "Error: Index out of range") ∧
      t.afterSetData indices value = t ∧
      (t.afterSetData indices value).data_ = t.data_ ∧
      (t.afterSetData indices value).shape_ = t.shape_ ∧
      (t.afterSetData indices value).stride_ = t.stride_ ∧
      (t.afterSetData indices value).offset_ = t.offset_ := by
  have hcalc := Tensor.calculateLinearIndex_of_bad_entry t indices hwf hlen hbad
  have hafter : t.afterSetData indices value = t := by
    rw [Tensor.afterSetData, hcalc]
  refine ⟨?_, ?_, hafter, ?_, ?_, ?_, ?_⟩
  · rw [Tensor.getData, hcalc]
  · rw [Tensor.setData, hcalc]
  · rw [hafter]
  · rw [hafter]
  · rw [hafter]
  · rw [hafter]

/-- Example for C13: index `5` on the dimension of size `3` of a `[2,3]` tensor. -/
theorem Tensor.out_of_range_access_witness :
    Tensor.zeros23.getData [1, 5] = .error (.out_of_range "Error: Index out of range") ∧
      Tensor.zeros23.setData [1, 5] 7 = .error (.out_of_range "Error: Index out of range") ∧
      Tensor.zeros23.afterSetData [1, 5] 7 = Tensor.zeros23 :=
  ⟨(Tensor.out_of_range_access Tensor.zeros23 [1, 5] 7 (by decide) (by decide)
      ⟨1, by decide, by decide⟩).1,
    (Tensor.out_of_range_access Tensor.zeros23 [1, 5] 7 (by decide) (by decide)
      ⟨1, by decide, by decide⟩).2.1,
    (Tensor.out_of_range_access Tensor.zeros23 [1, 5] 7 (by decide) (by decide)
      ⟨1, by decide, by decide⟩).2.2.1⟩

/-- C14: for `0 <= dim < ndim`, `slice(startIdx, endIdx, dim)` throws
`invalid_argument("Invalid slice range.")` (InvalidRange) if and only if
`0 <= startIdx <= endIdx <= shape[dim]` does not hold, in particular whenever
`startIdx > endIdx`; and for `dim >= ndim` it throws whatever the bounds are. -/
theorem Tensor.slice_fails_iff {α : Type} (t : Tensor α) (startIdx endIdx dim : Int) :
    (0 ≤ dim → dim < t.ndim →
        (t.slice startIdx endIdx dim = .error (.invalid_argument "Invalid slice range.") ↔
          ¬ (0 ≤ startIdx ∧ startIdx ≤ endIdx ∧ endIdx ≤ Tensor.vecGet t.shape_ dim))) ∧
      (0 ≤ dim → dim < t.ndim → startIdx > endIdx →
        t.slice startIdx endIdx dim = .error (.invalid_argument "Invalid slice range.")) ∧
      (dim ≥ t.ndim →
        t.slice startIdx endIdx dim = .error (.invalid_argument "Dimension out of range.") ∧
        ∀ r, t.slice startIdx endIdx dim ≠ .ok r) := by
  have hbad : dim < t.ndim →
      ¬ (0 ≤ startIdx ∧ startIdx ≤ endIdx ∧ endIdx ≤ Tensor.vecGet t.shape_ dim) →
      t.slice startIdx endIdx dim = .error (.invalid_argument "Invalid slice range.") := by
    intro hdim hnot
    have h1 : ¬ dim ≥ t.ndim := by omega
    have h2 : startIdx < 0 ∨ endIdx > Tensor.vecGet t.shape_ dim ∨ startIdx > endIdx := by
      omega
    simp only [Tensor.slice, if_neg h1, if_pos h2]
  refine ⟨fun _ hdim => ⟨fun h hvalid => ?_, hbad hdim⟩, fun _ hdim hgt => hbad hdim (by omega),
    fun hdim => ?_⟩
  · have h1 : ¬ dim ≥ t.ndim := by omega
    have h2 : ¬ (startIdx < 0 ∨ endIdx > Tensor.vecGet t.shape_ dim ∨ startIdx > endIdx) := by
      omega
    simp only [Tensor.slice, if_neg h1, if_neg h2] at h
    split at h <;> cases h
  · have herr : t.slice startIdx endIdx dim
        = .error (.invalid_argument "Dimension out of range.") := by
      simp only [Tensor.slice, if_pos hdim]
    refine ⟨herr, fun r hr => ?_⟩
    rw [herr] at hr
    cases hr

/-- C15 fails on a negative index: `Tensor<int>({3}).select(0, -1)` does not throw; it
returns the scalar view at offset `-1`, whose read addresses the cell before the buffer. -/
theorem Tensor.select_negative_index :
    Tensor.selectBeforeStart = .ok Tensor.scalarAtMinusOne ∧
      (Tensor.selectBeforeStart.map fun r => (r.shape_, r.stride_, r.offset_))
        = .ok ([], [], -1) ∧
      (Tensor.selectBeforeStart.bind fun r => r.calculateLinearIndex [])
        = .ok 18446744073709551615 ∧
      toPtrdiff 18446744073709551615 = -1 :=
  ⟨by rfl, by decide, by decide, by decide⟩

/-- C20 fails on a view with a non-zero offset: for `a = exampleV.slice(1, 3, 0)`, whose
logical elements are `[2, 3]`, and the fresh `b = [2, 3]` of the same shape, every logical
element of `a` equals that of `b`, while `a == b` is `[0, 0]`: it compares the Storage cells
`0` and `1` of both, which hold `1, 2` and `2, 3`. -/
theorem Tensor.operatorEq_ignores_offset :
    (Tensor.exampleVTail.map fun a => (a.shape_, a.stride_, a.offset_)) = .ok ([2], [1], 1) ∧
      (Tensor.exampleW.map fun b => (b.shape_, b.stride_, b.offset_)) = .ok ([2], [1], 0) ∧
      (Tensor.exampleVTail.bind fun a => a.getData [0]) = .ok 2 ∧
      (Tensor.exampleW.bind fun b => b.getData [0]) = .ok 2 ∧
      (Tensor.exampleVTail.bind fun a => a.getData [1]) = .ok 3 ∧
      (Tensor.exampleW.bind fun b => b.getData [1]) = .ok 3 ∧
      (Tensor.exampleVTailEqW.map fun r => r.shape_) = .ok [2] ∧
      (Tensor.exampleVTailEqW.bind fun r => r.getData [0]) = .ok 0 ∧
      (Tensor.exampleVTailEqW.bind fun r => r.getData [1]) = .ok 0 :=
  ⟨by decide, by decide, by decide, by decide, by decide, by decide, by decide, by decide,
    by decide⟩

/-- Example for C14: `slice(2, 1, 0)` on a `[3,2]` tensor has `startIdx > endIdx`. -/
theorem Tensor.slice_fails_iff_witness :
    Tensor.iota32.slice 2 1 0 = .error (.invalid_argument "Invalid slice range.") :=
  (Tensor.slice_fails_iff Tensor.iota32 2 1 0).2.1 (by decide) (by decide) (by decide)

/-! ## Aliasing -/

theorem Tensor.calculateLinearIndex_withStorage {α : Type} (t : Tensor α) (data : Int → α)
    (indices : List Int) :
    (t.withStorage data).calculateLinearIndex indices = t.calculateLinearIndex indices :=
  rfl

theorem Tensor.storeAt_same {α : Type} (data_ : Int → α) (p : Int) (value : α) :
    Tensor.storeAt data_ p value p = value := by
  simp [Tensor.storeAt]

theorem Tensor.storeAt_other {α : Type} (data_ : Int → α) (p q : Int) (value : α)
    (h : q ≠ p) : Tensor.storeAt data_ p value q = data_ q := by
  simp [Tensor.storeAt, h]

/-- A successful `slice` shares the Storage of its source, and an index in range for it
resolves to the position of the shifted index in the source, which is in range there. -/
theorem Tensor.slice_resolve {α : Type} (t r : Tensor α) (startIdx endIdx dim : Int)
    (indices : List Int) (hwf : t.WellFormed) (hdim0 : 0 ≤ dim)
    (hr : t.slice startIdx endIdx dim = .ok r) (hin : r.InRange indices) :
    r.WellFormed ∧ r.data_ = t.data_ ∧
      t.InRange (Tensor.vecSet indices dim (startIdx + Tensor.vecGet indices dim)) ∧
      ∃ p, r.calculateLinearIndex indices = .ok p ∧
        t.calculateLinearIndex
          (Tensor.vecSet indices dim (startIdx + Tensor.vecGet indices dim)) = .ok p := by
  obtain ⟨hreq, hdim, hs, hse, he, -⟩ := Tensor.slice_ok_inv t r startIdx endIdx dim hr
  have hrwf : r.WellFormed := by
    subst hreq
    exact ⟨by simpa [Tensor.vecSet_of_nonneg _ _ _ hdim0] using hwf.1,
      by simpa [Tensor.vecSet_of_nonneg _ _ _ hdim0] using hwf.2⟩
  have hlen : (indices.length : Int) = t.ndim := by
    have := hin.1
    subst hreq
    exact this
  have hd : dim.toNat < indices.length := by omega
  have hshift : t.InRange (Tensor.vecSet indices dim (startIdx + Tensor.vecGet indices dim)) := by
    rw [Tensor.vecSet_of_nonneg _ _ _ hdim0, Tensor.vecGet_of_nonneg _ _ hdim0]
    refine ⟨by simpa using hlen, ?_⟩
    intro i hi
    have hi2 : i < indices.length := by simpa using hi
    have hent := hin.2 i hi2
    subst hreq
    simp only [Tensor.vecSet_of_nonneg _ _ _ hdim0, Tensor.getD_set] at hent
    rw [Tensor.getD_set]
    rw [Tensor.vecGet_of_nonneg _ _ hdim0] at he
    by_cases hid : dim.toNat = i
    · subst hid
      have hsl : dim.toNat < t.shape_.length := by
        have := hwf.1
        omega
      rw [if_pos ⟨rfl, hsl⟩] at hent
      rw [if_pos ⟨rfl, hi2⟩]
      omega
    · rw [if_neg (fun h => hid h.1)] at hent
      rw [if_neg (fun h => hid h.1)]
      exact hent
  refine ⟨hrwf, by subst hreq; rfl, hshift, _,
    Tensor.calculateLinearIndex_of_inRange r indices hrwf hin, ?_⟩
  rw [Tensor.calculateLinearIndex_of_inRange t _ hwf hshift]
  subst hreq
  simp only [Tensor.vecSet_of_nonneg _ _ _ hdim0, Tensor.vecGet_of_nonneg _ _ hdim0,
    Tensor.indexSum_set indices t.stride_ dim.toNat _ hd]
  congr 2
  ring

/-- C16: with the Storage as explicit shared state, for `0 <= dim < ndim` and
`0 <= s <= e <= shape[dim]` the slice `v = t.slice(s, e, dim)` exists whenever the sliced
dimension is not empty, and for every index in range for `v` and every value `x`,
`v.setData(idx, x)` succeeds, changes only the Storage, and the source `t` over the written
Storage reads `x` at the index shifted by `s` on `dim`. -/
theorem Tensor.slice_setData_visible {α : Type} (t : Tensor α) (startIdx endIdx dim : Int)
    (hwf : t.WellFormed) (hdim0 : 0 ≤ dim) (hdim : dim < t.ndim) (hs : 0 ≤ startIdx)
    (hse : startIdx ≤ endIdx) (he : endIdx ≤ Tensor.vecGet t.shape_ dim) :
    (Tensor.vecGet t.shape_ dim ≠ 0 → ∃ v, t.slice startIdx endIdx dim = .ok v) ∧
      ∀ v indices x, t.slice startIdx endIdx dim = .ok v → v.InRange indices →
        v.data_ = t.data_ ∧
        ∃ v2, v.setData indices x = .ok v2 ∧ v2 = v.withStorage v2.data_ ∧
          v2.getData indices = .ok x ∧
          (t.withStorage v2.data_).getData
            (Tensor.vecSet indices dim (startIdx + Tensor.vecGet indices dim)) = .ok x := by
  refine ⟨fun hne => ⟨_, Tensor.slice_eq_ok t startIdx endIdx dim hdim hs hse he hne⟩, ?_⟩
  intro v indices x hv hin
  obtain ⟨-, hdata, -, p, hp, hpt⟩ :=
    Tensor.slice_resolve t v startIdx endIdx dim indices hwf hdim0 hv hin
  refine ⟨hdata, { v with data_ := Tensor.storeAt v.data_ (toPtrdiff p) x }, ?_, rfl, ?_, ?_⟩
  · rw [Tensor.setData, hp]
  · have : Tensor.calculateLinearIndex
        { v with data_ := Tensor.storeAt v.data_ (toPtrdiff p) x } indices = .ok p := hp
    rw [Tensor.getData, this]
    simp only [Tensor.storeAt_same]
  · rw [Tensor.getData, Tensor.calculateLinearIndex_withStorage, hpt]
    simp only [Tensor.withStorage, Tensor.storeAt_same]

/-- Example for C16: writing `70` at `(1, 0)` through rows 1 and 2 of a `[3,2]` tensor is read
at `(2, 0)` through the source. -/
theorem Tensor.slice_setData_visible_witness :
    Tensor.iota32.slice 1 3 0 = .ok Tensor.iota32Rows12 ∧
      Tensor.iota32Rows12.InRange [1, 0] ∧
      ∃ v2, Tensor.iota32Rows12.setData [1, 0] 70 = .ok v2 ∧
        v2 = Tensor.iota32Rows12.withStorage v2.data_ ∧
        v2.getData [1, 0] = .ok 70 ∧
        (Tensor.iota32.withStorage v2.data_).getData [2, 0] = .ok 70 :=
  ⟨by rfl, by decide,
    ((Tensor.slice_setData_visible Tensor.iota32 1 3 0 (by decide) (by decide) (by decide)
      (by decide) (by decide) (by decide)).2 Tensor.iota32Rows12 [1, 0] 70 (by rfl)
      (by decide)).2⟩

/-! ## Loops -/

/-- Invariant rule for a `for (int i = 0; i < n; ++i)` loop whose body may throw: if every
iteration returns and keeps the invariant, the loop returns and the invariant holds at `n`. -/
theorem Tensor.foldlM_range_inv {σ : Type} (body : σ → Nat → Except Error σ)
    (P : Nat → σ → Prop) (n : Nat) (init : σ) (h0 : P 0 init)
    (hstep : ∀ i s, i < n → P i s → ∃ s2, body s i = .ok s2 ∧ P (i + 1) s2) :
    ∃ s2, (List.range n).foldlM body init = .ok s2 ∧ P n s2 := by
  induction n with
  | zero => exact ⟨init, by simp [pure, Except.pure], h0⟩
  | succ m ih =>
      obtain ⟨s1, hs1, hp1⟩ := ih (fun i s hi hp => hstep i s (Nat.lt_succ_of_lt hi) hp)
      obtain ⟨s2, hs2, hp2⟩ := hstep m s1 (Nat.lt_succ_self m) hp1
      refine ⟨s2, ?_, hp2⟩
      rw [List.range_succ, List.foldlM_append, hs1]
      simp only [bind, Except.bind, List.foldlM_cons, List.foldlM_nil, hs2, pure, Except.pure]

/-! ## Copying into a contiguous tensor -/

theorem Tensor.cell_div_mod (i j N : Nat) (hj : j < N) :
    (i * N + j) / N = i ∧ (i * N + j) % N = j := by
  have hN : 0 < N := by omega
  constructor
  · rw [Nat.add_comm, Nat.add_mul_div_right _ _ hN, Nat.div_eq_of_lt hj, Nat.zero_add]
  · rw [Nat.add_comm, Nat.add_mul_mod_self_right, Nat.mod_eq_of_lt hj]

theorem Tensor.cell_lt (i j M N : Nat) (hi : i < M) (hj : j < N) : i * N + j < M * N := by
  have h1 : (i + 1) * N ≤ M * N := Nat.mul_le_mul_right N hi
  have h2 : (i + 1) * N = i * N + N := by ring
  omega

/-- The two nested loops of `contiguous`, over a result whose cell for `(i, j)` is
`i * N + j`: they return, change only the Storage of the result, and leave in the cell of
every `(i, j)` the value read from the source. -/
theorem Tensor.contiguous.loops {α : Type} (t fresh : Tensor α) (M N : Nat) (tv : Nat → Nat → α)
    (hget : ∀ i j, i < M → j < N → t.getData [(i : Int), (j : Int)] = .ok (tv i j))
    (hcalc : ∀ d i j, i < M → j < N →
      ∃ p, (fresh.withStorage d).calculateLinearIndex [(i : Int), (j : Int)] = .ok p ∧
        toPtrdiff p = ((i * N + j : Nat) : Int)) :
    ∃ r, ((List.range M).foldlM (fun (result : Tensor α) (i : Nat) =>
          (List.range N).foldlM (fun (result : Tensor α) (j : Nat) =>
            match t.getData [(i : Int), (j : Int)] with
            | .error e => .error e
            | .ok value => Tensor.setData result [(i : Int), (j : Int)] value) result)
          (fresh.withStorage fresh.data_) : Except Error (Tensor α)) = .ok r ∧
      (∃ d, r = fresh.withStorage d) ∧
      ∀ i j, i < M → j < N → r.data_ ((i * N + j : Nat) : Int) = tv i j := by
  have houter := Tensor.foldlM_range_inv
    (fun (result : Tensor α) (i : Nat) =>
      (List.range N).foldlM (fun (result : Tensor α) (j : Nat) =>
        match t.getData [(i : Int), (j : Int)] with
        | .error e => .error e
        | .ok value => Tensor.setData result [(i : Int), (j : Int)] value) result)
    (fun i r => ∃ d, r = fresh.withStorage d ∧
      ∀ c : Nat, c < i * N → d (c : Int) = tv (c / N) (c % N))
    M (fresh.withStorage fresh.data_)
    ⟨fresh.data_, rfl, fun c hc => by simp at hc⟩
    (by
      intro i r hi hP
      have hinner := Tensor.foldlM_range_inv
        (fun (result : Tensor α) (j : Nat) =>
          match t.getData [(i : Int), (j : Int)] with
          | .error e => .error e
          | .ok value => Tensor.setData result [(i : Int), (j : Int)] value)
        (fun j r => ∃ d, r = fresh.withStorage d ∧
          ∀ c : Nat, c < i * N + j → d (c : Int) = tv (c / N) (c % N))
        N r hP
        (by
          intro j r2 hj hQ
          obtain ⟨d, hr2, hd⟩ := hQ
          obtain ⟨p, hp, hpc⟩ := hcalc d i j hi hj
          refine ⟨fresh.withStorage (Tensor.storeAt d ((i * N + j : Nat) : Int) (tv i j)), ?_,
            _, rfl, ?_⟩
          · simp only [hget i j hi hj]
            rw [hr2, Tensor.setData, hp]
            simp only [hpc]
            rfl
          · intro c hc
            by_cases hlt : c < i * N + j
            · have hne : (c : Int) ≠ ((i * N + j : Nat) : Int) := by omega
              rw [Tensor.storeAt_other _ _ _ _ hne]
              exact hd c hlt
            · have hceq : c = i * N + j := by omega
              subst hceq
              rw [Tensor.storeAt_same, (Tensor.cell_div_mod i j N hj).1,
                (Tensor.cell_div_mod i j N hj).2])
      obtain ⟨r2, hr2, d, hd1, hd2⟩ := hinner
      refine ⟨r2, hr2, d, hd1, fun c hc => hd2 c ?_⟩
      have : (i + 1) * N = i * N + N := by ring
      omega)
  obtain ⟨r, hr, d, hd1, hd2⟩ := houter
  refine ⟨r, hr, ⟨d, hd1⟩, fun i j hi hj => ?_⟩
  rw [hd1]
  have := hd2 (i * N + j) (Tensor.cell_lt i j M N hi hj)
  rw [(Tensor.cell_div_mod i j N hj).1, (Tensor.cell_div_mod i j N hj).2] at this
  exact this

theorem Tensor.initStride_pair (m n : Int) : Tensor.initStride [m, n] = [n, 1] := by
  simp [Tensor.initStride, Tensor.strideLoop]

theorem Tensor.toPtrdiff_toSizeT (x : Int) (h0 : 0 ≤ x) (h1 : x < 9223372036854775808) :
    toPtrdiff (toSizeT x) = x := by
  unfold toPtrdiff toSizeT SIZE_MOD
  rw [Int.emod_eq_of_lt h0 (by omega), if_pos h1]

/-- A descriptor with the strides of the constructor is contiguous. -/
theorem Tensor.is_contiguous_of_initStride {α : Type} (r : Tensor α)
    (hnd : r.ndim = r.shape_.length) (hst : r.stride_ = Tensor.initStride r.shape_) :
    r.is_contiguous = true := by
  rw [Tensor.is_contiguous_iff, hst, hnd]
  refine ⟨fun hpos => ?_, fun i hi => ?_⟩
  · simp only [Int.toNat_ofNat]
    exact Tensor.initStride_last r.shape_ (by omega)
  · exact Tensor.initStride_step r.shape_ i (by omega)

theorem Tensor.getData_of_inRange {α : Type} (t : Tensor α) (indices : List Int)
    (hwf : t.WellFormed) (h : t.InRange indices) :
    t.getData indices
      = .ok (t.data_ (toPtrdiff (toSizeT (t.offset_ + Tensor.indexSum indices t.stride_)))) := by
  rw [Tensor.getData, Tensor.calculateLinearIndex_of_inRange t indices hwf h]

/-- In a tensor with the descriptor that the constructor builds for the shape `[m, n]`, the
index `(i, j)` resolves to the cell `i * n + j`. -/
theorem Tensor.calculateLinearIndex_pair {α : Type} (r : Tensor α) (m n : Int) (i j : Nat)
    (hshape : r.shape_ = [m, n]) (hnd : r.ndim = 2) (hst : r.stride_ = [n, 1])
    (hoff : r.offset_ = 0) (hm : m ≤ 2147483647) (hn : n ≤ 2147483647)
    (hi : (i : Int) < m) (hj : (j : Int) < n) :
    ∃ p, r.calculateLinearIndex [(i : Int), (j : Int)] = .ok p ∧
      toPtrdiff p = ((i * n.toNat + j : Nat) : Int) := by
  have hwf : r.WellFormed := ⟨by rw [hshape, hnd]; rfl, by rw [hshape, hst]; rfl⟩
  have hin : r.InRange [(i : Int), (j : Int)] := by
    refine ⟨by rw [hnd]; rfl, ?_⟩
    intro k hk
    rw [hshape]
    have hk2 : k = 0 ∨ k = 1 := by
      simp only [List.length_cons, List.length_nil] at hk
      omega
    rcases hk2 with rfl | rfl
    · simpa using hi
    · simpa using hj
  refine ⟨_, Tensor.calculateLinearIndex_of_inRange r _ hwf hin, ?_⟩
  have hsum : r.offset_ + Tensor.indexSum [(i : Int), (j : Int)] r.stride_
      = (i : Int) * n + (j : Int) := by
    rw [hoff, hst]
    simp [Tensor.indexSum]
  have hcast : ((i * n.toNat + j : Nat) : Int) = (i : Int) * n + (j : Int) := by
    push_cast
    rw [Int.toNat_of_nonneg (by omega)]
  have hbound : (i : Int) * n + (j : Int) < 9223372036854775808 := by
    have h1 : (i : Int) * n ≤ 2147483647 * 2147483647 := by
      have hi0 : (0 : Int) ≤ (i : Int) := Int.ofNat_nonneg i
      have hn0 : (0 : Int) ≤ n := by omega
      calc (i : Int) * n ≤ 2147483647 * n := mul_le_mul_of_nonneg_right (by omega) hn0
        _ ≤ 2147483647 * 2147483647 := mul_le_mul_of_nonneg_left hn (by norm_num)
    omega
  have hnonneg : 0 ≤ (i : Int) * n + (j : Int) := by
    have : (0 : Int) ≤ (i : Int) * n := mul_nonneg (Int.ofNat_nonneg i) (by omega)
    omega
  rw [hsum, hcast, Tensor.toPtrdiff_toSizeT _ hnonneg hbound]

/-- C17: for a rank-2 tensor with any strides and offset (extents non-negative `int` values),
`contiguous()` returns a tensor with the same shape that is contiguous (`is_contiguous` true,
offset `0`) and reads the same value as the source at every in-range index `(i, j)`; for a
tensor whose rank is not `2` it throws `invalid_argument("only support 2d tensor now")`
(UnsupportedRank). -/
theorem Tensor.contiguous_spec {α : Type} [Inhabited α] (t : Tensor α) (hwf : t.WellFormed)
    (hint : t.IntExtents) :
    (t.shape_.length ≠ 2 →
        t.contiguous = .error (.invalid_argument "only support 2d tensor now")) ∧
      (t.shape_.length = 2 →
        ∃ r, t.contiguous = .ok r ∧ r.shape_ = t.shape_ ∧ r.is_contiguous = true ∧
          r.offset_ = 0 ∧
          ∀ i j : Int, t.InRange [i, j] →
            (∃ value, t.getData [i, j] = .ok value) ∧ r.getData [i, j] = t.getData [i, j]) := by
  refine ⟨fun hne => by rw [Tensor.contiguous, if_pos hne], fun hlen => ?_⟩
  obtain ⟨m, n, hshape⟩ := List.length_eq_two.mp hlen
  have hm := hint m (by rw [hshape]; simp)
  have hn := hint n (by rw [hshape]; simp)
  have hcount : ¬ Tensor.countElements t.shape_ < 0 := by
    rw [Tensor.countElements_eq_prod, hshape]
    simp only [List.prod_cons, List.prod_nil, mul_one]
    exact not_lt.mpr (mul_nonneg hm.1 hn.1)
  have hget : ∀ i j : Nat, i < m.toNat → j < n.toNat →
      t.getData [(i : Int), (j : Int)]
        = .ok (t.data_ (toPtrdiff (toSizeT
            (t.offset_ + Tensor.indexSum [(i : Int), (j : Int)] t.stride_)))) := by
    intro i j hi hj
    apply Tensor.getData_of_inRange t _ hwf
    refine ⟨by rw [← hwf.1, hshape]; rfl, ?_⟩
    intro k hk
    rw [hshape]
    have hk2 : k = 0 ∨ k = 1 := by
      simp only [List.length_cons, List.length_nil] at hk
      omega
    rcases hk2 with rfl | rfl
    · simp only [List.getD_cons_zero]
      omega
    · simp only [List.getD_cons_succ, List.getD_cons_zero]
      omega
  have hcalc : ∀ (d : Int → α) (i j : Nat), i < m.toNat → j < n.toNat →
      ∃ p, (Tensor.withStorage
          ({ data_ := fun _ => default
             num_elements := Tensor.countElements t.shape_
             scale := 0
             offset_ := 0
             stride_ := Tensor.initStride t.shape_
             ndim := t.shape_.length
             shape_ := t.shape_ } : Tensor α) d).calculateLinearIndex [(i : Int), (j : Int)]
            = .ok p ∧
        toPtrdiff p = ((i * n.toNat + j : Nat) : Int) := by
    intro d i j hi hj
    exact Tensor.calculateLinearIndex_pair _ m n i j hshape (by
        show ((t.shape_.length : Nat) : Int) = 2
        rw [hlen]; rfl)
      (by
        show Tensor.initStride t.shape_ = [n, 1]
        rw [hshape, Tensor.initStride_pair]) rfl hm.2 hn.2 (by omega) (by omega)
  obtain ⟨r, hr, ⟨d, hd⟩, hcells⟩ := Tensor.contiguous.loops t _ m.toNat n.toNat _ hget hcalc
  have hrun : t.contiguous = .ok r := by
    rw [Tensor.contiguous, if_neg (by omega)]
    simp only [Tensor.fromShape, if_neg hcount]
    simp only [hshape, List.getD_cons_zero, List.getD_cons_succ]
    simp only [hshape] at hr
    exact hr
  refine ⟨r, hrun, by rw [hd]; rfl, ?_, by rw [hd]; rfl, ?_⟩
  · apply Tensor.is_contiguous_of_initStride
    · rw [hd]; rfl
    · rw [hd]; rfl
  · intro i j hin
    have hi := hin.2 0 (by simp)
    have hj := hin.2 1 (by simp)
    rw [hshape] at hi hj
    simp only [List.getD_cons_zero, List.getD_cons_succ] at hi hj
    have hi2 : i = ((i.toNat : Nat) : Int) := (Int.toNat_of_nonneg hi.1).symm
    have hj2 : j = ((j.toNat : Nat) : Int) := (Int.toNat_of_nonneg hj.1).symm
    have hilt : i.toNat < m.toNat := by omega
    have hjlt : j.toNat < n.toNat := by omega
    rw [hi2, hj2, hget _ _ hilt hjlt]
    refine ⟨⟨_, rfl⟩, ?_⟩
    obtain ⟨p, hp, hpc⟩ := hcalc d _ _ hilt hjlt
    rw [← hd] at hp
    rw [Tensor.getData, hp]
    simp only [hpc, hcells _ _ hilt hjlt]

/-- Example for C17: the transpose of a `[3,2]` tensor, with shape `[2,3]` and strides
`[1,2]`. -/
theorem Tensor.contiguous_spec_witness :
    (Tensor.iota32.transpose 0 1).WellFormed ∧ (Tensor.iota32.transpose 0 1).IntExtents ∧
      (Tensor.iota32.transpose 0 1).is_contiguous = false ∧
      ∃ r, (Tensor.iota32.transpose 0 1).contiguous = .ok r ∧
        r.shape_ = (Tensor.iota32.transpose 0 1).shape_ ∧ r.is_contiguous = true ∧
        r.offset_ = 0 ∧
        ∀ i j : Int, (Tensor.iota32.transpose 0 1).InRange [i, j] →
          (∃ value, (Tensor.iota32.transpose 0 1).getData [i, j] = .ok value) ∧
          r.getData [i, j] = (Tensor.iota32.transpose 0 1).getData [i, j] :=
  ⟨by decide, by decide, by decide,
    (Tensor.contiguous_spec (Tensor.iota32.transpose 0 1) (by decide) (by decide)).2
      (by decide)⟩

/-! ## Full reduction -/

/-- A loop `for (i < n) sum += g(i)` whose body cannot throw returns `sum + Σ g(i)`. -/
theorem Tensor.foldlM_add (body : Int → Nat → Except Error Int) (g : Nat → Int) (n : Nat)
    (init : Int) (h : ∀ i s, i < n → body s i = .ok (s + g i)) :
    (List.range n).foldlM body init = .ok (init + ∑ i in Finset.range n, g i) := by
  obtain ⟨s2, hs2, hval⟩ := Tensor.foldlM_range_inv body
    (fun m s => s = init + ∑ i in Finset.range m, g i) n init (by simp)
    (by
      intro i s hi hs
      refine ⟨_, h i s hi, ?_⟩
      show s + g i = init + ∑ k in Finset.range (i + 1), g k
      rw [hs, Finset.sum_range_succ]
      ring)
  rw [hs2, hval]

theorem Tensor.sum.step_of_inRange (t : Tensor Int) (sum : Int) (indices : List Int)
    (hwf : t.WellFormed) (h : t.InRange indices) :
    Tensor.sum.step t sum indices = .ok (sum + t.element indices) := by
  rw [Tensor.sum.step, Tensor.getData_of_inRange t indices hwf h]
  rfl

theorem Tensor.inRange_three {α : Type} (t : Tensor α) (a b c : Int) (i j k : Nat)
    (hshape : t.shape_ = [a, b, c]) (hwf : t.WellFormed) (hi : i < a.toNat) (hj : j < b.toNat)
    (hk : k < c.toNat) : t.InRange [(i : Int), (j : Int), (k : Int)] := by
  refine ⟨by rw [← hwf.1, hshape]; rfl, ?_⟩
  intro n hn
  rw [hshape]
  have hn2 : n = 0 ∨ n = 1 ∨ n = 2 := by
    simp only [List.length_cons, List.length_nil] at hn
    omega
  rcases hn2 with rfl | rfl | rfl
  · simp only [List.getD_cons_zero]
    omega
  · simp only [List.getD_cons_succ, List.getD_cons_zero]
    omega
  · simp only [List.getD_cons_succ, List.getD_cons_zero]
    omega

theorem Tensor.inRange_four {α : Type} (t : Tensor α) (a b c d : Int) (i j k l : Nat)
    (hshape : t.shape_ = [a, b, c, d]) (hwf : t.WellFormed) (hi : i < a.toNat)
    (hj : j < b.toNat) (hk : k < c.toNat) (hl : l < d.toNat) :
    t.InRange [(i : Int), (j : Int), (k : Int), (l : Int)] := by
  refine ⟨by rw [← hwf.1, hshape]; rfl, ?_⟩
  intro n hn
  rw [hshape]
  have hn2 : n = 0 ∨ n = 1 ∨ n = 2 ∨ n = 3 := by
    simp only [List.length_cons, List.length_nil] at hn
    omega
  rcases hn2 with rfl | rfl | rfl | rfl
  · simp only [List.getD_cons_zero]
    omega
  · simp only [List.getD_cons_succ, List.getD_cons_zero]
    omega
  · simp only [List.getD_cons_succ, List.getD_cons_zero]
    omega
  · simp only [List.getD_cons_succ, List.getD_cons_zero]
    omega

/-- On a rank-3 tensor `sum` returns the sum of the logical elements over the index box. -/
theorem Tensor.sum_three (t : Tensor Int) (a b c : Int) (keepdim : Bool)
    (hshape : t.shape_ = [a, b, c]) (hwf : t.WellFormed) :
    t.sum keepdim = .ok (∑ i in Finset.range a.toNat, ∑ j in Finset.range b.toNat,
      ∑ k in Finset.range c.toNat, t.element [(i : Int), (j : Int), (k : Int)]) := by
  have hlen : t.shape_.length = 3 := by rw [hshape]; rfl
  rw [Tensor.sum, if_neg (by omega), if_neg (by omega)]
  simp only [hshape, List.getD_cons_zero, List.getD_cons_succ]
  rw [Tensor.foldlM_add _ (fun i => ∑ j in Finset.range b.toNat,
      ∑ k in Finset.range c.toNat, t.element [(i : Int), (j : Int), (k : Int)])]
  · rw [zero_add]
  · intro i s hi
    rw [Tensor.foldlM_add _ (fun j =>
        ∑ k in Finset.range c.toNat, t.element [(i : Int), (j : Int), (k : Int)])]
    intro j s2 hj
    rw [Tensor.foldlM_add _ (fun k => t.element [(i : Int), (j : Int), (k : Int)])]
    intro k s3 hk
    exact Tensor.sum.step_of_inRange t s3 _ hwf (Tensor.inRange_three t a b c i j k hshape hwf hi hj hk)

/-- On a rank-4 tensor `sum` returns the sum of the logical elements over the index box. -/
theorem Tensor.sum_four (t : Tensor Int) (a b c d : Int) (keepdim : Bool)
    (hshape : t.shape_ = [a, b, c, d]) (hwf : t.WellFormed) :
    t.sum keepdim = .ok (∑ i in Finset.range a.toNat, ∑ j in Finset.range b.toNat,
      ∑ k in Finset.range c.toNat, ∑ l in Finset.range d.toNat,
        t.element [(i : Int), (j : Int), (k : Int), (l : Int)]) := by
  have hlen : t.shape_.length = 4 := by rw [hshape]; rfl
  rw [Tensor.sum, if_neg (by omega), if_pos hlen]
  simp only [hshape, List.getD_cons_zero, List.getD_cons_succ]
  rw [Tensor.foldlM_add _ (fun i => ∑ j in Finset.range b.toNat,
      ∑ k in Finset.range c.toNat, ∑ l in Finset.range d.toNat,
        t.element [(i : Int), (j : Int), (k : Int), (l : Int)])]
  · rw [zero_add]
  · intro i s hi
    rw [Tensor.foldlM_add _ (fun j => ∑ k in Finset.range c.toNat,
        ∑ l in Finset.range d.toNat, t.element [(i : Int), (j : Int), (k : Int), (l : Int)])]
    intro j s2 hj
    rw [Tensor.foldlM_add _ (fun k => ∑ l in Finset.range d.toNat,
        t.element [(i : Int), (j : Int), (k : Int), (l : Int)])]
    intro k s3 hk
    rw [Tensor.foldlM_add _ (fun l => t.element [(i : Int), (j : Int), (k : Int), (l : Int)])]
    intro l s4 hl
    exact Tensor.sum.step_of_inRange t s4 _ hwf
      (Tensor.inRange_four t a b c d i j k l hshape hwf hi hj hk hl)

theorem Tensor.sum3_swap01 (A B C : Nat) (G : Nat → Nat → Nat → Int) :
    (∑ i in Finset.range A, ∑ j in Finset.range B, ∑ k in Finset.range C, G i j k)
      = ∑ j in Finset.range B, ∑ i in Finset.range A, ∑ k in Finset.range C, G i j k :=
  Finset.sum_comm

theorem Tensor.sum3_swap12 (A B C : Nat) (G : Nat → Nat → Nat → Int) :
    (∑ i in Finset.range A, ∑ j in Finset.range B, ∑ k in Finset.range C, G i j k)
      = ∑ i in Finset.range A, ∑ k in Finset.range C, ∑ j in Finset.range B, G i j k :=
  Finset.sum_congr rfl (fun _ _ => Finset.sum_comm)

theorem Tensor.sum3_swap02 (A B C : Nat) (G : Nat → Nat → Nat → Int) :
    (∑ i in Finset.range A, ∑ j in Finset.range B, ∑ k in Finset.range C, G i j k)
      = ∑ k in Finset.range C, ∑ j in Finset.range B, ∑ i in Finset.range A, G i j k := by
  rw [Tensor.sum3_swap01, Tensor.sum3_swap12 B A C (fun j i k => G i j k)]
  exact Finset.sum_comm

theorem Tensor.sum4_swap01 (A B C D : Nat) (G : Nat → Nat → Nat → Nat → Int) :
    (∑ i in Finset.range A, ∑ j in Finset.range B, ∑ k in Finset.range C,
        ∑ l in Finset.range D, G i j k l)
      = ∑ j in Finset.range B, ∑ i in Finset.range A, ∑ k in Finset.range C,
          ∑ l in Finset.range D, G i j k l :=
  Finset.sum_comm

theorem Tensor.sum4_swap12 (A B C D : Nat) (G : Nat → Nat → Nat → Nat → Int) :
    (∑ i in Finset.range A, ∑ j in Finset.range B, ∑ k in Finset.range C,
        ∑ l in Finset.range D, G i j k l)
      = ∑ i in Finset.range A, ∑ k in Finset.range C, ∑ j in Finset.range B,
          ∑ l in Finset.range D, G i j k l :=
  Finset.sum_congr rfl (fun _ _ => Finset.sum_comm)

theorem Tensor.sum4_swap23 (A B C D : Nat) (G : Nat → Nat → Nat → Nat → Int) :
    (∑ i in Finset.range A, ∑ j in Finset.range B, ∑ k in Finset.range C,
        ∑ l in Finset.range D, G i j k l)
      = ∑ i in Finset.range A, ∑ j in Finset.range B, ∑ l in Finset.range D,
          ∑ k in Finset.range C, G i j k l :=
  Finset.sum_congr rfl (fun _ _ => Finset.sum_congr rfl (fun _ _ => Finset.sum_comm))

theorem Tensor.sum4_swap02 (A B C D : Nat) (G : Nat → Nat → Nat → Nat → Int) :
    (∑ i in Finset.range A, ∑ j in Finset.range B, ∑ k in Finset.range C,
        ∑ l in Finset.range D, G i j k l)
      = ∑ k in Finset.range C, ∑ j in Finset.range B, ∑ i in Finset.range A,
          ∑ l in Finset.range D, G i j k l :=
  Tensor.sum3_swap02 A B C (fun i j k => ∑ l in Finset.range D, G i j k l)

theorem Tensor.sum4_swap13 (A B C D : Nat) (G : Nat → Nat → Nat → Nat → Int) :
    (∑ i in Finset.range A, ∑ j in Finset.range B, ∑ k in Finset.range C,
        ∑ l in Finset.range D, G i j k l)
      = ∑ i in Finset.range A, ∑ l in Finset.range D, ∑ k in Finset.range C,
          ∑ j in Finset.range B, G i j k l :=
  Finset.sum_congr rfl (fun i _ => Tensor.sum3_swap02 B C D (fun j k l => G i j k l))

theorem Tensor.sum4_swap03 (A B C D : Nat) (G : Nat → Nat → Nat → Nat → Int) :
    (∑ i in Finset.range A, ∑ j in Finset.range B, ∑ k in Finset.range C,
        ∑ l in Finset.range D, G i j k l)
      = ∑ l in Finset.range D, ∑ j in Finset.range B, ∑ k in Finset.range C,
          ∑ i in Finset.range A, G i j k l := by
  rw [Tensor.sum4_swap01, Tensor.sum4_swap13 B A C D (fun j i k l => G i j k l)]
  exact Finset.sum_comm

theorem Tensor.wellFormed_transpose {α : Type} (t : Tensor α) (dim0 dim1 : Int)
    (hwf : t.WellFormed) : (t.transpose dim0 dim1).WellFormed := by
  refine ⟨?_, ?_⟩
  · show (((Tensor.swapAt t.shape_ dim0 dim1).length : Nat) : Int) = t.ndim
    rw [Tensor.length_swapAt]
    exact hwf.1
  · show (Tensor.swapAt t.stride_ dim0 dim1).length = (Tensor.swapAt t.shape_ dim0 dim1).length
    rw [Tensor.length_swapAt, Tensor.length_swapAt]
    exact hwf.2

theorem Tensor.sum_three_id (t t2 : Tensor Int) (a b c x y z : Int)
    (hshape : t.shape_ = [a, b, c]) (hstride : t.stride_ = [x, y, z])
    (hshape2 : t2.shape_ = [a, b, c]) (hstride2 : t2.stride_ = [x, y, z])
    (hd : t2.data_ = t.data_) (ho : t2.offset_ = t.offset_) (hwf : t.WellFormed)
    (hwf2 : t2.WellFormed) : t2.sum false = t.sum false := by
  rw [Tensor.sum_three t2 a b c false hshape2 hwf2,
    Tensor.sum_three t a b c false hshape hwf]
  congr 1
  refine Finset.sum_congr rfl (fun i _ => Finset.sum_congr rfl (fun j _ => Finset.sum_congr rfl (fun k _ => ?_)))
  simp only [Tensor.element, hd, ho, hstride, hstride2, Tensor.indexSum,
    List.zipWith_cons_cons, List.zipWith_nil_right, List.sum_cons, List.sum_nil]

theorem Tensor.sum_three_swap01 (t t2 : Tensor Int) (a b c x y z : Int)
    (hshape : t.shape_ = [a, b, c]) (hstride : t.stride_ = [x, y, z])
    (hshape2 : t2.shape_ = [b, a, c]) (hstride2 : t2.stride_ = [y, x, z])
    (hd : t2.data_ = t.data_) (ho : t2.offset_ = t.offset_) (hwf : t.WellFormed)
    (hwf2 : t2.WellFormed) : t2.sum false = t.sum false := by
  rw [Tensor.sum_three t2 b a c false hshape2 hwf2,
    Tensor.sum_three t a b c false hshape hwf]
  congr 1
  refine (Tensor.sum3_swap01 _ _ _ _).trans ?_
  refine Finset.sum_congr rfl (fun i _ => Finset.sum_congr rfl (fun j _ => Finset.sum_congr rfl (fun k _ => ?_)))
  simp only [Tensor.element, hd, ho, hstride, hstride2, Tensor.indexSum,
    List.zipWith_cons_cons, List.zipWith_nil_right, List.sum_cons, List.sum_nil]
  congr 3
  ring1

theorem Tensor.sum_three_swap02 (t t2 : Tensor Int) (a b c x y z : Int)
    (hshape : t.shape_ = [a, b, c]) (hstride : t.stride_ = [x, y, z])
    (hshape2 : t2.shape_ = [c, b, a]) (hstride2 : t2.stride_ = [z, y, x])
    (hd : t2.data_ = t.data_) (ho : t2.offset_ = t.offset_) (hwf : t.WellFormed)
    (hwf2 : t2.WellFormed) : t2.sum false = t.sum false := by
  rw [Tensor.sum_three t2 c b a false hshape2 hwf2,
    Tensor.sum_three t a b c false hshape hwf]
  congr 1
  refine (Tensor.sum3_swap02 _ _ _ _).trans ?_
  refine Finset.sum_congr rfl (fun i _ => Finset.sum_congr rfl (fun j _ => Finset.sum_congr rfl (fun k _ => ?_)))
  simp only [Tensor.element, hd, ho, hstride, hstride2, Tensor.indexSum,
    List.zipWith_cons_cons, List.zipWith_nil_right, List.sum_cons, List.sum_nil]
  congr 3
  ring1

theorem Tensor.sum_three_swap12 (t t2 : Tensor Int) (a b c x y z : Int)
    (hshape : t.shape_ = [a, b, c]) (hstride : t.stride_ = [x, y, z])
    (hshape2 : t2.shape_ = [a, c, b]) (hstride2 : t2.stride_ = [x, z, y])
    (hd : t2.data_ = t.data_) (ho : t2.offset_ = t.offset_) (hwf : t.WellFormed)
    (hwf2 : t2.WellFormed) : t2.sum false = t.sum false := by
  rw [Tensor.sum_three t2 a c b false hshape2 hwf2,
    Tensor.sum_three t a b c false hshape hwf]
  congr 1
  refine (Tensor.sum3_swap12 _ _ _ _).trans ?_
  refine Finset.sum_congr rfl (fun i _ => Finset.sum_congr rfl (fun j _ => Finset.sum_congr rfl (fun k _ => ?_)))
  simp only [Tensor.element, hd, ho, hstride, hstride2, Tensor.indexSum,
    List.zipWith_cons_cons, List.zipWith_nil_right, List.sum_cons, List.sum_nil]
  congr 3
  ring1

theorem Tensor.sum_four_id (t t2 : Tensor Int) (a b c d x y z w : Int)
    (hshape : t.shape_ = [a, b, c, d]) (hstride : t.stride_ = [x, y, z, w])
    (hshape2 : t2.shape_ = [a, b, c, d]) (hstride2 : t2.stride_ = [x, y, z, w])
    (hd : t2.data_ = t.data_) (ho : t2.offset_ = t.offset_) (hwf : t.WellFormed)
    (hwf2 : t2.WellFormed) : t2.sum false = t.sum false := by
  rw [Tensor.sum_four t2 a b c d false hshape2 hwf2,
    Tensor.sum_four t a b c d false hshape hwf]
  congr 1
  refine Finset.sum_congr rfl (fun i _ => Finset.sum_congr rfl (fun j _ => Finset.sum_congr rfl (fun k _ => Finset.sum_congr rfl (fun l _ => ?_))))
  simp only [Tensor.element, hd, ho, hstride, hstride2, Tensor.indexSum,
    List.zipWith_cons_cons, List.zipWith_nil_right, List.sum_cons, List.sum_nil]

theorem Tensor.sum_four_swap01 (t t2 : Tensor Int) (a b c d x y z w : Int)
    (hshape : t.shape_ = [a, b, c, d]) (hstride : t.stride_ = [x, y, z, w])
    (hshape2 : t2.shape_ = [b, a, c, d]) (hstride2 : t2.stride_ = [y, x, z, w])
    (hd : t2.data_ = t.data_) (ho : t2.offset_ = t.offset_) (hwf : t.WellFormed)
    (hwf2 : t2.WellFormed) : t2.sum false = t.sum false := by
  rw [Tensor.sum_four t2 b a c d false hshape2 hwf2,
    Tensor.sum_four t a b c d false hshape hwf]
  congr 1
  refine (Tensor.sum4_swap01 _ _ _ _ _).trans ?_
  refine Finset.sum_congr rfl (fun i _ => Finset.sum_congr rfl (fun j _ => Finset.sum_congr rfl (fun k _ => Finset.sum_congr rfl (fun l _ => ?_))))
  simp only [Tensor.element, hd, ho, hstride, hstride2, Tensor.indexSum,
    List.zipWith_cons_cons, List.zipWith_nil_right, List.sum_cons, List.sum_nil]
  congr 3
  ring1

theorem Tensor.sum_four_swap02 (t t2 : Tensor Int) (a b c d x y z w : Int)
    (hshape : t.shape_ = [a, b, c, d]) (hstride : t.stride_ = [x, y, z, w])
    (hshape2 : t2.shape_ = [c, b, a, d]) (hstride2 : t2.stride_ = [z, y, x, w])
    (hd : t2.data_ = t.data_) (ho : t2.offset_ = t.offset_) (hwf : t.WellFormed)
    (hwf2 : t2.WellFormed) : t2.sum false = t.sum false := by
  rw [Tensor.sum_four t2 c b a d false hshape2 hwf2,
    Tensor.sum_four t a b c d false hshape hwf]
  congr 1
  refine (Tensor.sum4_swap02 _ _ _ _ _).trans ?_
  refine Finset.sum_congr rfl (fun i _ => Finset.sum_congr rfl (fun j _ => Finset.sum_congr rfl (fun k _ => Finset.sum_congr rfl (fun l _ => ?_))))
  simp only [Tensor.element, hd, ho, hstride, hstride2, Tensor.indexSum,
    List.zipWith_cons_cons, List.zipWith_nil_right, List.sum_cons, List.sum_nil]
  congr 3
  ring1

theorem Tensor.sum_four_swap03 (t t2 : Tensor Int) (a b c d x y z w : Int)
    (hshape : t.shape_ = [a, b, c, d]) (hstride : t.stride_ = [x, y, z, w])
    (hshape2 : t2.shape_ = [d, b, c, a]) (hstride2 : t2.stride_ = [w, y, z, x])
    (hd : t2.data_ = t.data_) (ho : t2.offset_ = t.offset_) (hwf : t.WellFormed)
    (hwf2 : t2.WellFormed) : t2.sum false = t.sum false := by
  rw [Tensor.sum_four t2 d b c a false hshape2 hwf2,
    Tensor.sum_four t a b c d false hshape hwf]
  congr 1
  refine (Tensor.sum4_swap03 _ _ _ _ _).trans ?_
  refine Finset.sum_congr rfl (fun i _ => Finset.sum_congr rfl (fun j _ => Finset.sum_congr rfl (fun k _ => Finset.sum_congr rfl (fun l _ => ?_))))
  simp only [Tensor.element, hd, ho, hstride, hstride2, Tensor.indexSum,
    List.zipWith_cons_cons, List.zipWith_nil_right, List.sum_cons, List.sum_nil]
  congr 3
  ring1

theorem Tensor.sum_four_swap12 (t t2 : Tensor Int) (a b c d x y z w : Int)
    (hshape : t.shape_ = [a, b, c, d]) (hstride : t.stride_ = [x, y, z, w])
    (hshape2 : t2.shape_ = [a, c, b, d]) (hstride2 : t2.stride_ = [x, z, y, w])
    (hd : t2.data_ = t.data_) (ho : t2.offset_ = t.offset_) (hwf : t.WellFormed)
    (hwf2 : t2.WellFormed) : t2.sum false = t.sum false := by
  rw [Tensor.sum_four t2 a c b d false hshape2 hwf2,
    Tensor.sum_four t a b c d false hshape hwf]
  congr 1
  refine (Tensor.sum4_swap12 _ _ _ _ _).trans ?_
  refine Finset.sum_congr rfl (fun i _ => Finset.sum_congr rfl (fun j _ => Finset.sum_congr rfl (fun k _ => Finset.sum_congr rfl (fun l _ => ?_))))
  simp only [Tensor.element, hd, ho, hstride, hstride2, Tensor.indexSum,
    List.zipWith_cons_cons, List.zipWith_nil_right, List.sum_cons, List.sum_nil]
  congr 3
  ring1

theorem Tensor.sum_four_swap13 (t t2 : Tensor Int) (a b c d x y z w : Int)
    (hshape : t.shape_ = [a, b, c, d]) (hstride : t.stride_ = [x, y, z, w])
    (hshape2 : t2.shape_ = [a, d, c, b]) (hstride2 : t2.stride_ = [x, w, z, y])
    (hd : t2.data_ = t.data_) (ho : t2.offset_ = t.offset_) (hwf : t.WellFormed)
    (hwf2 : t2.WellFormed) : t2.sum false = t.sum false := by
  rw [Tensor.sum_four t2 a d c b false hshape2 hwf2,
    Tensor.sum_four t a b c d false hshape hwf]
  congr 1
  refine (Tensor.sum4_swap13 _ _ _ _ _).trans ?_
  refine Finset.sum_congr rfl (fun i _ => Finset.sum_congr rfl (fun j _ => Finset.sum_congr rfl (fun k _ => Finset.sum_congr rfl (fun l _ => ?_))))
  simp only [Tensor.element, hd, ho, hstride, hstride2, Tensor.indexSum,
    List.zipWith_cons_cons, List.zipWith_nil_right, List.sum_cons, List.sum_nil]
  congr 3
  ring1

theorem Tensor.sum_four_swap23 (t t2 : Tensor Int) (a b c d x y z w : Int)
    (hshape : t.shape_ = [a, b, c, d]) (hstride : t.stride_ = [x, y, z, w])
    (hshape2 : t2.shape_ = [a, b, d, c]) (hstride2 : t2.stride_ = [x, y, w, z])
    (hd : t2.data_ = t.data_) (ho : t2.offset_ = t.offset_) (hwf : t.WellFormed)
    (hwf2 : t2.WellFormed) : t2.sum false = t.sum false := by
  rw [Tensor.sum_four t2 a b d c false hshape2 hwf2,
    Tensor.sum_four t a b c d false hshape hwf]
  congr 1
  refine (Tensor.sum4_swap23 _ _ _ _ _).trans ?_
  refine Finset.sum_congr rfl (fun i _ => Finset.sum_congr rfl (fun j _ => Finset.sum_congr rfl (fun k _ => Finset.sum_congr rfl (fun l _ => ?_))))
  simp only [Tensor.element, hd, ho, hstride, hstride2, Tensor.indexSum,
    List.zipWith_cons_cons, List.zipWith_nil_right, List.sum_cons, List.sum_nil]
  congr 3
  ring1

/-- On a rank-3 tensor the sum of a transposed view is the sum of the tensor. -/
theorem Tensor.transposed_sum_three (t : Tensor Int) (a b c x y z d0 d1 : Int)
    (hshape : t.shape_ = [a, b, c]) (hstride : t.stride_ = [x, y, z])
    (hwf : t.WellFormed) (h0 : 0 ≤ d0) (h0n : d0 < 3) (h1 : 0 ≤ d1) (h1n : d1 < 3) :
    (t.transpose d0 d1).sum false = t.sum false := by
  have hwf2 := Tensor.wellFormed_transpose t d0 d1 hwf
  have hd0 : d0 = 0 ∨ d0 = 1 ∨ d0 = 2 := by omega
  have hd1 : d1 = 0 ∨ d1 = 1 ∨ d1 = 2 := by omega
  rcases hd0 with rfl | rfl | rfl <;> rcases hd1 with rfl | rfl | rfl
  · exact Tensor.sum_three_id t (t.transpose 0 0) a b c x y z hshape hstride
      (by show Tensor.swapAt t.shape_ 0 0 = _; rw [hshape]; rfl)
      (by show Tensor.swapAt t.stride_ 0 0 = _; rw [hstride]; rfl) rfl rfl hwf hwf2
  · exact Tensor.sum_three_swap01 t (t.transpose 0 1) a b c x y z hshape hstride
      (by show Tensor.swapAt t.shape_ 0 1 = _; rw [hshape]; rfl)
      (by show Tensor.swapAt t.stride_ 0 1 = _; rw [hstride]; rfl) rfl rfl hwf hwf2
  · exact Tensor.sum_three_swap02 t (t.transpose 0 2) a b c x y z hshape hstride
      (by show Tensor.swapAt t.shape_ 0 2 = _; rw [hshape]; rfl)
      (by show Tensor.swapAt t.stride_ 0 2 = _; rw [hstride]; rfl) rfl rfl hwf hwf2
  · exact Tensor.sum_three_swap01 t (t.transpose 1 0) a b c x y z hshape hstride
      (by show Tensor.swapAt t.shape_ 1 0 = _; rw [hshape]; rfl)
      (by show Tensor.swapAt t.stride_ 1 0 = _; rw [hstride]; rfl) rfl rfl hwf hwf2
  · exact Tensor.sum_three_id t (t.transpose 1 1) a b c x y z hshape hstride
      (by show Tensor.swapAt t.shape_ 1 1 = _; rw [hshape]; rfl)
      (by show Tensor.swapAt t.stride_ 1 1 = _; rw [hstride]; rfl) rfl rfl hwf hwf2
  · exact Tensor.sum_three_swap12 t (t.transpose 1 2) a b c x y z hshape hstride
      (by show Tensor.swapAt t.shape_ 1 2 = _; rw [hshape]; rfl)
      (by show Tensor.swapAt t.stride_ 1 2 = _; rw [hstride]; rfl) rfl rfl hwf hwf2
  · exact Tensor.sum_three_swap02 t (t.transpose 2 0) a b c x y z hshape hstride
      (by show Tensor.swapAt t.shape_ 2 0 = _; rw [hshape]; rfl)
      (by show Tensor.swapAt t.stride_ 2 0 = _; rw [hstride]; rfl) rfl rfl hwf hwf2
  · exact Tensor.sum_three_swap12 t (t.transpose 2 1) a b c x y z hshape hstride
      (by show Tensor.swapAt t.shape_ 2 1 = _; rw [hshape]; rfl)
      (by show Tensor.swapAt t.stride_ 2 1 = _; rw [hstride]; rfl) rfl rfl hwf hwf2
  · exact Tensor.sum_three_id t (t.transpose 2 2) a b c x y z hshape hstride
      (by show Tensor.swapAt t.shape_ 2 2 = _; rw [hshape]; rfl)
      (by show Tensor.swapAt t.stride_ 2 2 = _; rw [hstride]; rfl) rfl rfl hwf hwf2

/-- On a rank-4 tensor the sum of a transposed view is the sum of the tensor. -/
theorem Tensor.transposed_sum_four (t : Tensor Int) (a b c d x y z w d0 d1 : Int)
    (hshape : t.shape_ = [a, b, c, d]) (hstride : t.stride_ = [x, y, z, w])
    (hwf : t.WellFormed) (h0 : 0 ≤ d0) (h0n : d0 < 4) (h1 : 0 ≤ d1) (h1n : d1 < 4) :
    (t.transpose d0 d1).sum false = t.sum false := by
  have hwf2 := Tensor.wellFormed_transpose t d0 d1 hwf
  have hd0 : d0 = 0 ∨ d0 = 1 ∨ d0 = 2 ∨ d0 = 3 := by omega
  have hd1 : d1 = 0 ∨ d1 = 1 ∨ d1 = 2 ∨ d1 = 3 := by omega
  rcases hd0 with rfl | rfl | rfl | rfl <;> rcases hd1 with rfl | rfl | rfl | rfl
  · exact Tensor.sum_four_id t (t.transpose 0 0) a b c d x y z w hshape hstride
      (by show Tensor.swapAt t.shape_ 0 0 = _; rw [hshape]; rfl)
      (by show Tensor.swapAt t.stride_ 0 0 = _; rw [hstride]; rfl) rfl rfl hwf hwf2
  · exact Tensor.sum_four_swap01 t (t.transpose 0 1) a b c d x y z w hshape hstride
      (by show Tensor.swapAt t.shape_ 0 1 = _; rw [hshape]; rfl)
      (by show Tensor.swapAt t.stride_ 0 1 = _; rw [hstride]; rfl) rfl rfl hwf hwf2
  · exact Tensor.sum_four_swap02 t (t.transpose 0 2) a b c d x y z w hshape hstride
      (by show Tensor.swapAt t.shape_ 0 2 = _; rw [hshape]; rfl)
      (by show Tensor.swapAt t.stride_ 0 2 = _; rw [hstride]; rfl) rfl rfl hwf hwf2
  · exact Tensor.sum_four_swap03 t (t.transpose 0 3) a b c d x y z w hshape hstride
      (by show Tensor.swapAt t.shape_ 0 3 = _; rw [hshape]; rfl)
      (by show Tensor.swapAt t.stride_ 0 3 = _; rw [hstride]; rfl) rfl rfl hwf hwf2
  · exact Tensor.sum_four_swap01 t (t.transpose 1 0) a b c d x y z w hshape hstride
      (by show Tensor.swapAt t.shape_ 1 0 = _; rw [hshape]; rfl)
      (by show Tensor.swapAt t.stride_ 1 0 = _; rw [hstride]; rfl) rfl rfl hwf hwf2
  · exact Tensor.sum_four_id t (t.transpose 1 1) a b c d x y z w hshape hstride
      (by show Tensor.swapAt t.shape_ 1 1 = _; rw [hshape]; rfl)
      (by show Tensor.swapAt t.stride_ 1 1 = _; rw [hstride]; rfl) rfl rfl hwf hwf2
  · exact Tensor.sum_four_swap12 t (t.transpose 1 2) a b c d x y z w hshape hstride
      (by show Tensor.swapAt t.shape_ 1 2 = _; rw [hshape]; rfl)
      (by show Tensor.swapAt t.stride_ 1 2 = _; rw [hstride]; rfl) rfl rfl hwf hwf2
  · exact Tensor.sum_four_swap13 t (t.transpose 1 3) a b c d x y z w hshape hstride
      (by show Tensor.swapAt t.shape_ 1 3 = _; rw [hshape]; rfl)
      (by show Tensor.swapAt t.stride_ 1 3 = _; rw [hstride]; rfl) rfl rfl hwf hwf2
  · exact Tensor.sum_four_swap02 t (t.transpose 2 0) a b c d x y z w hshape hstride
      (by show Tensor.swapAt t.shape_ 2 0 = _; rw [hshape]; rfl)
      (by show Tensor.swapAt t.stride_ 2 0 = _; rw [hstride]; rfl) rfl rfl hwf hwf2
  · exact Tensor.sum_four_swap12 t (t.transpose 2 1) a b c d x y z w hshape hstride
      (by show Tensor.swapAt t.shape_ 2 1 = _; rw [hshape]; rfl)
      (by show Tensor.swapAt t.stride_ 2 1 = _; rw [hstride]; rfl) rfl rfl hwf hwf2
  · exact Tensor.sum_four_id t (t.transpose 2 2) a b c d x y z w hshape hstride
      (by show Tensor.swapAt t.shape_ 2 2 = _; rw [hshape]; rfl)
      (by show Tensor.swapAt t.stride_ 2 2 = _; rw [hstride]; rfl) rfl rfl hwf hwf2
  · exact Tensor.sum_four_swap23 t (t.transpose 2 3) a b c d x y z w hshape hstride
      (by show Tensor.swapAt t.shape_ 2 3 = _; rw [hshape]; rfl)
      (by show Tensor.swapAt t.stride_ 2 3 = _; rw [hstride]; rfl) rfl rfl hwf hwf2
  · exact Tensor.sum_four_swap03 t (t.transpose 3 0) a b c d x y z w hshape hstride
      (by show Tensor.swapAt t.shape_ 3 0 = _; rw [hshape]; rfl)
      (by show Tensor.swapAt t.stride_ 3 0 = _; rw [hstride]; rfl) rfl rfl hwf hwf2
  · exact Tensor.sum_four_swap13 t (t.transpose 3 1) a b c d x y z w hshape hstride
      (by show Tensor.swapAt t.shape_ 3 1 = _; rw [hshape]; rfl)
      (by show Tensor.swapAt t.stride_ 3 1 = _; rw [hstride]; rfl) rfl rfl hwf hwf2
  · exact Tensor.sum_four_swap23 t (t.transpose 3 2) a b c d x y z w hshape hstride
      (by show Tensor.swapAt t.shape_ 3 2 = _; rw [hshape]; rfl)
      (by show Tensor.swapAt t.stride_ 3 2 = _; rw [hstride]; rfl) rfl rfl hwf hwf2
  · exact Tensor.sum_four_id t (t.transpose 3 3) a b c d x y z w hshape hstride
      (by show Tensor.swapAt t.shape_ 3 3 = _; rw [hshape]; rfl)
      (by show Tensor.swapAt t.stride_ 3 3 = _; rw [hstride]; rfl) rfl rfl hwf hwf2

theorem Tensor.length_eq_four (l : List Int) (h : l.length = 4) :
    ∃ a b c d, l = [a, b, c, d] := by
  match l, h with
  | [a, b, c, d], _ => exact ⟨a, b, c, d, rfl⟩

/-- C19: for a rank-3 or rank-4 integer tensor and `0 <= d0, d1 < ndim`, `sum()` of the
tensor and `sum()` of its transposed view both return the sum of the logical elements (the
values `getData` returns) over all in-range multi-indices, and the two results are equal. -/
theorem Tensor.sum_transpose (t : Tensor Int) (d0 d1 : Int) (hwf : t.WellFormed)
    (hrank : t.shape_.length = 3 ∨ t.shape_.length = 4) (h0 : 0 ≤ d0) (h0n : d0 < t.ndim)
    (h1 : 0 ≤ d1) (h1n : d1 < t.ndim) :
    (∀ indices, t.InRange indices → t.getData indices = .ok (t.element indices)) ∧
      t.sum false = .ok (Tensor.sumOver t.element t.shape_) ∧
      (t.transpose d0 d1).sum false
        = .ok (Tensor.sumOver (t.transpose d0 d1).element (t.transpose d0 d1).shape_) ∧
      (t.transpose d0 d1).sum false = t.sum false := by
  have hwf2 := Tensor.wellFormed_transpose t d0 d1 hwf
  have hlen2 : (t.transpose d0 d1).shape_.length = t.shape_.length :=
    Tensor.length_swapAt t.shape_ d0 d1
  have hnd := hwf.1
  refine ⟨fun indices hin => Tensor.getData_of_inRange t indices hwf hin, ?_⟩
  rcases hrank with h3 | h4
  · obtain ⟨a, b, c, hshape⟩ := List.length_eq_three.mp h3
    obtain ⟨x, y, z, hstride⟩ := List.length_eq_three.mp (hwf.2.trans h3)
    obtain ⟨a2, b2, c2, hshape2⟩ := List.length_eq_three.mp (hlen2.trans h3)
    refine ⟨?_, ?_, Tensor.transposed_sum_three t a b c x y z d0 d1 hshape hstride hwf h0
      (by omega) h1 (by omega)⟩
    · rw [Tensor.sum_three t a b c false hshape hwf, hshape]
      rfl
    · rw [Tensor.sum_three _ a2 b2 c2 false hshape2 hwf2, hshape2]
      rfl
  · obtain ⟨a, b, c, d, hshape⟩ := Tensor.length_eq_four _ h4
    obtain ⟨x, y, z, w, hstride⟩ := Tensor.length_eq_four _ (hwf.2.trans h4)
    obtain ⟨a2, b2, c2, e2, hshape2⟩ := Tensor.length_eq_four _ (hlen2.trans h4)
    refine ⟨?_, ?_, Tensor.transposed_sum_four t a b c d x y z w d0 d1 hshape hstride hwf h0
      (by omega) h1 (by omega)⟩
    · rw [Tensor.sum_four t a b c d false hshape hwf, hshape]
      rfl
    · rw [Tensor.sum_four _ a2 b2 c2 e2 false hshape2 hwf2, hshape2]
      rfl

/-- Example for C19: a `[2,1,2]` tensor and its transpose on the axes `0` and `2`. -/
theorem Tensor.sum_transpose_witness :
    Tensor.iota212.WellFormed ∧ (Tensor.iota212.transpose 0 2).stride_ = [1, 2, 2] ∧
      (Tensor.iota212.transpose 0 2).sum false = Tensor.iota212.sum false :=
  ⟨by decide, by decide,
    (Tensor.sum_transpose Tensor.iota212 0 2 (by decide) (by decide) (by decide) (by decide)
      (by decide) (by decide)).2.2.2⟩

/-! ## Row-major layout -/

theorem Tensor.length_rowMajor (shape : List Int) :
    (Tensor.rowMajor shape).length = shape.length := by
  induction shape with
  | nil => rfl
  | cons d rest ih => simp [Tensor.rowMajor, ih]

theorem Tensor.prod_drop_succ (shape : List Int) (i : Nat) (h : i < shape.length) :
    (shape.drop i).prod = shape.getD i 0 * (shape.drop (i + 1)).prod := by
  induction shape generalizing i with
  | nil => simp at h
  | cons d rest ih =>
      cases i with
      | zero => simp
      | succ j =>
          simp only [List.drop_succ_cons, List.getD_cons_succ]
          exact ih j (by simpa using h)

theorem Tensor.getD_rowMajor (shape : List Int) (i : Nat) (h : i < shape.length) :
    (Tensor.rowMajor shape).getD i 0 = (shape.drop (i + 1)).prod := by
  induction shape generalizing i with
  | nil => simp at h
  | cons d rest ih =>
      cases i with
      | zero => simp [Tensor.rowMajor]
      | succ j =>
          simp only [Tensor.rowMajor, List.getD_cons_succ, List.drop_succ_cons]
          exact ih j (by simpa using h)

/-- Strides that end in `1` and satisfy `stride[i] = stride[i+1] * shape[i+1]` are the
row-major strides of the shape. -/
theorem Tensor.eq_rowMajor (shape stride_ : List Int) (hlen : stride_.length = shape.length)
    (hlast : 0 < shape.length → stride_.getD (shape.length - 1) 0 = 1)
    (hstep : ∀ i, i + 1 < shape.length →
      stride_.getD i 0 = stride_.getD (i + 1) 0 * shape.getD (i + 1) 0) :
    stride_ = Tensor.rowMajor shape := by
  have key : ∀ m i, i + m + 1 = shape.length →
      stride_.getD i 0 = (shape.drop (i + 1)).prod := by
    intro m
    induction m with
    | zero =>
        intro i hi
        have h1 : i = shape.length - 1 := by omega
        rw [h1, hlast (by omega), List.drop_of_length_le (by omega)]
        rfl
    | succ k ih =>
        intro i hi
        rw [hstep i (by omega), ih (i + 1) (by omega),
          Tensor.prod_drop_succ shape (i + 1) (by omega)]
        ring
  apply Tensor.ext_getD
  · rw [hlen, Tensor.length_rowMajor]
  · intro n hn
    rw [Tensor.getD_rowMajor shape n (by omega)]
    exact key (shape.length - 1 - n) n (by omega)

theorem Tensor.initStride_eq_rowMajor (shape : List Int) :
    Tensor.initStride shape = Tensor.rowMajor shape :=
  Tensor.eq_rowMajor shape _ (Tensor.initStride_length shape)
    (fun h => Tensor.initStride_last shape h) (fun i hi => Tensor.initStride_step shape i hi)

/-- For an index whose entries are in range, the row-major index sum lies in
`[0, product(shape))`. -/
theorem Tensor.indexSum_rowMajor_bounds (indices : List Int) :
    ∀ shape : List Int, indices.length = shape.length →
      (∀ i, i < indices.length → 0 ≤ indices.getD i 0 ∧ indices.getD i 0 < shape.getD i 0) →
      0 ≤ Tensor.indexSum indices (Tensor.rowMajor shape) ∧
        Tensor.indexSum indices (Tensor.rowMajor shape) + 1 ≤ shape.prod := by
  induction indices with
  | nil =>
      intro shape hlen _
      have : shape = [] := List.length_eq_zero.mp hlen.symm
      subst this
      simp [Tensor.indexSum, Tensor.rowMajor]
  | cons ix rest ih =>
      intro shape hlen hent
      cases shape with
      | nil => simp at hlen
      | cons d ds =>
          have h0 := hent 0 (by simp)
          simp only [List.getD_cons_zero] at h0
          have hrest : ∀ i, i < rest.length →
              0 ≤ rest.getD i 0 ∧ rest.getD i 0 < ds.getD i 0 := by
            intro i hi
            have := hent (i + 1) (by simpa using hi)
            simpa using this
          obtain ⟨hlo, hhi⟩ := ih ds (by simpa using hlen) hrest
          rw [Tensor.rowMajor, Tensor.indexSum_cons]
          simp only [List.headD_cons, List.tail_cons, List.prod_cons]
          have hP : 0 < ds.prod := by omega
          constructor
          · have := mul_nonneg h0.1 (le_of_lt hP)
            omega
          · have h1 : ix * ds.prod ≤ (d - 1) * ds.prod :=
              mul_le_mul_of_nonneg_right (by omega) (le_of_lt hP)
            have h2 : (d - 1) * ds.prod = d * ds.prod - ds.prod := by ring
            omega

/-- C22 (amended): for a shape of non-negative sizes none of whose products leaves the range
of the type `int` (`Tensor.IntShape`) the constructor returns a tensor with `num_elements`
the product of the shape, the number of cells it allocated, such that, whatever its Storage
holds, every position `p` that `calculateLinearIndex` returns satisfies
`0 <= p < num_elements`, and `p` is the cell that `getData`, `setData` and `operator()`
address. -/
theorem Tensor.fromShape_in_bounds {α : Type} [Inhabited α] (shape : List Int)
    (h : Tensor.IntShape shape) :
    ∃ t : Tensor α, Tensor.fromShape.int32 shape = .ok t ∧
      t.num_elements = shape.prod ∧ t.num_elements ≤ 2147483647 ∧
      ∀ (data : Int → α) (indices : List Int) (p : Int),
        (t.withStorage data).calculateLinearIndex indices = .ok p →
          0 ≤ p ∧ p < t.num_elements ∧ toPtrdiff p = p := by
  rw [Tensor.fromShape_int32_eq shape h]
  have hprod : ¬ Tensor.countElements shape < 0 := by
    rw [Tensor.countElements_eq_prod]
    exact not_lt.mpr (List.prod_nonneg (fun d hd => (h.1 d hd).1))
  have hcount : shape.prod ≤ 2147483647 := by
    have := (h.2 shape.length (le_refl _)).1
    rwa [List.take_length] at this
  refine ⟨_, by rw [Tensor.fromShape]; exact if_neg hprod,
    Tensor.countElements_eq_prod shape,
    by show Tensor.countElements shape ≤ 2147483647
       rw [Tensor.countElements_eq_prod]; exact hcount, ?_⟩
  intro data indices p hp
  have hwf : Tensor.WellFormed (Tensor.withStorage
      ({ data_ := fun _ => default
         num_elements := Tensor.countElements shape
         scale := 0
         offset_ := 0
         stride_ := Tensor.initStride shape
         ndim := shape.length
         shape_ := shape } : Tensor α) data) :=
    ⟨rfl, Tensor.initStride_length shape⟩
  have hin := (Tensor.calculateLinearIndex_isOk_iff _ indices hwf).mp ⟨p, hp⟩
  rw [Tensor.calculateLinearIndex_of_inRange _ indices hwf hin] at hp
  injection hp with hp
  have hlen : indices.length = shape.length := by
    have := hin.1
    simpa [Tensor.withStorage] using this
  obtain ⟨hlo, hhi⟩ := Tensor.indexSum_rowMajor_bounds indices shape hlen hin.2
  have hsum : (Tensor.withStorage
      ({ data_ := fun _ => default
         num_elements := Tensor.countElements shape
         scale := 0
         offset_ := 0
         stride_ := Tensor.initStride shape
         ndim := shape.length
         shape_ := shape } : Tensor α) data).offset_
        + Tensor.indexSum indices (Tensor.withStorage
      ({ data_ := fun _ => default
         num_elements := Tensor.countElements shape
         scale := 0
         offset_ := 0
         stride_ := Tensor.initStride shape
         ndim := shape.length
         shape_ := shape } : Tensor α) data).stride_
      = Tensor.indexSum indices (Tensor.rowMajor shape) := by
    show 0 + Tensor.indexSum indices (Tensor.initStride shape) = _
    rw [Tensor.initStride_eq_rowMajor, zero_add]
  rw [hsum] at hp
  show 0 ≤ p ∧ p < Tensor.countElements shape ∧ toPtrdiff p = p
  rw [Tensor.countElements_eq_prod]
  have hple : p ≤ Tensor.indexSum indices (Tensor.rowMajor shape) := by
    rw [← hp]
    unfold toSizeT SIZE_MOD
    omega
  have hp0 : 0 ≤ p := by
    rw [← hp]
    unfold toSizeT SIZE_MOD
    omega
  refine ⟨hp0, by omega, ?_⟩
  unfold toPtrdiff
  rw [if_pos (by omega)]

/-- Example for C22: the shape `[2, 3]`. -/
theorem Tensor.fromShape_in_bounds_witness :
    Tensor.IntShape [2, 3] ∧
    ∃ t : Tensor Int, Tensor.fromShape.int32 [2, 3] = .ok t ∧
      t.num_elements = 6 ∧ t.num_elements ≤ 2147483647 ∧
      ∀ (data : Int → Int) (indices : List Int) (p : Int),
        (t.withStorage data).calculateLinearIndex indices = .ok p →
          0 ≤ p ∧ p < t.num_elements ∧ toPtrdiff p = p :=
  ⟨by decide, Tensor.fromShape_in_bounds [2, 3] (by decide)⟩

/-- C22 (as stated) fails: for the shape `{65536, 65536}`, of non-negative sizes, the
constructor stores `num_elements = 0` and allocates no cell, yet `calculateLinearIndex`
accepts the multi-index `(1, 0)` and returns the position `65536`, which `getData` then
reads. -/
theorem Tensor.fromShape_position_outside :
    (∀ d ∈ ([65536, 65536] : List Int), 0 ≤ d) ∧
      Tensor.fromShape.int32 [65536, 65536] = .ok Tensor.square65536 ∧
      Tensor.square65536.num_elements = 0 ∧
      Tensor.square65536.calculateLinearIndex [1, 0] = .ok 65536 ∧
      ¬ ((65536 : Int) < Tensor.square65536.num_elements) ∧
      Tensor.square65536.getData [1, 0] = .ok (Tensor.square65536.data_ 65536) :=
  ⟨by decide, by rfl, by decide, by decide, by decide, by rfl⟩

/-! ## Unit-width slices -/

/-- Under its guards, and on non-negative extents, `select` returns a view over the Storage
of the source whose shape lacks dimension `dim`, and an index in range for it resolves to
the position of the index with `index` inserted at `dim` in the source. -/
theorem Tensor.select_resolve {α : Type} [Inhabited α] (t : Tensor α) (dim index : Int)
    (hwf : t.WellFormed) (hnn : ∀ d ∈ t.shape_, 0 ≤ d) (hdim0 : 0 ≤ dim) (hdim : dim < t.ndim)
    (hk0 : 0 ≤ index) (hk : index < Tensor.vecGet t.shape_ dim) :
    ∃ r, t.select dim index = .ok r ∧ r.ndim = t.ndim - 1 ∧
      r.shape_ = t.shape_.eraseIdx dim.toNat ∧ r.data_ = t.data_ ∧
      ∀ indices, r.InRange indices →
        t.InRange (indices.insertIdx dim.toNat index) ∧
        r.calculateLinearIndex indices
          = t.calculateLinearIndex (indices.insertIdx dim.toNat index) := by
  have hsl := hwf.1
  have hst := hwf.2
  have hd : dim.toNat < t.shape_.length := by omega
  have hshape := Tensor.selectCopy_eq_eraseIdx t.shape_ t.shape_.length dim hdim0 rfl hd
  have hstride := Tensor.selectCopy_eq_eraseIdx t.stride_ t.shape_.length dim hdim0 hst.symm
    (by omega)
  have hcount : ¬ Tensor.countElements (t.shape_.eraseIdx dim.toNat) < 0 := by
    rw [Tensor.countElements_eq_prod]
    exact not_lt.mpr (List.prod_nonneg (fun d hd => hnn d (List.mem_of_mem_eraseIdx hd)))
  have h1 : ¬ dim ≥ t.ndim := by omega
  have h2 : ¬ index ≥ Tensor.vecGet t.shape_ dim := by omega
  have hsel : t.select dim index
      = .ok { data_ := t.data_
              num_elements := Tensor.countElements (t.shape_.eraseIdx dim.toNat)
              scale := 0
              offset_ := t.offset_ + Tensor.vecGet t.stride_ dim * index
              stride_ := t.stride_.eraseIdx dim.toNat
              ndim := ((t.shape_.eraseIdx dim.toNat).length : Int)
              shape_ := t.shape_.eraseIdx dim.toNat } := by
    simp only [Tensor.select, if_neg h1, if_neg h2, hshape, hstride, Tensor.fromShape,
      if_neg hcount]
  refine ⟨_, hsel, ?_, rfl, rfl, ?_⟩
  · simp only [List.length_eraseIdx, if_pos hd]
    omega
  · intro indices hin
    have hrwf : Tensor.WellFormed
        { data_ := t.data_
          num_elements := Tensor.countElements (t.shape_.eraseIdx dim.toNat)
          scale := 0
          offset_ := t.offset_ + Tensor.vecGet t.stride_ dim * index
          stride_ := t.stride_.eraseIdx dim.toNat
          ndim := ((t.shape_.eraseIdx dim.toNat).length : Int)
          shape_ := t.shape_.eraseIdx dim.toNat } := by
      refine ⟨rfl, ?_⟩
      simp only [List.length_eraseIdx, hst]
    obtain ⟨hlen, hent⟩ := hin
    simp only [List.length_eraseIdx, if_pos hd] at hlen
    have hlen2 : indices.length = t.shape_.length - 1 := by omega
    have hle : dim.toNat ≤ indices.length := by omega
    have hins : t.InRange (indices.insertIdx dim.toNat index) := by
      refine ⟨?_, ?_⟩
      · rw [List.length_insertIdx _ _ hle]
        push_cast
        omega
      · exact Tensor.entries_insertIdx dim.toNat indices t.shape_ index hle hd hk0
          (by rwa [Tensor.vecGet_of_nonneg _ _ hdim0] at hk) hent
    have hlin : Tensor.calculateLinearIndex
        { data_ := t.data_
          num_elements := Tensor.countElements (t.shape_.eraseIdx dim.toNat)
          scale := 0
          offset_ := t.offset_ + Tensor.vecGet t.stride_ dim * index
          stride_ := t.stride_.eraseIdx dim.toNat
          ndim := ((t.shape_.eraseIdx dim.toNat).length : Int)
          shape_ := t.shape_.eraseIdx dim.toNat } indices
        = t.calculateLinearIndex (indices.insertIdx dim.toNat index) := by
      rw [Tensor.calculateLinearIndex_of_inRange _ indices hrwf
          ⟨by simp only [List.length_eraseIdx, if_pos hd]; omega, hent⟩,
        Tensor.calculateLinearIndex_of_inRange t _ hwf hins,
        Tensor.indexSum_insertIdx dim.toNat indices t.stride_ index hle,
        Tensor.vecGet_of_nonneg _ _ hdim0]
      congr 2
      ring
    exact ⟨hins, hlin⟩

theorem Tensor.eraseIdx_set (l : List Int) :
    ∀ (n : Nat) (x : Int), (l.set n x).eraseIdx n = l.eraseIdx n := by
  induction l with
  | nil => intro n x; simp
  | cons a rest ih =>
      intro n x
      cases n with
      | zero => simp
      | succ m => simp [ih]

theorem Tensor.set_insertIdx (n : Nat) :
    ∀ (l : List Int) (a b : Int), n ≤ l.length →
      (l.insertIdx n a).set n b = l.insertIdx n b ∧ (l.insertIdx n a).getD n 0 = a := by
  induction n with
  | zero =>
      intro l a b _
      simp [List.insertIdx_zero]
  | succ m ih =>
      intro l a b h
      cases l with
      | nil => simp at h
      | cons x rest =>
          have := ih rest a b (by simpa using h)
          simp only [List.insertIdx_succ_cons, List.set_cons_succ, List.getD_cons_succ]
          exact ⟨by rw [this.1], this.2⟩

/-- C21: for a tensor with non-negative extents, `0 <= dim < ndim` and `0 <= k < shape[dim]`,
`slice(k, k+1, dim)` and `select(dim, k)` both succeed over the Storage of the source; the
slice has rank `ndim` and `shape[dim] = 1`, and for every multi-index in range for the
selection, the index with `0` inserted at position `dim` is in range for the slice and both
reads address the same Storage cell. -/
theorem Tensor.unit_slice_select {α : Type} [Inhabited α] (t : Tensor α) (dim k : Int)
    (hwf : t.WellFormed) (hnn : ∀ d ∈ t.shape_, 0 ≤ d) (hdim0 : 0 ≤ dim) (hdim : dim < t.ndim)
    (hk0 : 0 ≤ k) (hk : k < Tensor.vecGet t.shape_ dim) :
    ∃ v r, t.slice k (k + 1) dim = .ok v ∧ t.select dim k = .ok r ∧
      Tensor.vecGet v.shape_ dim = 1 ∧ v.ndim = t.ndim ∧ v.shape_.length = t.shape_.length ∧
      v.data_ = r.data_ ∧
      ∀ indices, r.InRange indices →
        v.InRange (indices.insertIdx dim.toNat 0) ∧
        v.calculateLinearIndex (indices.insertIdx dim.toNat 0)
          = r.calculateLinearIndex indices ∧
        v.getData (indices.insertIdx dim.toNat 0) = r.getData indices := by
  have hsl := hwf.1
  have hd : dim.toNat < t.shape_.length := by omega
  obtain ⟨r, hr, hrnd, hrshape, hrdata, hrres⟩ :=
    Tensor.select_resolve t dim k hwf hnn hdim0 hdim hk0 hk
  have hv := Tensor.slice_eq_ok t k (k + 1) dim hdim hk0 (by omega) (by omega) (by omega)
  have hset : Tensor.vecSet t.shape_ dim (k + 1 - k) = t.shape_.set dim.toNat 1 := by
    rw [Tensor.vecSet_of_nonneg _ _ _ hdim0]
    congr 1
    ring
  have hvshape : Tensor.vecGet (Tensor.vecSet t.shape_ dim (k + 1 - k)) dim = 1 := by
    rw [hset, Tensor.vecGet_of_nonneg _ _ hdim0, Tensor.getD_set, if_pos ⟨rfl, hd⟩]
  refine ⟨_, r, hv, hr, hvshape, rfl, ?_, hrdata.symm, ?_⟩
  · show (Tensor.vecSet t.shape_ dim (k + 1 - k)).length = t.shape_.length
    rw [hset, List.length_set]
  · intro indices hin
    obtain ⟨hins, hlin⟩ := hrres indices hin
    have hlen : (indices.length : Int) = t.ndim - 1 := by rw [hin.1, hrnd]
    have hle : dim.toNat ≤ indices.length := by omega
    have hent : ∀ i, i < indices.length →
        0 ≤ indices.getD i 0 ∧
          indices.getD i 0 < ((t.shape_.set dim.toNat 1).eraseIdx dim.toNat).getD i 0 := by
      intro i hi
      have := hin.2 i hi
      rw [hrshape] at this
      rw [Tensor.eraseIdx_set]
      exact this
    have hvin : Tensor.InRange
        { t with
          shape_ := Tensor.vecSet t.shape_ dim (k + 1 - k)
          num_elements := (t.num_elements.tdiv (Tensor.vecGet t.shape_ dim))
            * Tensor.vecGet (Tensor.vecSet t.shape_ dim (k + 1 - k)) dim
          offset_ := t.offset_ + k * Tensor.vecGet t.stride_ dim }
        (indices.insertIdx dim.toNat 0) := by
      refine ⟨?_, ?_⟩
      · show (((indices.insertIdx dim.toNat 0).length : Nat) : Int) = t.ndim
        rw [List.length_insertIdx _ _ hle]
        push_cast
        omega
      · show ∀ i, i < (indices.insertIdx dim.toNat 0).length →
          0 ≤ (indices.insertIdx dim.toNat 0).getD i 0 ∧
            (indices.insertIdx dim.toNat 0).getD i 0
              < (Tensor.vecSet t.shape_ dim (k + 1 - k)).getD i 0
        rw [hset]
        exact Tensor.entries_insertIdx dim.toNat indices (t.shape_.set dim.toNat 1) 0 hle
          (by rw [List.length_set]; exact hd) (le_refl 0)
          (by rw [Tensor.getD_set, if_pos ⟨rfl, hd⟩]; norm_num) hent
    obtain ⟨-, hvdata, -, p, hp, hpt⟩ :=
      Tensor.slice_resolve t _ k (k + 1) dim (indices.insertIdx dim.toNat 0) hwf hdim0 hv hvin
    have hshift : Tensor.vecSet (indices.insertIdx dim.toNat 0) dim
        (k + Tensor.vecGet (indices.insertIdx dim.toNat 0) dim)
        = indices.insertIdx dim.toNat k := by
      rw [Tensor.vecSet_of_nonneg _ _ _ hdim0, Tensor.vecGet_of_nonneg _ _ hdim0,
        (Tensor.set_insertIdx dim.toNat indices 0 0 hle).2, add_zero,
        (Tensor.set_insertIdx dim.toNat indices 0 k hle).1]
    rw [hshift] at hpt
    have hcalc : Tensor.calculateLinearIndex
        { t with
          shape_ := Tensor.vecSet t.shape_ dim (k + 1 - k)
          num_elements := (t.num_elements.tdiv (Tensor.vecGet t.shape_ dim))
            * Tensor.vecGet (Tensor.vecSet t.shape_ dim (k + 1 - k)) dim
          offset_ := t.offset_ + k * Tensor.vecGet t.stride_ dim }
        (indices.insertIdx dim.toNat 0) = r.calculateLinearIndex indices := by
      rw [hp, hlin, hpt]
    refine ⟨hvin, hcalc, ?_⟩
    rw [Tensor.getData, Tensor.getData, hcalc, hrdata]

/-- Example for C21: column 1 of a `[3,2]` tensor, as `slice(1, 2, 1)` and as
`select(1, 1)`. -/
theorem Tensor.unit_slice_select_witness :
    ∃ v r, Tensor.iota32.slice 1 (1 + 1) 1 = .ok v ∧ Tensor.iota32.select 1 1 = .ok r ∧
      Tensor.vecGet v.shape_ 1 = 1 ∧ v.ndim = Tensor.iota32.ndim ∧
      v.shape_.length = Tensor.iota32.shape_.length ∧ v.data_ = r.data_ ∧
      ∀ indices, r.InRange indices →
        v.InRange (indices.insertIdx 1 0) ∧
        v.calculateLinearIndex (indices.insertIdx 1 0) = r.calculateLinearIndex indices ∧
        v.getData (indices.insertIdx 1 0) = r.getData indices :=
  Tensor.unit_slice_select Tensor.iota32 1 1 (by decide) (by decide) (by decide) (by decide)
    (by decide) (by decide)

/-! ## Row-major enumeration -/

theorem Tensor.stride_eq_rowMajor_of_contiguous {α : Type} (t : Tensor α)
    (hinv : t.Invariant) (hc : t.is_contiguous = true) :
    t.stride_ = Tensor.rowMajor t.shape_ := by
  obtain ⟨h1, h2, -⟩ := hinv
  obtain ⟨hlast, hstep⟩ := (Tensor.is_contiguous_iff t).mp hc
  apply Tensor.eq_rowMajor
  · omega
  · intro hpos
    have := hlast (by omega)
    rw [← h1] at this
    simpa using this
  · intro i hi
    exact hstep i (by omega)

theorem Tensor.pos_of_prod_pos (shape : List Int) (hnn : ∀ d ∈ shape, 0 ≤ d)
    (hpos : 0 < shape.prod) : ∀ d ∈ shape, 0 < d := by
  intro d hd
  rcases lt_or_eq_of_le (hnn d hd) with h | h
  · exact h
  · exfalso
    have : shape.prod = 0 := List.prod_eq_zero (h ▸ hd)
    omega

/-- The multi-index of row-major rank `k` is in range and its row-major index sum is `k`. -/
theorem Tensor.unravel_spec (shape : List Int) :
    ∀ k : Int, (∀ d ∈ shape, 0 < d) → 0 ≤ k → k < shape.prod →
      (Tensor.unravel shape k).length = shape.length ∧
      (∀ i, i < (Tensor.unravel shape k).length →
        0 ≤ (Tensor.unravel shape k).getD i 0 ∧
          (Tensor.unravel shape k).getD i 0 < shape.getD i 0) ∧
      Tensor.indexSum (Tensor.unravel shape k) (Tensor.rowMajor shape) = k := by
  induction shape with
  | nil =>
      intro k _ h0 h1
      simp only [List.prod_nil] at h1
      have : k = 0 := by omega
      subst this
      simp [Tensor.unravel, Tensor.indexSum, Tensor.rowMajor]
  | cons d ds ih =>
      intro k hpos h0 h1
      have hd : 0 < d := hpos d (by simp)
      have hds : ∀ x ∈ ds, 0 < x := fun x hx => hpos x (by simp [hx])
      have hP : 0 < ds.prod := List.prod_pos hds
      rw [List.prod_cons] at h1
      have hq0 : 0 ≤ k / ds.prod := Int.ediv_nonneg h0 (le_of_lt hP)
      have hq1 : k / ds.prod < d := by
        apply Int.ediv_lt_of_lt_mul hP
        exact h1
      have hr0 : 0 ≤ k % ds.prod := Int.emod_nonneg k (by omega)
      have hr1 : k % ds.prod < ds.prod := Int.emod_lt_of_pos k hP
      obtain ⟨hl, hent, hsum⟩ := ih (k % ds.prod) hds hr0 hr1
      refine ⟨by simp [Tensor.unravel, hl], ?_, ?_⟩
      · intro i hi
        cases i with
        | zero => simpa [Tensor.unravel] using ⟨hq0, hq1⟩
        | succ j =>
            have := hent j (by simpa [Tensor.unravel] using hi)
            simpa [Tensor.unravel] using this
      · rw [Tensor.unravel, Tensor.rowMajor, Tensor.indexSum_cons]
        simp only [List.headD_cons, List.tail_cons, hsum]
        exact Int.ediv_add_emod' k ds.prod

theorem Tensor.length_rowMajorIndices (shape : List Int) (hpos : ∀ d ∈ shape, 0 < d) :
    ((Tensor.rowMajorIndices shape).length : Int) = shape.prod := by
  induction shape with
  | nil => simp [Tensor.rowMajorIndices]
  | cons d ds ih =>
      have hd : 0 < d := hpos d (by simp)
      have hds : ∀ x ∈ ds, 0 < x := fun x hx => hpos x (by simp [hx])
      have key : ∀ n : Nat, ((List.range n).flatMap (fun (i : Nat) =>
          (Tensor.rowMajorIndices ds).map (fun rest => (i : Int) :: rest))).length
            = n * (Tensor.rowMajorIndices ds).length := by
        intro n
        induction n with
        | zero => simp
        | succ m ihm =>
            rw [List.range_succ, List.flatMap_append, List.length_append, ihm]
            simp [List.flatMap_singleton]
            ring
      rw [Tensor.rowMajorIndices, key, List.prod_cons]
      push_cast
      rw [ih hds, Int.toNat_of_nonneg (le_of_lt hd)]

theorem Tensor.length_blocks {β : Type} (f : Nat → List β) (L : Nat) :
    ∀ n : Nat, (∀ i, i < n → (f i).length = L) →
      ((List.range n).flatMap f).length = n * L := by
  intro n
  induction n with
  | zero => intro _; simp
  | succ q ihq =>
      intro hlen
      rw [List.range_succ, List.flatMap_append, List.length_append,
        ihq (fun i hi => hlen i (by omega)), List.flatMap_singleton, hlen q (by omega)]
      ring

/-- In a concatenation of `n` blocks of the same length `L`, the entry `i * L + j` is entry
`j` of block `i`. -/
theorem Tensor.getElem?_blocks {β : Type} (f : Nat → List β) (L : Nat) :
    ∀ n : Nat, (∀ i, i < n → (f i).length = L) → ∀ i j, i < n → j < L →
      ((List.range n).flatMap f)[i * L + j]? = (f i)[j]? := by
  intro n
  induction n with
  | zero => intro _ i j hi _; omega
  | succ m ih =>
      intro hlen i j hi hj
      have hlenm : ((List.range m).flatMap f).length = m * L :=
        Tensor.length_blocks f L m (fun i hi => hlen i (by omega))
      rw [List.range_succ, List.flatMap_append, List.flatMap_singleton]
      by_cases him : i < m
      · have hlt : i * L + j < ((List.range m).flatMap f).length := by
          rw [hlenm]
          exact Tensor.cell_lt i j m L him hj
        rw [List.getElem?_append_left hlt]
        exact ih (fun i hi => hlen i (by omega)) i j him hj
      · have him2 : i = m := by omega
        subst him2
        rw [List.getElem?_append_right (by rw [hlenm]; exact Nat.le_add_right _ _), hlenm,
          Nat.add_sub_cancel_left]

/-- Entry `k` of the row-major enumeration of a shape is the multi-index of rank `k`. -/
theorem Tensor.getElem?_rowMajorIndices (shape : List Int) :
    ∀ k : Nat, (∀ d ∈ shape, 0 < d) → (k : Int) < shape.prod →
      (Tensor.rowMajorIndices shape)[k]? = some (Tensor.unravel shape (k : Int)) := by
  induction shape with
  | nil =>
      intro k _ hk
      simp only [List.prod_nil] at hk
      have : k = 0 := by omega
      subst this
      simp [Tensor.rowMajorIndices, Tensor.unravel]
  | cons d ds ih =>
      intro k hpos hk
      have hd : 0 < d := hpos d (by simp)
      have hds : ∀ x ∈ ds, 0 < x := fun x hx => hpos x (by simp [hx])
      have hP : 0 < ds.prod := List.prod_pos hds
      have hL := Tensor.length_rowMajorIndices ds hds
      rw [List.prod_cons] at hk
      have hLpos : 0 < (Tensor.rowMajorIndices ds).length := by omega
      have hq : k / (Tensor.rowMajorIndices ds).length < d.toNat := by
        have h1 : ((k / (Tensor.rowMajorIndices ds).length : Nat) : Int) < d := by
          rw [Int.natCast_div, hL]
          exact Int.ediv_lt_of_lt_mul hP hk
        omega
      have hr : k % (Tensor.rowMajorIndices ds).length < (Tensor.rowMajorIndices ds).length :=
        Nat.mod_lt k hLpos
      have hsplit : k = k / (Tensor.rowMajorIndices ds).length
          * (Tensor.rowMajorIndices ds).length + k % (Tensor.rowMajorIndices ds).length := by
        rw [Nat.mul_comm]
        exact (Nat.div_add_mod k _).symm
      have hblock := Tensor.getElem?_blocks
        (fun (i : Nat) => (Tensor.rowMajorIndices ds).map (fun rest => (i : Int) :: rest))
        (Tensor.rowMajorIndices ds).length d.toNat (fun i _ => by simp)
        (k / (Tensor.rowMajorIndices ds).length) (k % (Tensor.rowMajorIndices ds).length) hq hr
      rw [← hsplit] at hblock
      rw [Tensor.rowMajorIndices, hblock, List.getElem?_map,
        ih (k % (Tensor.rowMajorIndices ds).length) hds (by
          rw [Int.natCast_mod, hL]
          exact Int.emod_lt_of_pos _ hP)]
      simp only [Option.map_some', Tensor.unravel, Int.natCast_div, Int.natCast_mod, hL]

/-- C23: for a contiguous tensor with offset `0` and a shape (of non-negative sizes) whose
product equals `num_elements`, `view` preserves the row-major order: for every
`k < num_elements`, entry `k` of the row-major enumeration of `newShape` and entry `k` of the
row-major enumeration of `t.shape` are in range for the view and for `t`, both resolve to
position `k` of the same Storage, and the two reads return the same element. -/
theorem Tensor.view_row_major {α : Type} (t : Tensor α) (newShape : List Int)
    (hinv : t.Invariant) (hnn : ∀ d ∈ t.shape_, 0 ≤ d) (hnew : ∀ d ∈ newShape, 0 ≤ d)
    (hc : t.is_contiguous = true) (hoff : t.offset_ = 0)
    (hp : newShape.prod = t.num_elements) :
    ∃ r, t.view newShape = .ok r ∧ r.data_ = t.data_ ∧
      ∀ k : Nat, (k : Int) < t.num_elements →
        (Tensor.rowMajorIndices newShape)[k]? = some (Tensor.unravel newShape (k : Int)) ∧
        (Tensor.rowMajorIndices t.shape_)[k]? = some (Tensor.unravel t.shape_ (k : Int)) ∧
        r.InRange (Tensor.unravel newShape (k : Int)) ∧
        t.InRange (Tensor.unravel t.shape_ (k : Int)) ∧
        r.calculateLinearIndex (Tensor.unravel newShape (k : Int)) = .ok (toSizeT (k : Int)) ∧
        t.calculateLinearIndex (Tensor.unravel t.shape_ (k : Int)) = .ok (toSizeT (k : Int)) ∧
        r.getData (Tensor.unravel newShape (k : Int))
          = t.getData (Tensor.unravel t.shape_ (k : Int)) := by
  have hnum : newShape.foldl (fun num d => num * d) 1 = newShape.prod := by
    rw [Tensor.foldl_mul_eq, one_mul]
  have hview : t.view newShape = .ok (Tensor.fromShapeData newShape t.data_) := by
    simp only [Tensor.view, hc, hnum]
    rw [if_neg (by simp), if_neg (by simpa using hp)]
  refine ⟨_, hview, rfl, ?_⟩
  intro k hk
  obtain ⟨h1, h2, h3⟩ := hinv
  have hk0 : (0 : Int) ≤ (k : Int) := Int.ofNat_nonneg k
  have hposNew : ∀ d ∈ newShape, 0 < d :=
    Tensor.pos_of_prod_pos newShape hnew (by omega)
  have hposOld : ∀ d ∈ t.shape_, 0 < d :=
    Tensor.pos_of_prod_pos t.shape_ hnn (by omega)
  obtain ⟨hl1, hent1, hsum1⟩ := Tensor.unravel_spec newShape (k : Int) hposNew hk0 (by omega)
  obtain ⟨hl2, hent2, hsum2⟩ := Tensor.unravel_spec t.shape_ (k : Int) hposOld hk0 (by omega)
  have hrwf : (Tensor.fromShapeData newShape t.data_).WellFormed :=
    ⟨rfl, Tensor.initStride_length newShape⟩
  have htwf : t.WellFormed := ⟨h1, by omega⟩
  have hrin : (Tensor.fromShapeData newShape t.data_).InRange
      (Tensor.unravel newShape (k : Int)) :=
    ⟨by rw [hl1]; rfl, hent1⟩
  have htin : t.InRange (Tensor.unravel t.shape_ (k : Int)) :=
    ⟨by rw [hl2]; exact h1, hent2⟩
  have hrcalc : (Tensor.fromShapeData newShape t.data_).calculateLinearIndex
      (Tensor.unravel newShape (k : Int)) = .ok (toSizeT (k : Int)) := by
    rw [Tensor.calculateLinearIndex_of_inRange _ _ hrwf hrin]
    show Except.ok (toSizeT (0 + Tensor.indexSum (Tensor.unravel newShape (k : Int))
      (Tensor.initStride newShape))) = _
    rw [Tensor.initStride_eq_rowMajor, hsum1, zero_add]
  have htcalc : t.calculateLinearIndex (Tensor.unravel t.shape_ (k : Int))
      = .ok (toSizeT (k : Int)) := by
    rw [Tensor.calculateLinearIndex_of_inRange _ _ htwf htin, hoff,
      Tensor.stride_eq_rowMajor_of_contiguous t ⟨h1, h2, h3⟩ hc, hsum2, zero_add]
  refine ⟨Tensor.getElem?_rowMajorIndices newShape k hposNew (by omega),
    Tensor.getElem?_rowMajorIndices t.shape_ k hposOld (by omega), hrin, htin, hrcalc, htcalc,
    ?_⟩
  rw [Tensor.getData, Tensor.getData, hrcalc, htcalc]
  rfl

/-- Example for C23: a contiguous `[3,2]` tensor viewed with the shape `[2,3]`. -/
theorem Tensor.view_row_major_witness :
    ∃ r, Tensor.iota32.view [2, 3] = .ok r ∧ r.data_ = Tensor.iota32.data_ ∧
      ∀ k : Nat, (k : Int) < Tensor.iota32.num_elements →
        (Tensor.rowMajorIndices [2, 3])[k]? = some (Tensor.unravel [2, 3] (k : Int)) ∧
        (Tensor.rowMajorIndices Tensor.iota32.shape_)[k]?
          = some (Tensor.unravel Tensor.iota32.shape_ (k : Int)) ∧
        r.InRange (Tensor.unravel [2, 3] (k : Int)) ∧
        Tensor.iota32.InRange (Tensor.unravel Tensor.iota32.shape_ (k : Int)) ∧
        r.calculateLinearIndex (Tensor.unravel [2, 3] (k : Int)) = .ok (toSizeT (k : Int)) ∧
        Tensor.iota32.calculateLinearIndex (Tensor.unravel Tensor.iota32.shape_ (k : Int))
          = .ok (toSizeT (k : Int)) ∧
        r.getData (Tensor.unravel [2, 3] (k : Int))
          = Tensor.iota32.getData (Tensor.unravel Tensor.iota32.shape_ (k : Int)) :=
  Tensor.view_row_major Tensor.iota32 [2, 3] (by decide) (by decide) (by decide) (by decide)
    (by decide) (by decide)

/-! ## The descriptor invariant -/

theorem Tensor.prod_set (l : List Int) :
    ∀ (n : Nat) (x : Int), n < l.length →
      l.prod = l.getD n 0 * (l.eraseIdx n).prod ∧
        (l.set n x).prod = x * (l.eraseIdx n).prod := by
  induction l with
  | nil => intro n x h; simp at h
  | cons a rest ih =>
      intro n x h
      cases n with
      | zero => simp
      | succ m =>
          obtain ⟨h1, h2⟩ := ih m x (by simpa using h)
          simp only [List.set_cons_succ, List.prod_cons, List.getD_cons_succ,
            List.eraseIdx_cons_succ, h1, h2]
          constructor <;> ring

/-- Exchanging two entries of a vector keeps the product of its entries. -/
theorem Tensor.prod_swap (l : List Int) :
    ∀ i j : Nat, i < l.length → j < l.length →
      ((l.set i (l.getD j 0)).set j (l.getD i 0)).prod = l.prod := by
  induction l with
  | nil => intro i j h; simp at h
  | cons a rest ih =>
      intro i j hi hj
      cases i with
      | zero =>
          cases j with
          | zero => simp
          | succ m =>
              have hm : m < rest.length := by simpa using hj
              obtain ⟨h1, h2⟩ := Tensor.prod_set rest m a hm
              simp only [List.getD_cons_succ, List.getD_cons_zero, List.set_cons_zero,
                List.set_cons_succ, List.prod_cons, h2]
              rw [h1]
              ring
      | succ n =>
          cases j with
          | zero =>
              have hn : n < rest.length := by simpa using hi
              obtain ⟨h1, h2⟩ := Tensor.prod_set rest n a hn
              simp only [List.getD_cons_succ, List.getD_cons_zero, List.set_cons_zero,
                List.set_cons_succ, List.prod_cons, h2]
              rw [h1]
              ring
          | succ m =>
              simp only [List.getD_cons_succ, List.set_cons_succ, List.prod_cons]
              rw [ih n m (by simpa using hi) (by simpa using hj)]

/-- A successful `slice` keeps the descriptor invariant; the sliced dimension then is not
empty, and the new extent may be `0`. -/
theorem Tensor.invariant_slice {α : Type} (t r : Tensor α) (startIdx endIdx dim : Int)
    (hinv : t.Invariant) (hr : t.slice startIdx endIdx dim = .ok r) : r.Invariant := by
  obtain ⟨hreq, hdim, -, -, -, hne⟩ := Tensor.slice_ok_inv t r startIdx endIdx dim hr
  obtain ⟨h1, h2, h3⟩ := hinv
  have hdim0 : 0 ≤ dim := by
    by_contra hneg
    apply hne
    rw [Tensor.vecGet, if_pos (by omega)]
  have hd : dim.toNat < t.shape_.length := by omega
  obtain ⟨hp1, hp2⟩ := Tensor.prod_set t.shape_ dim.toNat (endIdx - startIdx) hd
  rw [Tensor.vecGet_of_nonneg _ _ hdim0] at hne
  subst hreq
  refine ⟨?_, h2, ?_⟩
  · show (((Tensor.vecSet t.shape_ dim (endIdx - startIdx)).length : Nat) : Int) = t.ndim
    rw [Tensor.vecSet_of_nonneg _ _ _ hdim0, List.length_set]
    exact h1
  · show t.num_elements.tdiv (Tensor.vecGet t.shape_ dim)
        * Tensor.vecGet (Tensor.vecSet t.shape_ dim (endIdx - startIdx)) dim
      = (Tensor.vecSet t.shape_ dim (endIdx - startIdx)).prod
    rw [Tensor.vecSet_of_nonneg _ _ _ hdim0, Tensor.vecGet_of_nonneg _ _ hdim0,
      Tensor.vecGet_of_nonneg _ _ hdim0, Tensor.getD_set, if_pos ⟨rfl, hd⟩, hp2, h3]
    have : (t.shape_.prod).tdiv (t.shape_.getD dim.toNat 0)
        = (t.shape_.eraseIdx dim.toNat).prod := by
      conv_lhs => rw [hp1]
      exact Int.mul_tdiv_cancel_left _ hne
    rw [this]
    ring

/-- A successful `select` returns a descriptor with the invariant. -/
theorem Tensor.invariant_select {α : Type} [Inhabited α] (t r : Tensor α) (dim index : Int)
    (hr : t.select dim index = .ok r) : r.Invariant := by
  unfold Tensor.select at hr
  split at hr
  · cases hr
  · split at hr
    · cases hr
    · simp only [Tensor.fromShape] at hr
      split at hr
      · cases hr
      · rename_i result hres
        split at hres
        · cases hres
        · injection hres with hres
          injection hr with hr
          subst hres
          subst hr
          refine ⟨rfl, ?_, Tensor.countElements_eq_prod _⟩
          show (((Tensor.selectCopy t.stride_ t.shape_.length dim).length : Nat) : Int)
            = ((Tensor.selectCopy t.shape_ t.shape_.length dim).length : Nat)
          simp [Tensor.selectCopy]

/-- With both axes in range, `transpose` keeps the descriptor invariant. -/
theorem Tensor.invariant_transpose {α : Type} (t : Tensor α) (dim0 dim1 : Int)
    (hinv : t.Invariant) (h0 : 0 ≤ dim0) (h0n : dim0 < t.ndim) (h1 : 0 ≤ dim1)
    (h1n : dim1 < t.ndim) : (t.transpose dim0 dim1).Invariant := by
  obtain ⟨hs, hst, hnum⟩ := hinv
  refine ⟨?_, ?_, ?_⟩
  · show (((Tensor.swapAt t.shape_ dim0 dim1).length : Nat) : Int) = t.ndim
    rw [Tensor.length_swapAt]
    exact hs
  · show (((Tensor.swapAt t.stride_ dim0 dim1).length : Nat) : Int) = t.ndim
    rw [Tensor.length_swapAt]
    exact hst
  · show t.num_elements = (Tensor.swapAt t.shape_ dim0 dim1).prod
    rw [Tensor.swapAt, Tensor.vecSet_of_nonneg _ _ _ h1, Tensor.vecSet_of_nonneg _ _ _ h0,
      Tensor.vecGet_of_nonneg _ _ h0, Tensor.vecGet_of_nonneg _ _ h1,
      Tensor.prod_swap t.shape_ dim0.toNat dim1.toNat (by omega) (by omega)]
    exact hnum

/-- A successful `view` returns a descriptor with the invariant. -/
theorem Tensor.invariant_view {α : Type} (t r : Tensor α) (newShape : List Int)
    (hr : t.view newShape = .ok r) : r.Invariant := by
  unfold Tensor.view at hr
  split at hr
  · cases hr
  · simp only at hr
    split at hr
    · cases hr
    · injection hr with hr
      subst hr
      exact ⟨rfl, by
        show (((Tensor.initStride newShape).length : Nat) : Int) = (newShape.length : Nat)
        rw [Tensor.initStride_length], Tensor.countElements_eq_prod newShape⟩

/-- The descriptor invariant is kept by every `slice`, `select` and `view` that returns, and
by `transpose` on two axes in range. A `slice` returns only on a dimension that is not
empty. -/
theorem Tensor.invariant_of_views {α : Type} [Inhabited α] (t : Tensor α)
    (hinv : t.Invariant) :
    (∀ startIdx endIdx dim r, t.slice startIdx endIdx dim = .ok r →
        r.Invariant ∧ Tensor.vecGet t.shape_ dim ≠ 0) ∧
      (∀ dim index r, t.select dim index = .ok r → r.Invariant) ∧
      (∀ dim0 dim1, 0 ≤ dim0 → dim0 < t.ndim → 0 ≤ dim1 → dim1 < t.ndim →
        (t.transpose dim0 dim1).Invariant) ∧
      (∀ newShape r, t.view newShape = .ok r → r.Invariant) :=
  ⟨fun startIdx endIdx dim r hr =>
      ⟨Tensor.invariant_slice t r startIdx endIdx dim hinv hr,
        (Tensor.slice_ok_inv t r startIdx endIdx dim hr).2.2.2.2.2⟩,
    fun dim index r hr => Tensor.invariant_select t r dim index hr,
    fun dim0 dim1 h0 h0n h1 h1n => Tensor.invariant_transpose t dim0 dim1 hinv h0 h0n h1 h1n,
    fun newShape r hr => Tensor.invariant_view t r newShape hr⟩

/-- C24 fails on a slice of a zero-sized dimension: `Tensor<int>({0, 3})` has the descriptor
invariant (`num_elements = 0`), the bounds of `slice(0, 0, 0)` pass both guards, and the
statement `num_elements / shape_[dim] * (endIdx - startIdx)` then divides by
`shape_[0] = 0`: there is no result tensor. A slice down to a zero-sized dimension,
`slice(1, 1, 0)` of a `[3,2]` tensor, returns with `num_elements = 0`. -/
theorem Tensor.slice_empty_dimension :
    (Tensor.emptyRows.map fun t => (t.shape_, t.stride_, t.ndim, t.num_elements))
        = .ok ([0, 3], [3, 1], 2, 0) ∧
      (Tensor.emptyRows.map fun t => decide t.Invariant) = .ok true ∧
      (Tensor.emptyRows.bind fun t => (t.slice 0 0 0).map fun r => r.num_elements)
        = .error .division_by_zero ∧
      ((Tensor.iota32.slice 1 1 0).map fun r => (r.shape_, r.num_elements, decide r.Invariant))
        = .ok ([0, 2], 0, true) :=
  ⟨by decide, by decide, by decide, by decide⟩
